import Mathlib

/-!
# Battle engine of pokemon-c: wild encounters, trainer battles and the bag

A shallow embedding of `src/io.cpp` (`io_encounter_pokemon`, `io_battle`,
`io_world_bag`, `io_battle_choice`) and of the `Pokemon` class declared in
`src/pokemon.h`.

Conventions of the embedding:

* C++ `int` values are mathematical integers (`Int`); `/` and `%` are the
  truncating `Int.tdiv` and `Int.tmod`.  The products and sums of the damage
  expression (io.cpp:511) and of the escape odds (io.cpp:779), whose operands the
  program does not bound, wrap around modulo `2 ^ 32` as in the compiled program
  (`wrap_int`); counters, indices, item counts and hp are far from the ends of the
  32-bit range and no wrap-around is modelled for them.
* `getch()` reads the next element of a finite list of pending keys; when the list
  is empty the program blocks for ever, which is the fault `no_input`.
* `rand()` reads an infinite stream `rand : Nat → Nat` at the position `rand_pos`.
* `std::vector::at` throws on a bad index (fault `out_of_range`); integer division
  by zero, the use of a deleted object and the read of an uninitialised local are
  undefined behaviour, each with a fault of its own.
* `world.pc.poke` is a vector of pointers to distinct objects; it is a list of
  values, and a write through `poke.at(i)->` is `List.set`.
* Screen output (`mvprintw`, `clear_window`, `refresh`) has no effect on the state
  and is left out, but every `getch()` that waits for a key after a message is kept.
-/

namespace PokemonC

/-! ## Faults -/

/-- Ways in which a run leaves the defined, returning behaviour of the program. -/
inductive Fault where
  /-- `std::vector::at` was called with an index outside the vector. -/
  | out_of_range
  /-- An integer division or remainder by zero. -/
  | div_by_zero
  /-- An object was used after `delete`. -/
  | use_after_free
  /-- A local variable was read before any assignment. -/
  | uninitialized
  /-- A move getter was called with an index that names no move. -/
  | bad_move_index
  /-- Function `getch()` was called with no key pending: the program waits for ever. -/
  | no_input
  /-- An integer division whose quotient is no `int`: the least `int` divided by -1. -/
  | int_overflow
  deriving DecidableEq, Repr

/-! ## The Pokemon entity (`src/pokemon.h`) -/

/-- One move of a Pokemon, with the four attributes the getters
`get_move_power`, `get_move_acc`, `get_move_priority`, `get_move_type` return. -/
structure Move where
  power : Int
  acc : Int
  priority : Int
  type : Int
  deriving DecidableEq, Repr

/-- Class `Pokemon` of `src/pokemon.h`.  The six `effective_stat` entries are the
fields `stat_hp` .. `stat_speed` (the enumerators of `pokemon_stat`); the current hp
is `effective_stat[stat_hp]`.  The moves behind `move_index` are the list `moves`
and `base_speed` is the species value read by `get_base_speed`. -/
structure Pokemon where
  level : Int
  stat_hp : Int
  stat_atk : Int
  stat_def : Int
  stat_spatk : Int
  stat_spdef : Int
  stat_speed : Int
  base_speed : Int
  max_hp : Int
  moves : List Move
  type : List Int
  shiny : Bool
  deriving DecidableEq, Repr

namespace Pokemon

/-- Getter `get_hp`. -/
def get_hp (p : Pokemon) : Int := p.stat_hp

/-- Getter `get_max_hp`. -/
def get_max_hp (p : Pokemon) : Int := p.max_hp

/-- Getter `get_atk`. -/
def get_atk (p : Pokemon) : Int := p.stat_atk

/-- Getter `get_def`. -/
def get_def (p : Pokemon) : Int := p.stat_def

/-- Getter `get_speed`. -/
def get_speed (p : Pokemon) : Int := p.stat_speed

/-- Getter `get_base_speed`. -/
def get_base_speed (p : Pokemon) : Int := p.base_speed

/-- Getter `get_level`. -/
def get_level (p : Pokemon) : Int := p.level

/-- Getter `get_num_moves`. -/
def get_num_moves (p : Pokemon) : Int := p.moves.length

/-- Modelled from the spec: `Pokemon::is_knocked` (its body, in pokemon.cpp, is not
among the sources).  Section 3: `is_knocked() ⇔ hp == 0`. -/
def is_knocked (p : Pokemon) : Bool := p.stat_hp == 0

/-- Modelled from the spec: `Pokemon::set_hp` (its body, in pokemon.cpp, is not among
the sources).  Section 4.1: `set_hp` clamps to `[0, max_hp]`. -/
def set_hp (p : Pokemon) (new_hp : Int) : Pokemon :=
  { p with stat_hp := max 0 (min new_hp p.max_hp) }

/-- Modelled from the spec: `Pokemon::add_hp` (its body, in pokemon.cpp, is not among
the sources).  Section 4.1: `add_hp` adds then clamps at `max_hp`. -/
def add_hp (p : Pokemon) (health : Int) : Pokemon :=
  { p with stat_hp := min (p.stat_hp + health) p.max_hp }

/-- Modelled from the spec: `Pokemon::subtract_hp` (its body, in pokemon.cpp, is not
among the sources).  Section 4.1: `subtract_hp` subtracts then clamps at `0`. -/
def subtract_hp (p : Pokemon) (damage : Int) : Pokemon :=
  { p with stat_hp := max (p.stat_hp - damage) 0 }

/-- The move a getter `get_move_*(i)` reads: defined for `0 ≤ i < get_num_moves()`. -/
def get_move (p : Pokemon) (i : Int) : Except Fault Move :=
  if 0 ≤ i ∧ i < p.moves.length then
    match p.moves.get? i.toNat with
    | some m => .ok m
    | none => .error .bad_move_index
  else .error .bad_move_index

/-- Getter `get_move_power`. -/
def get_move_power (p : Pokemon) (i : Int) : Except Fault Int :=
  (p.get_move i).map Move.power

/-- Getter `get_move_acc`. -/
def get_move_acc (p : Pokemon) (i : Int) : Except Fault Int :=
  (p.get_move i).map Move.acc

/-- Getter `get_move_priority`. -/
def get_move_priority (p : Pokemon) (i : Int) : Except Fault Int :=
  (p.get_move i).map Move.priority

/-- Getter `get_move_type`. -/
def get_move_type (p : Pokemon) (i : Int) : Except Fault Int :=
  (p.get_move i).map Move.type

end Pokemon

/-! ## The player and the process state -/

/-- The fields of `world.pc` the battle code reads and writes. -/
structure Pc where
  poke : List Pokemon
  num_poke : Int
  num_pokeballs : Int
  num_potions : Int
  num_revives : Int
  deriving DecidableEq, Repr

/-- The process-wide state: the player, the keys still to be read by `getch()` and
the number of `rand()` calls made so far. -/
structure Sys where
  pc : Pc
  keys : List Int
  rand_pos : Nat
  deriving DecidableEq, Repr

/-- Call `getch()`: the next pending key. -/
def getch (s : Sys) : Except Fault (Int × Sys) :=
  match s.keys with
  | [] => .error .no_input
  | k :: ks => .ok (k, { s with keys := ks })

/-- Call `rand()`: the next value of the random stream. -/
def next_rand (rand : Nat → Nat) (s : Sys) : Int × Sys :=
  ((rand s.rand_pos : Int), { s with rand_pos := s.rand_pos + 1 })

/-- Conversion of the `int` returned by `getch()` to `char` (`char input = getch()`),
a signed 8-bit value. -/
def to_char (k : Int) : Int := (k + 128) % 256 - 128

/-- Call `v.at(i)` on a vector: the element, or the `out_of_range` exception. -/
def vec_at {α : Type} (v : List α) (i : Int) : Except Fault α :=
  if 0 ≤ i ∧ i < v.length then
    match v.get? i.toNat with
    | some a => .ok a
    | none => .error .out_of_range
  else .error .out_of_range

/-- The value an `int` sum or product leaves for the exact result `x`: the number
congruent to `x` modulo `2 ^ 32` in the range `-2 ^ 31 ≤ . < 2 ^ 31` of `int`
(two's complement wrap-around, as the compiled program computes). -/
def wrap_int (x : Int) : Int := (x + 2 ^ 31) % 2 ^ 32 - 2 ^ 31

/-- The quotient `a / b` of two `int`s: truncating division.  A zero divisor is
undefined, and so is the least `int` divided by -1, whose quotient is no `int`. -/
def int_div (a b : Int) : Except Fault Int :=
  if b = 0 then .error Fault.div_by_zero
  else if a = -2 ^ 31 ∧ b = -1 then .error Fault.int_overflow
  else .ok (a.tdiv b)

/-- A write through the pointer `world.pc.poke.at(i)`. -/
def set_poke (pc : Pc) (i : Int) (q : Pokemon) : Pc :=
  { pc with poke := pc.poke.set i.toNat q }

/-- The loop that prints the party before a member is chosen (io.cpp:803-810,
844-851, 903-910): it reads `world.pc.poke.at(j)` for every `0 ≤ j < num_poke`. -/
def print_party (pc : Pc) : Except Fault Unit :=
  if (pc.poke.length : Int) < pc.num_poke then .error .out_of_range else .ok ()

/-! ## The overworld bag (`io_world_bag`) -/

/-- Function `io_world_bag` (io.cpp:819-946). -/
def io_world_bag (s : Sys) : Except Fault Sys := do
  let (k, s) ← getch s
  let input := k - 48
  if input = 1 then
    let (_, s) ← getch s
    pure s
  else if input = 2 then
    if s.pc.num_potions ≠ 0 then
      print_party s.pc
      let (k, s) ← getch s
      let choice := k - 49
      let t ← vec_at s.pc.poke choice
      if t.get_hp + 20 > t.get_max_hp then
        if t.get_max_hp - t.get_hp = 0 then
          let (_, s) ← getch s
          pure s
        else
          let s := { s with pc := { set_poke s.pc choice (t.set_hp t.get_max_hp) with
                                    num_potions := s.pc.num_potions - 1 } }
          let (_, s) ← getch s
          pure s
      else
        let s := { s with pc := { set_poke s.pc choice (t.add_hp 20) with
                                  num_potions := s.pc.num_potions - 1 } }
        let (_, s) ← getch s
        pure s
    else
      let (_, s) ← getch s
      pure s
  else if input = 3 then
    if s.pc.num_revives ≠ 0 then
      print_party s.pc
      let (k, s) ← getch s
      let choice := k - 49
      let t ← vec_at s.pc.poke choice
      if !t.is_knocked then
        let (_, s) ← getch s
        pure s
      else
        let s := { s with pc := { set_poke s.pc choice (t.add_hp (t.get_max_hp.tdiv 2)) with
                                  num_potions := s.pc.num_potions - 1 } }
        let (_, s) ← getch s
        pure s
    else
      let (_, s) ← getch s
      pure s
  else
    pure s

/-! ## Damage (io.cpp:494-511 and its three copies) -/

/-- The number of binary digits of `n`, found by halving at most `fuel` times; the
digits of `n` are counted in full when `n ≤ fuel`. -/
def bit_length : Nat → Nat → Nat
  | 0, _ => 0
  | fuel + 1, n => if n = 0 then 0 else bit_length fuel (n / 2) + 1

/-- The IEEE-754 binary64 value nearest to `n / 2 ^ 53` (ties to even), again as a
numerator over `2 ^ 53`; `n` is a natural number, so no exponent limit is met. -/
def round_binary64 (n : Nat) : Nat :=
  let bits := bit_length n n
  if bits ≤ 53 then n
  else
    let sh := bits - 53
    let q := n / 2 ^ sh
    let r := n % 2 ^ sh
    let half := 2 ^ (sh - 1)
    let q := if r > half ∨ (r = half ∧ q % 2 = 1) then q + 1 else q
    q * 2 ^ sh

/-- The double `k / 100.0` for an integer `0 ≤ k`, as a numerator over `2 ^ 53`
(correctly rounded division; for `50 ≤ k ≤ 100` the quotient has exponent `-1` or
`0`, so the rounding is to a multiple of `2 ^ (-53)`). -/
def random_factor_binary64 (k : Nat) : Nat :=
  let n := k * 2 ^ 53
  let q := n / 100
  let r := n % 100
  if r > 50 ∨ (r = 50 ∧ q % 2 = 1) then q + 1 else q

/-- The double product of a non-negative double (a numerator over `2 ^ 53`) and a
non-negative `int` converted to double, rounded to binary64. -/
def mul_binary64 (x : Nat) (m : Int) : Nat := round_binary64 (x * m.natAbs)

/-- The conversion to `int` of a non-negative double: truncation. -/
def trunc_binary64 (x : Nat) : Int := ((x / 2 ^ 53 : Nat) : Int)

/-- The conversion of the double constant `1.5` to `int`, as in `critical = 1.5` and
`stab = 1.5` where the variables are declared `int`. -/
def int_of_1_5 : Int := Int.tdiv 3 2

/-- The value of the `int` variable `critical` (io.cpp:494-496): it is initialised to
`1` and assigned `1.5` when `get_base_speed() / 2 > rand() % 255`. -/
def critical_of (base_speed : Int) (draw : Int) : Int :=
  if base_speed.tdiv 2 > draw.tmod 255 then int_of_1_5 else 1

/-- The value of the `int` variable `stab` (io.cpp:500-504): initialised to `1` and
assigned `1.5` for every type of the attacker equal to the type of the move. -/
def stab_of (types : List Int) (move_type : Int) : Int :=
  types.foldl (fun stab t => if t = move_type then int_of_1_5 else stab) 1

/-- The expression assigned to `damage` (io.cpp:511): the `int`
`((2 * level) / 5 + 2) * power * (atk / def) / 50 + 2` times the `int` `critical`,
every product and sum wrapping around as `int` arithmetic does, then, as doubles, times
`random = (rand() % 16 + 85) / 100.0`, times `stab` and times `type = 1`; the result is
converted to `int`.  The `int` factor lies in the range of `int`, so its conversion to
double is exact; its sign is carried separately, the other factors being positive. -/
def compute_damage (attacker defender : Pokemon) (move : Int) (crit_draw rand_draw : Int) :
    Except Fault Int := do
  let critical := critical_of attacker.get_base_speed crit_draw
  let k := rand_draw.tmod 16 + 85
  let type : Int := 1
  let stab ← (if attacker.type.length > 0 then
      (attacker.get_move_type move).map (stab_of attacker.type) else pure 1)
  let power ← attacker.get_move_power move
  let ratio ← int_div attacker.get_atk defender.get_def
  let lvl := wrap_int ((wrap_int (2 * attacker.get_level)).tdiv 5 + 2)
  let base := wrap_int (wrap_int ((wrap_int (wrap_int (lvl * power) * ratio)).tdiv 50 + 2) *
      critical)
  let x := round_binary64 (base.natAbs * random_factor_binary64 k.toNat)
  let x := mul_binary64 (mul_binary64 x stab) type
  pure (if 0 ≤ base then trunc_binary64 x else - trunc_binary64 x)

/-- One attack (io.cpp:492-529 and its copies): the accuracy test against `move_hit`,
then on a hit the two `rand()` calls, the damage and `subtract_hp` on the defender;
either way one key is awaited after the message.  Returns the defender. -/
def attack (rand : Nat → Nat) (attacker defender : Pokemon) (move : Option Int)
    (move_hit : Int) (s : Sys) : Except Fault (Pokemon × Sys) := do
  let mv ← (match move with
    | some m => pure m
    | none => throw Fault.uninitialized)
  let acc ← attacker.get_move_acc mv
  if move_hit < acc then
    let (crit_draw, s) := next_rand rand s
    let (rand_draw, s) := next_rand rand s
    let damage ← compute_damage attacker defender mv crit_draw rand_draw
    let defender := defender.subtract_hp damage
    let (_, s) ← getch s
    pure (defender, s)
  else
    let (_, s) ← getch s
    pure (defender, s)

/-! ## The wild encounter (`io_encounter_pokemon`) -/

/-- The state of one run of `io_encounter_pokemon`: the process state, the wild
Pokemon `*p`, whether `delete p` has been executed (the pointer `p` itself is never
reset, so `while(p)` never ends the loop), and the locals `pc_poke`, `attempt`,
`pc_turn`, `p_turn`. -/
structure Enc where
  sys : Sys
  p : Pokemon
  p_deleted : Bool
  pc_poke : Int
  attempt : Int
  pc_turn : Int
  p_turn : Int
  deriving DecidableEq, Repr

/-- How one pass through the body of a loop ends: the loop goes on (the end of the
body or `continue`) or is left (`break`). -/
inductive Ctl where
  | next
  | exit
  deriving DecidableEq, Repr

/-- Function `io_battle_choice(NULL, p, 0, pc_poke)` (io.cpp:377-413, the branch for a
wild Pokemon): it only prints, but reads `world.pc.poke.at(pc_poke)` and then `*p`. -/
def io_battle_choice_wild (e : Enc) : Except Fault Unit := do
  let _ ← vec_at e.sys.pc.poke e.pc_poke
  if e.p_deleted then throw Fault.use_after_free
  pure ()

/-- The inner loop `while(!action_taken)` of the Bag action (io.cpp:684-771), with the
number of passes bounded by `fuel`; returns `poke_captured`. -/
def encounter_bag : Nat → Enc → Except Fault (Int × Enc)
  | 0, _ => .error .no_input
  | fuel + 1, e => do
    let (k, s) ← getch e.sys
    let e := { e with sys := s }
    let choice := k - 48
    if choice = 1 then
      if e.sys.pc.num_poke = (6 : Int) then
        let (_, s) ← getch e.sys
        pure (0, { e with sys := s, p_deleted := true })
      else
        let (_, s) ← getch e.sys
        let pc := { s.pc with num_poke := s.pc.num_poke + 1 }
        let pc := { pc with poke := pc.poke ++ [e.p] }
        let pc := { pc with num_pokeballs := pc.num_pokeballs - 1 }
        pure (1, { e with sys := { s with pc := pc } })
    else if choice = 2 then
      let t ← vec_at e.sys.pc.poke e.pc_poke
      if t.is_knocked then
        let (_, s) ← getch e.sys
        encounter_bag fuel { e with sys := s }
      else if t.get_hp + 20 > t.get_max_hp then
        if t.get_max_hp - t.get_hp = 0 then
          let (_, s) ← getch e.sys
          encounter_bag fuel { e with sys := s }
        else
          let pc := set_poke e.sys.pc e.pc_poke (t.set_hp t.get_max_hp)
          let pc := { pc with num_potions := pc.num_potions - 1 }
          pure (0, { e with sys := { e.sys with pc := pc } })
      else
        let pc := set_poke e.sys.pc e.pc_poke (t.add_hp 20)
        let pc := { pc with num_potions := pc.num_potions - 1 }
        pure (0, { e with sys := { e.sys with pc := pc } })
    else if choice = 3 then
      let t ← vec_at e.sys.pc.poke e.pc_poke
      if t.is_knocked then
        let pc := set_poke e.sys.pc e.pc_poke (t.set_hp (t.get_max_hp.tdiv 2))
        let pc := { pc with num_revives := pc.num_revives - 1 }
        pure (0, { e with sys := { e.sys with pc := pc } })
      else
        let (_, s) ← getch e.sys
        encounter_bag fuel { e with sys := s }
    else
      pure (0, e)

/-- The right-hand side of `escape_odd` (io.cpp:779), from the two speeds and the value
of `attempt` after its increment: `(speed * 32) / ((p_speed / 4) % 256) + (30 * attempt)`
in `int` arithmetic, the two products and the sum wrapping around. -/
def escape_odd (pc_speed p_speed attempt : Int) : Except Fault Int := do
  let q ← int_div (wrap_int (pc_speed * 32)) ((p_speed.tdiv 4).tmod 256)
  pure (wrap_int (q + wrap_int (30 * attempt)))

/-- The Run action (io.cpp:776-797). -/
def encounter_run (rand : Nat → Nat) (e : Enc) : Except Fault (Ctl × Enc) := do
  let e := { e with attempt := e.attempt + 1 }
  let t ← vec_at e.sys.pc.poke e.pc_poke
  let escape_odd ← escape_odd t.get_speed e.p.get_speed e.attempt
  let (r, s) := next_rand rand e.sys
  let e := { e with sys := s }
  if r.tmod 256 ≤ escape_odd then
    let (_, s) ← getch e.sys
    pure (Ctl.exit, { e with sys := s, p_deleted := true })
  else
    let (_, s) ← getch e.sys
    pure (Ctl.next, { e with sys := s })

/-- The Pokemon action, the final `else` of the loop body (io.cpp:799-815): the rows
of the list are printed with `world.pc.poke.at(j)` for `j < num_poke`, then the key
read becomes `pc_poke` unchecked. -/
def encounter_switch (e : Enc) : Except Fault (Ctl × Enc) := do
  print_party e.sys.pc
  let (choice, s) ← getch e.sys
  pure (Ctl.next, { e with sys := s, pc_poke := choice - 49 })

/-- The read of a local `int` that is assigned on some paths only: its value, or
undefined behaviour when no assignment has been made. -/
def read_local (v : Option Int) : Except Fault Int :=
  match v with
  | some a => .ok a
  | none => .error .uninitialized

/-- The Fight action (io.cpp:453-678).  The locals `rand_p_move` and `move_choice` are
declared without initialiser; `rand_p_move` is assigned when the wild Pokemon has more
than one move and `move_choice` when the player's Pokemon has more than one move and
the move menu is reached. -/
def encounter_fight (rand : Nat → Nat) (e : Enc) : Except Fault (Ctl × Enc) := do
  let t ← vec_at e.sys.pc.poke e.pc_poke
  if t.is_knocked then
    let (_, s) ← getch e.sys
    pure (Ctl.next, { e with sys := s })
  else if e.p.is_knocked then
    pure (Ctl.exit, { e with p_deleted := true })
  else
    let (rand_p_move, s) : Option Int × Sys :=
      if e.p.get_num_moves > 1 then
        let (r, s) := next_rand rand e.sys
        (some (r.tmod 2), s)
      else (none, e.sys)
    let pc_pokemon := t
    let moves := pc_pokemon.get_num_moves
    let move_choice : Option Int := none
    let (r, s) := next_rand rand s
    let move_hit := r.tmod 100
    if e.pc_turn ≠ 0 then
      let (move_choice, s) ← (if moves > 1 then
          (getch s).map (fun ks => (some (ks.1 - 49), ks.2))
        else pure (move_choice, s))
      let (p, s) ← attack rand pc_pokemon e.p move_choice move_hit s
      pure (Ctl.next, { e with sys := s, p := p, pc_turn := 0, p_turn := 1 })
    else if e.p_turn ≠ 0 then
      let (pc_pokemon, s) ← attack rand e.p pc_pokemon rand_p_move move_hit s
      let s := { s with pc := set_poke s.pc e.pc_poke pc_pokemon }
      pure (Ctl.next, { e with sys := s, pc_turn := 1, p_turn := 0 })
    else
      let p_priority ← (read_local rand_p_move).bind e.p.get_move_priority
      let pc_priority ← (read_local move_choice).bind pc_pokemon.get_move_priority
      if p_priority < pc_priority then
        let (move_choice, s) ← (if moves > 1 then
            (getch s).map (fun ks => (some (ks.1 - 49), ks.2))
          else pure (move_choice, s))
        let (p, s) ← attack rand pc_pokemon e.p move_choice move_hit s
        pure (Ctl.next, { e with sys := s, p := p, pc_turn := 0, p_turn := 1 })
      else
        let (pc_pokemon, s) ← attack rand e.p pc_pokemon rand_p_move move_hit s
        let s := { s with pc := set_poke s.pc e.pc_poke pc_pokemon }
        pure (Ctl.next, { e with sys := s, pc_turn := 1, p_turn := 0 })

/-- One pass through the body of `while(p)` (io.cpp:449-816): the menu is printed, a
key is read into the `char input`, and the action for `'1'`, `'2'`, `'3'` or any other
key is run.  The Bag loop gets one more pass than there are pending keys, and every
pass of it reads a key. -/
def io_encounter_iter (rand : Nat → Nat) (e : Enc) : Except Fault (Ctl × Enc) := do
  io_battle_choice_wild e
  let (k, s) ← getch e.sys
  let e := { e with sys := s }
  let input := to_char k
  if input = 49 then
    encounter_fight rand e
  else if input = 50 then
    let (poke_captured, e) ← encounter_bag (e.sys.keys.length + 1) e
    if poke_captured = 1 then pure (Ctl.exit, e) else pure (Ctl.next, e)
  else if input = 51 then
    encounter_run rand e
  else
    encounter_switch e

/-- The loop `while(p)` (io.cpp:449-816) with the number of passes bounded by `fuel`.
The pointer `p` is never assigned, so the loop is left through `break` only. -/
def io_encounter_loop (rand : Nat → Nat) : Nat → Enc → Except Fault Enc
  | 0, _ => .error .no_input
  | fuel + 1, e => do
    let (c, e) ← io_encounter_iter rand e
    match c with
    | Ctl.exit => pure e
    | Ctl.next => io_encounter_loop rand fuel e

/-- The locals of `io_encounter_pokemon` on entry to the loop (io.cpp:445-448), for the
wild Pokemon `p` just created. -/
def encounter_init (s : Sys) (p : Pokemon) : Enc :=
  { sys := s, p := p, p_deleted := false, pc_poke := 0, attempt := 0, pc_turn := 0,
    p_turn := 0 }

/-- Function `io_encounter_pokemon` from the creation of the wild Pokemon `p` on
(io.cpp:445-817); `s` is the process state once `p` is created.  Every pass of the
loop reads a key, so one more pass than there are pending keys is enough. -/
def io_encounter_pokemon (rand : Nat → Nat) (s : Sys) (p : Pokemon) : Except Fault Enc :=
  io_encounter_loop rand (s.keys.length + 1) (encounter_init s p)

/-! ## The bag of a trainer battle (`io_battle`) -/

/-- The inner loop `while(!action_taken)` of the Bag action of `io_battle`
(io.cpp:1189-1274), with the number of passes bounded by `fuel`; of the locals of
`io_battle` it reads `pc_poke` only. -/
def battle_bag : Nat → Int → Sys → Except Fault Sys
  | 0, _, _ => .error .no_input
  | fuel + 1, pc_poke, s => do
    let (k, s) ← getch s
    let choice := k - 48
    if choice = 1 then
      if s.pc.num_potions ≠ 0 then
        let t ← vec_at s.pc.poke pc_poke
        if t.is_knocked then
          let (_, s) ← getch s
          battle_bag fuel pc_poke s
        else if t.get_hp + 20 > t.get_max_hp then
          if t.get_max_hp - t.get_hp = 0 then
            let (_, s) ← getch s
            battle_bag fuel pc_poke s
          else
            let pc := set_poke s.pc pc_poke (t.set_hp t.get_max_hp)
            let pc := { pc with num_potions := pc.num_potions - 1 }
            pure { s with pc := pc }
        else
          let pc := set_poke s.pc pc_poke (t.add_hp 20)
          let pc := { pc with num_potions := pc.num_potions - 1 }
          pure { s with pc := pc }
      else
        let (_, s) ← getch s
        battle_bag fuel pc_poke s
    else if choice = 2 then
      if s.pc.num_revives ≠ 0 then
        let t ← vec_at s.pc.poke pc_poke
        if t.is_knocked then
          let pc := set_poke s.pc pc_poke (t.set_hp (t.get_max_hp.tdiv 2))
          let pc := { pc with num_revives := pc.num_revives - 1 }
          pure { s with pc := pc }
        else
          let (_, s) ← getch s
          battle_bag fuel pc_poke s
      else
        let (_, s) ← getch s
        battle_bag fuel pc_poke s
    else
      pure s

/-! ## The trainer battle (`io_battle`) -/

/-- Modelled from the spec: the enumeration of trainer classes behind `npc->ctype`
(`character.h` is not among the sources).  The code names the enumerators `char_hiker`
and `char_rival` (section 4.3: the classes hiker and rival); every other class is
`char_other n`. -/
inductive character_type where
  | char_hiker
  | char_rival
  | char_other (n : Nat)
  deriving DecidableEq, Repr

/-- Modelled from the spec: the enumeration of movement behaviours behind `npc->mtype`
(`character.h` is not among the sources).  The code names the enumerator `move_wander`
(section 4.3: passive wander); every other behaviour is `move_other n`. -/
inductive movement_type where
  | move_wander
  | move_other (n : Nat)
  deriving DecidableEq, Repr

/-- The fields of the trainer `*npc` that `io_battle` reads and writes. -/
structure Npc where
  poke : List Pokemon
  num_poke : Int
  defeated : Int
  ctype : character_type
  mtype : movement_type
  deriving DecidableEq, Repr

/-- The state of one run of `io_battle`: the process state, the trainer and the locals
`trainer_poke`, `pc_poke`, `pc_turn`, `npc_turn`. -/
structure Bat where
  sys : Sys
  npc : Npc
  trainer_poke : Int
  pc_poke : Int
  pc_turn : Int
  npc_turn : Int
  deriving DecidableEq, Repr

/-- How a branch of the body of the battle loop ends: it reaches the end of the
`if`-chain (and the scan of the trainer's party after it) or executes `continue`. -/
inductive Jump where
  | fall
  | cont
  deriving DecidableEq, Repr

/-- Function `io_battle_choice(npc, NULL, trainer_poke, pc_poke)` (io.cpp:377-396, the
branch for a trainer): it only prints, but reads `world.pc.poke.at(pc_poke)` and then
`npc->poke.at(trainer_poke)`. -/
def io_battle_choice_trainer (b : Bat) : Except Fault Unit := do
  let _ ← vec_at b.sys.pc.poke b.pc_poke
  let _ ← vec_at b.npc.poke b.trainer_poke
  pure ()

/-- The Fight action of a trainer battle (io.cpp:967-1186); `move_hit` has been drawn
before the action is selected (io.cpp:966).  The locals `rand_npc_move` and
`move_choice` are declared without initialiser, as in the wild encounter. -/
def battle_fight (rand : Nat → Nat) (move_hit : Int) (b : Bat) :
    Except Fault (Jump × Bat) := do
  let t ← vec_at b.sys.pc.poke b.pc_poke
  if t.is_knocked then
    let (_, s) ← getch b.sys
    pure (Jump.cont, { b with sys := s })
  else
    let pc_pokemon := t
    let npc_poke ← vec_at b.npc.poke b.trainer_poke
    let moves := pc_pokemon.get_num_moves
    let move_choice : Option Int := none
    let (rand_npc_move, s) : Option Int × Sys :=
      if npc_poke.get_num_moves > 1 then
        let (r, s) := next_rand rand b.sys
        (some (r.tmod 2), s)
      else (none, b.sys)
    if b.pc_turn ≠ 0 then
      let (move_choice, s) ← (if moves > 1 then
          (getch s).map (fun ks => (some (ks.1 - 49), ks.2))
        else pure (move_choice, s))
      let (npc_poke, s) ← attack rand pc_pokemon npc_poke move_choice move_hit s
      let npc := { b.npc with poke := b.npc.poke.set b.trainer_poke.toNat npc_poke }
      pure (Jump.fall, { b with sys := s, npc := npc, pc_turn := 0, npc_turn := 1 })
    else if b.npc_turn ≠ 0 then
      let (pc_pokemon, s) ← attack rand npc_poke pc_pokemon rand_npc_move move_hit s
      let s := { s with pc := set_poke s.pc b.pc_poke pc_pokemon }
      pure (Jump.fall, { b with sys := s, pc_turn := 1, npc_turn := 0 })
    else
      let npc_priority ← (read_local rand_npc_move).bind npc_poke.get_move_priority
      let pc_priority ← (read_local move_choice).bind pc_pokemon.get_move_priority
      if npc_priority < pc_priority then
        let (move_choice, s) ← (if moves > 1 then
            (getch s).map (fun ks => (some (ks.1 - 49), ks.2))
          else pure (move_choice, s))
        let (npc_poke, s) ← attack rand pc_pokemon npc_poke move_choice move_hit s
        let npc := { b.npc with poke := b.npc.poke.set b.trainer_poke.toNat npc_poke }
        pure (Jump.fall, { b with sys := s, npc := npc, pc_turn := 0, npc_turn := 1 })
      else
        let (pc_pokemon, s) ← attack rand npc_poke pc_pokemon rand_npc_move move_hit s
        let s := { s with pc := set_poke s.pc b.pc_poke pc_pokemon }
        pure (Jump.fall, { b with sys := s, pc_turn := 1, npc_turn := 0 })

/-- The Pokemon action of a trainer battle, a `do ... while` loop (io.cpp:1279-1302),
with the number of passes bounded by `fuel`: the party is printed, the key read
becomes `pc_poke`, and the loop goes on while `world.pc.poke.at(pc_poke)` is knocked.
Returns the final `pc_poke`. -/
def battle_switch : Nat → Sys → Except Fault (Int × Sys)
  | 0, _ => .error .no_input
  | fuel + 1, s => do
    print_party s.pc
    let (choice, s) ← getch s
    let pc_poke := choice - 49
    let t ← vec_at s.pc.poke pc_poke
    if t.is_knocked then
      let (_, s) ← getch s
      battle_switch fuel s
    else
      pure (pc_poke, s)

/-- The scan of the trainer's party (io.cpp:1305-1312): `trainer_poke` moves forward
while it is below `num_poke` and `npc->poke.at(trainer_poke)` is knocked.  The bound
`fuel` is the number of indices left below `num_poke`. -/
def scan_trainer (npc : Npc) : Nat → Int → Except Fault Int
  | 0, trainer_poke =>
    if trainer_poke < npc.num_poke then .error .no_input else .ok trainer_poke
  | fuel + 1, trainer_poke =>
    if trainer_poke < npc.num_poke then do
      let t ← vec_at npc.poke trainer_poke
      if t.is_knocked then scan_trainer npc fuel (trainer_poke + 1)
      else pure trainer_poke
    else pure trainer_poke

/-- The end of the body of the battle loop (io.cpp:1305-1319): the scan, then the
trainer is marked defeated when `trainer_poke == num_poke`, and a hiker or a rival is
set to wander. -/
def battle_scan (b : Bat) : Except Fault Bat := do
  let trainer_poke ← scan_trainer b.npc (b.npc.num_poke - b.trainer_poke).toNat b.trainer_poke
  let b := { b with trainer_poke := trainer_poke }
  if b.trainer_poke = b.npc.num_poke then
    let npc := { b.npc with defeated := 1 }
    let npc := if npc.ctype = character_type.char_hiker ∨ npc.ctype = character_type.char_rival
      then { npc with mtype := movement_type.move_wander } else npc
    pure { b with npc := npc }
  else
    pure b

/-- One pass through the body of `while(npc->defeated == 0)` (io.cpp:963-1320): the
menu is printed, a key is read into the `char input`, `move_hit` is drawn, the action
for `'1'`, `'2'` or `'3'` is run (any other key runs none), and unless the action ended
in `continue` the trainer's party is scanned.  The loops of the Bag and of the Pokemon
action get one more pass than there are pending keys. -/
def io_battle_iter (rand : Nat → Nat) (b : Bat) : Except Fault Bat := do
  io_battle_choice_trainer b
  let (k, s) ← getch b.sys
  let input := to_char k
  let (r, s) := next_rand rand s
  let move_hit := r.tmod 100
  let b := { b with sys := s }
  let (j, b) ← (if input = 49 then
      battle_fight rand move_hit b
    else if input = 50 then
      (battle_bag (b.sys.keys.length + 1) b.pc_poke b.sys).map
        (fun s => (Jump.fall, { b with sys := s }))
    else if input = 51 then
      (battle_switch (b.sys.keys.length + 1) b.sys).map
        (fun r => (Jump.fall, { b with sys := r.2, pc_poke := r.1 }))
    else pure (Jump.fall, b))
  match j with
  | Jump.cont => pure b
  | Jump.fall => battle_scan b

/-- The loop `while(npc->defeated == 0)` (io.cpp:962-1320) with the number of passes
bounded by `fuel`. -/
def io_battle_loop (rand : Nat → Nat) : Nat → Bat → Except Fault Bat
  | 0, b => if b.npc.defeated = 0 then .error .no_input else .ok b
  | fuel + 1, b =>
    if b.npc.defeated = 0 then do
      let b ← io_battle_iter rand b
      io_battle_loop rand fuel b
    else pure b

/-- The locals of `io_battle` on entry to the loop (io.cpp:951-961): whichever of the
aggressor and the defender is the trainer, `pc_turn = 1` and `npc_turn = 0`. -/
def battle_init (s : Sys) (npc : Npc) : Bat :=
  { sys := s, npc := npc, trainer_poke := 0, pc_poke := 0, pc_turn := 1, npc_turn := 0 }

/-- Function `io_battle` for the trainer `npc`.  Every pass of the loop reads a key, so
one more pass than there are pending keys is enough. -/
def io_battle (rand : Nat → Nat) (s : Sys) (npc : Npc) : Except Fault Bat :=
  io_battle_loop rand (s.keys.length + 1) (battle_init s npc)

/-- The states in which the passes of the loop `while(npc->defeated == 0)`
(io.cpp:962-1320) begin, in order: the loop of `io_battle_loop` with the state recorded
at the start of every pass, for at most `fuel` passes.  The list ends when the loop
condition fails, when a pass does not return or when the bound is met. -/
def io_battle_passes (rand : Nat → Nat) : Nat → Bat → List Bat
  | 0, _ => []
  | fuel + 1, b =>
    if b.npc.defeated = 0 then
      b :: (match io_battle_iter rand b with
        | .ok b' => io_battle_passes rand fuel b'
        | .error _ => [])
    else []

/-- Whether the pass of the battle loop that begins in `b` reaches the attacks of the
Fight action (io.cpp:967-981): the key read is `'1'` and the player's active Pokemon is
not knocked. -/
def resolves_fight (b : Bat) : Bool :=
  match b.sys.keys, vec_at b.sys.pc.poke b.pc_poke with
  | k :: _, .ok t => to_char k == 49 && !t.is_knocked
  | _, _ => false

/-- Whether the pass of the battle loop that begins in `b` is a Fight rejected with
`continue` (io.cpp:967-977): the key read is `'1'` and the player's active Pokemon is
knocked. -/
def rejects_fight (b : Bat) : Bool :=
  match b.sys.keys, vec_at b.sys.pc.poke b.pc_poke with
  | k :: _, .ok t => to_char k == 49 && t.is_knocked
  | _, _ => false

/-! ## The level of the wild Pokemon (io.cpp:419-443) -/

/-- Function `abs` of the C library on `int`. -/
def c_abs (x : Int) : Int := if x < 0 then -x else x

/-- The level band `(minl, maxl)` of `io_encounter_pokemon` (io.cpp:419-441) for the
world indices `cur_idx[dim_x]`, `cur_idx[dim_y]`.  The constant `WORLD_SIZE` is
declared outside the sources and is the parameter `world_size`; the code adds the
distance along `dim_x` twice and does not read `cur_idx[dim_y]`. -/
def level_band (world_size cur_idx_x _cur_idx_y : Int) : Int × Int :=
  let md := c_abs (cur_idx_x - world_size.tdiv 2) + c_abs (cur_idx_x - world_size.tdiv 2)
  let (minl, maxl) : Int × Int :=
    if md ≤ 200 then (1, md.tdiv 2) else ((md - 200).tdiv 2, 100)
  let minl := if minl < 1 then 1 else minl
  let minl := if minl > 100 then 100 else minl
  let maxl := if maxl < 1 then 1 else maxl
  let maxl := if maxl > 100 then 100 else maxl
  (minl, maxl)

/-- The argument of `new Pokemon(...)` (io.cpp:443): `rand() % (maxl - minl + 1) + minl`
for the value `r` returned by `rand()`; a zero modulus is a division by zero. -/
def encounter_level (world_size cur_idx_x cur_idx_y : Int) (r : Nat) : Except Fault Int :=
  let band := level_band world_size cur_idx_x cur_idx_y
  if band.2 - band.1 + 1 = 0 then .error .div_by_zero
  else .ok ((r : Int).tmod (band.2 - band.1 + 1) + band.1)

/-! ## The reference damage of the specification -/

/-- The reference damage of spec section 4.2 on a hit, in exact rational arithmetic, for
the critical draw `crit_draw` from 0..255 and the random-factor draw `k` from 85..100:
`base = floor(floor(floor(2*level/5)+2) * move.power * (atk/def) / 50) + 2` with the
exact ratio `atk/def`, `critical = 1.5` when `crit_draw < base_speed/2` and 1
otherwise, `random_factor = k/100`, `stab = 1.5` when the type of the move is one of
the attacker's types and 1 otherwise, `type_multiplier = 1`, and
`damage = round(base * critical * random_factor * stab * type_multiplier)`. -/
def spec_damage (attacker defender : Pokemon) (move : Move) (crit_draw k : Int) : Int :=
  let inner : Int := ⌊((2 * attacker.level : Int) : ℚ) / 5⌋ + 2
  let base : Int :=
    ⌊(inner : ℚ) * (move.power : ℚ) *
      ((attacker.stat_atk : ℚ) / (defender.stat_def : ℚ)) / 50⌋ + 2
  let critical : ℚ := if (crit_draw : ℚ) < (attacker.base_speed : ℚ) / 2 then 3 / 2 else 1
  let random_factor : ℚ := (k : ℚ) / 100
  let stab : ℚ := if move.type ∈ attacker.type then 3 / 2 else 1
  let type_multiplier : ℚ := 1
  round ((base : ℚ) * critical * random_factor * stab * type_multiplier)

/-- The damage of a hit in exact arithmetic: `trunc(B * k / 100)`, where
`B = ((2 * level / 5 + 2) * power * (atk / def)) / 50 + 2` with truncating integer
division throughout, the random factor is the exact rational `k / 100`, and `trunc`
rounds a rational toward zero. -/
def exact_damage (attacker defender : Pokemon) (move : Move) (k : Int) : Int :=
  let b : Int := (((2 * attacker.level).tdiv 5 + 2) * move.power *
    (attacker.stat_atk.tdiv defender.stat_def)).tdiv 50 + 2
  let x : ℚ := (b : ℚ) * ((k : ℚ) / 100)
  if 0 ≤ x then ⌊x⌋ else ⌈x⌉

/-! ## Sample data for the concrete runs -/

/-- A move that always passes the accuracy test. -/
def sample_tackle : Move := { power := 40, acc := 100, priority := 0, type := 1 }

/-- A move with a higher priority that never passes the accuracy test. -/
def sample_feint : Move := { power := 50, acc := 0, priority := 1, type := 2 }

/-- A level 5 Pokemon with the given hp, max hp and speed and two moves. -/
def sample_mon (hp max_hp speed : Int) : Pokemon :=
  { level := 5, stat_hp := hp, stat_atk := 12, stat_def := 10, stat_spatk := 9,
    stat_spdef := 9, stat_speed := speed, base_speed := 45, max_hp := max_hp,
    moves := [sample_tackle, sample_feint], type := [1], shiny := false }

/-- A player with a full party of six and some items. -/
def sample_pc_full : Pc :=
  { poke := List.replicate 6 (sample_mon 20 20 10), num_poke := 6, num_pokeballs := 3,
    num_potions := 2, num_revives := 1 }

/-- A player with a single knocked Pokemon, no pokeball, three potions and one revive. -/
def sample_pc_knocked : Pc :=
  { poke := [sample_mon 0 50 10], num_poke := 1, num_pokeballs := 0, num_potions := 3,
    num_revives := 1 }

/-- A player with a single hurt Pokemon and one item of each kind. -/
def sample_pc_hurt : Pc :=
  { poke := [sample_mon 35 50 10], num_poke := 1, num_pokeballs := 1, num_potions := 1,
    num_revives := 1 }

/-- A player with a single hurt Pokemon and no item at all. -/
def sample_pc_no_items : Pc :=
  { poke := [sample_mon 35 50 10], num_poke := 1, num_pokeballs := 0, num_potions := 0,
    num_revives := 0 }

/-- A player with a party of five and two pokeballs. -/
def sample_pc_five : Pc :=
  { poke := List.replicate 5 (sample_mon 20 20 10), num_poke := 5, num_pokeballs := 2,
    num_potions := 1, num_revives := 1 }

/-- A move with priority 1 that always passes the accuracy test. -/
def sample_quick : Move := { power := 40, acc := 100, priority := 1, type := 3 }

/-- A level 5 trainer Pokemon with the given hp and max hp whose first move has
priority 1. -/
def sample_trainer_mon (hp max_hp : Int) : Pokemon :=
  { level := 5, stat_hp := hp, stat_atk := 12, stat_def := 10, stat_spatk := 9,
    stat_spdef := 9, stat_speed := 10, base_speed := 45, max_hp := max_hp,
    moves := [sample_quick, sample_tackle], type := [3], shiny := false }

/-- A hiker, not yet defeated, with one Pokemon at hp 4 of 20. -/
def sample_hiker : Npc :=
  { poke := [sample_trainer_mon 4 20], num_poke := 1, defeated := 0,
    ctype := character_type.char_hiker, mtype := movement_type.move_other 0 }

/-- A trainer of another class, not yet defeated, with two Pokemon at hp 20 of 20. -/
def sample_trainer : Npc :=
  { poke := [sample_trainer_mon 20 20, sample_trainer_mon 20 20], num_poke := 2,
    defeated := 0, ctype := character_type.char_other 0, mtype := movement_type.move_other 0 }

/-- A player with a knocked first Pokemon and a healthy second one. -/
def sample_pc_two : Pc :=
  { poke := [sample_mon 0 50 10, sample_mon 20 20 10], num_poke := 2, num_pokeballs := 1,
    num_potions := 1, num_revives := 1 }

/-- A random stream that always yields 255. -/
def rand_high : Nat → Nat := fun _ => 255

/-- A move of power 100 whose type is not the type of `sample_slammer`. -/
def sample_slam : Move := { power := 100, acc := 100, priority := 0, type := 2 }

/-- A level 5 Pokemon of type 1 with `atk` 12 and the single move `sample_slam`. -/
def sample_slammer : Pokemon :=
  { level := 5, stat_hp := 30, stat_atk := 12, stat_def := 10, stat_spatk := 9,
    stat_spdef := 9, stat_speed := 10, base_speed := 45, max_hp := 30,
    moves := [sample_slam], type := [1], shiny := false }

/-- A move of power 195 that always passes the accuracy test. -/
def sample_heavy : Move := { power := 195, acc := 100, priority := 0, type := 2 }

/-- A level 68 Pokemon with `atk` 190 and the single move `sample_heavy`. -/
def sample_veteran : Pokemon :=
  { level := 68, stat_hp := 200, stat_atk := 190, stat_def := 150, stat_spatk := 100,
    stat_spdef := 100, stat_speed := 120, base_speed := 90, max_hp := 200,
    moves := [sample_heavy], type := [1], shiny := false }

/-- A player whose single Pokemon has the given speed. -/
def sample_pc_speed (speed : Int) : Pc :=
  { poke := [sample_mon 35 50 speed], num_poke := 1, num_pokeballs := 1, num_potions := 1,
    num_revives := 1 }

/-- A move of power 250 that always passes the accuracy test. -/
def sample_hyper : Move := { power := 250, acc := 100, priority := 0, type := 2 }

/-- A level 100 Pokemon with the given `atk` and the single move `sample_hyper`. -/
def sample_giant (atk : Int) : Pokemon :=
  { level := 100, stat_hp := 300, stat_atk := atk, stat_def := 200, stat_spatk := 150,
    stat_spdef := 150, stat_speed := 120, base_speed := 90, max_hp := 300,
    moves := [sample_hyper], type := [1], shiny := false }

/-- A defender with `def` 1. -/
def sample_frail : Pokemon := { sample_mon 15 15 40 with stat_def := 1 }

/-- A random stream that always yields zero. -/
def rand_zero : Nat → Nat := fun _ => 0

/-! ## Basic facts about the primitives -/

theorem getch_cons (s : Sys) (k : Int) (ks : List Int) (h : s.keys = k :: ks) :
    getch s = .ok (k, { s with keys := ks }) := by
  simp [getch, h]

/-- An index inside the vector is read without exception. -/
theorem vec_at_ok {α : Type} (v : List α) (i : Int) (h0 : 0 ≤ i) (h1 : i < v.length) :
    ∃ a, vec_at v i = .ok a ∧ v.get? i.toNat = some a := by
  have hlt : i.toNat < v.length := by omega
  refine ⟨v.get ⟨i.toNat, hlt⟩, ?_, List.get?_eq_get hlt⟩
  simp [vec_at, h0, h1, List.getElem?_eq_getElem hlt]

/-- Reading the vector at the position of a member returns that member. -/
theorem vec_at_of_get? {α : Type} (v : List α) (i : Nat) (a : α) (h : v.get? i = some a) :
    vec_at v (i : Int) = .ok a := by
  have hlt : i < v.length := by
    by_contra hc
    rw [List.get?_eq_none.mpr (by omega)] at h
    cases h
  simp only [List.get?_eq_getElem?] at h
  simp [vec_at, hlt, h]

/-- The wrapped value is a value of `int`. -/
theorem wrap_int_range (x : Int) : -2 ^ 31 ≤ wrap_int x ∧ wrap_int x < 2 ^ 31 := by
  unfold wrap_int
  omega

/-- An exact result inside the range of `int` is not changed by the wrap-around. -/
theorem wrap_int_of_range (x : Int) (h1 : -2 ^ 31 ≤ x) (h2 : x < 2 ^ 31) : wrap_int x = x := by
  unfold wrap_int
  omega

/-- A wrapped factor gives the same wrapped product as the exact factor. -/
theorem wrap_int_mul (a c : Int) : wrap_int (wrap_int a * c) = wrap_int (a * c) := by
  have hk : wrap_int a = a - 2 ^ 32 * ((a + 2 ^ 31) / 2 ^ 32) := by
    unfold wrap_int
    omega
  rw [hk]
  unfold wrap_int
  have e : (a - 2 ^ 32 * ((a + 2 ^ 31) / 2 ^ 32)) * c + 2 ^ 31 =
      a * c + 2 ^ 31 + 2 ^ 32 * (-(((a + 2 ^ 31) / 2 ^ 32) * c)) := by ring
  rw [e, Int.add_mul_emod_self_left]

/-- The truncating quotient of an `int` by 5 or by 50 is far inside the range of
`int`. -/
theorem tdiv_range (x : Int) (h1 : -2 ^ 31 ≤ x) (h2 : x < 2 ^ 31) :
    (-2 ^ 30 ≤ x.tdiv 5 ∧ x.tdiv 5 ≤ 2 ^ 30) ∧ (-2 ^ 30 ≤ x.tdiv 50 ∧ x.tdiv 50 ≤ 2 ^ 30) := by
  by_cases hx : 0 ≤ x
  · rw [Int.tdiv_eq_ediv hx (by norm_num), Int.tdiv_eq_ediv hx (by norm_num)]
    omega
  · have e5 : x.tdiv 5 = -((-x) / 5) := by
      have := Int.neg_tdiv (-x) 5
      rw [neg_neg] at this
      rw [this, Int.tdiv_eq_ediv (by omega) (by norm_num)]
    have e50 : x.tdiv 50 = -((-x) / 50) := by
      have := Int.neg_tdiv (-x) 50
      rw [neg_neg] at this
      rw [this, Int.tdiv_eq_ediv (by omega) (by norm_num)]
    rw [e5, e50]
    omega

/-- The quotient of two `int`s is defined unless the divisor is zero or the quotient is
no `int`. -/
theorem int_div_ok (a b : Int) (hb : b ≠ 0) (ho : ¬ (a = -2 ^ 31 ∧ b = -1)) :
    int_div a b = .ok (a.tdiv b) := by
  unfold int_div
  rw [if_neg hb, if_neg ho]

/-! ## The bag and the Run action, step by step -/

/-- Setting hp to the maximum when `hp + 20 > max_hp`, or adding 20 otherwise, is
`min (hp + 20) max_hp` on a Pokemon with `0 < hp`. -/
theorem heal_eq (t : Pokemon) (h0 : 0 < t.stat_hp) (h1 : t.stat_hp < t.max_hp) :
    (if t.get_hp + 20 > t.get_max_hp then t.set_hp t.get_max_hp else t.add_hp 20) =
      { t with stat_hp := min (t.stat_hp + 20) t.max_hp } := by
  unfold Pokemon.get_hp Pokemon.get_max_hp Pokemon.set_hp Pokemon.add_hp
  split
  · next h =>
    have h2 : min (t.stat_hp + 20) t.max_hp = t.max_hp := min_eq_right (by omega)
    have h3 : max 0 (min t.max_hp t.max_hp) = t.max_hp := by
      rw [min_self]; exact max_eq_right (by omega)
    rw [h2, h3]
  · rfl

/-- A Potion in the wild-encounter bag on a hurt, non-knocked active Pokemon. -/
theorem encounter_bag_potion (fuel : Nat) (e : Enc) (rest : List Int) (t : Pokemon)
    (hkeys : e.sys.keys = 50 :: rest)
    (ht : vec_at e.sys.pc.poke e.pc_poke = .ok t)
    (h0 : 0 < t.stat_hp) (h1 : t.stat_hp < t.max_hp) :
    encounter_bag (fuel + 1) e =
      .ok (0, { e with sys := { e.sys with
        keys := rest,
        pc := { e.sys.pc with
          poke := e.sys.pc.poke.set e.pc_poke.toNat
            { t with stat_hp := min (t.stat_hp + 20) t.max_hp },
          num_potions := e.sys.pc.num_potions - 1 } } }) := by
  have hk : t.is_knocked = false := by
    simp [Pokemon.is_knocked]; omega
  have hne : ¬ (t.get_max_hp - t.get_hp = 0) := by
    simp [Pokemon.get_hp, Pokemon.get_max_hp]; omega
  have hheal := heal_eq t h0 h1
  obtain ⟨⟨pc, keys, rp⟩, p, del, pcp, att, pt, ptt⟩ := e
  simp only at hkeys ht
  subst hkeys
  by_cases hc : t.get_hp + 20 > t.get_max_hp
  · rw [if_pos hc] at hheal
    simp [encounter_bag, getch, ht, hk, hc, hne, hheal, set_poke,
      bind, Except.bind, pure, Except.pure]
  · rw [if_neg hc] at hheal
    simp [encounter_bag, getch, ht, hk, hc, hheal, set_poke,
      bind, Except.bind, pure, Except.pure]

/-- A Potion in the trainer-battle bag on a hurt, non-knocked active Pokemon. -/
theorem battle_bag_potion (fuel : Nat) (pc_poke : Int) (s : Sys) (rest : List Int)
    (t : Pokemon)
    (hkeys : s.keys = 49 :: rest)
    (hpot : s.pc.num_potions ≠ 0)
    (ht : vec_at s.pc.poke pc_poke = .ok t)
    (h0 : 0 < t.stat_hp) (h1 : t.stat_hp < t.max_hp) :
    battle_bag (fuel + 1) pc_poke s =
      .ok { s with
        keys := rest,
        pc := { s.pc with
          poke := s.pc.poke.set pc_poke.toNat
            { t with stat_hp := min (t.stat_hp + 20) t.max_hp },
          num_potions := s.pc.num_potions - 1 } } := by
  have hk : t.is_knocked = false := by
    simp [Pokemon.is_knocked]; omega
  have hne : ¬ (t.get_max_hp - t.get_hp = 0) := by
    simp [Pokemon.get_hp, Pokemon.get_max_hp]; omega
  have hheal := heal_eq t h0 h1
  obtain ⟨pc, keys, rp⟩ := s
  simp only at hkeys ht hpot
  subst hkeys
  by_cases hc : t.get_hp + 20 > t.get_max_hp
  · rw [if_pos hc] at hheal
    simp [battle_bag, getch, ht, hk, hc, hne, hheal, set_poke, hpot,
      bind, Except.bind, pure, Except.pure]
  · rw [if_neg hc] at hheal
    simp [battle_bag, getch, ht, hk, hc, hheal, set_poke, hpot,
      bind, Except.bind, pure, Except.pure]

/-- A Potion in the overworld bag on a hurt, non-knocked party member. -/
theorem world_bag_potion (s : Sys) (choice ack : Int) (rest : List Int) (t : Pokemon)
    (hkeys : s.keys = 50 :: (choice + 49) :: ack :: rest)
    (hpot : s.pc.num_potions ≠ 0)
    (hnp : s.pc.num_poke ≤ s.pc.poke.length)
    (ht : vec_at s.pc.poke choice = .ok t)
    (h0 : 0 < t.stat_hp) (h1 : t.stat_hp < t.max_hp) :
    io_world_bag s =
      .ok { s with
        keys := rest,
        pc := { s.pc with
          poke := s.pc.poke.set choice.toNat
            { t with stat_hp := min (t.stat_hp + 20) t.max_hp },
          num_potions := s.pc.num_potions - 1 } } := by
  have hne : ¬ (t.get_max_hp - t.get_hp = 0) := by
    simp [Pokemon.get_hp, Pokemon.get_max_hp]; omega
  have hheal := heal_eq t h0 h1
  obtain ⟨pc, keys, rp⟩ := s
  simp only at hkeys ht hpot
  have hpp : print_party pc = .ok () := by
    simp only at hnp
    simp [print_party, hnp]
  subst hkeys
  by_cases hc : t.get_hp + 20 > t.get_max_hp
  · rw [if_pos hc] at hheal
    simp [io_world_bag, hpp, getch, ht, hc, hne, hheal, set_poke, hpot,
      bind, Except.bind, pure, Except.pure]
  · rw [if_neg hc] at hheal
    simp [io_world_bag, hpp, getch, ht, hc, hheal, set_poke, hpot,
      bind, Except.bind, pure, Except.pure]


/-- Function `set_hp(max_hp / 2)` sets the hp to half the maximum when `0 ≤ max_hp`. -/
theorem revive_set_eq (t : Pokemon) (hm : 0 ≤ t.max_hp) :
    t.set_hp (t.get_max_hp.tdiv 2) = { t with stat_hp := t.max_hp.tdiv 2 } := by
  unfold Pokemon.get_max_hp Pokemon.set_hp
  have h := Int.tdiv_eq_ediv hm (by norm_num : (0 : Int) ≤ 2)
  have h2 : max 0 (min (t.max_hp.tdiv 2) t.max_hp) = t.max_hp.tdiv 2 := by
    rw [h, min_eq_left (by omega), max_eq_right (by omega)]
  rw [h2]

/-- Function `add_hp(max_hp / 2)` from hp 0 gives half the maximum when `0 ≤ max_hp`. -/
theorem revive_add_eq (t : Pokemon) (hk : t.stat_hp = 0) (hm : 0 ≤ t.max_hp) :
    t.add_hp (t.get_max_hp.tdiv 2) = { t with stat_hp := t.max_hp.tdiv 2 } := by
  unfold Pokemon.get_max_hp Pokemon.add_hp
  have h := Int.tdiv_eq_ediv hm (by norm_num : (0 : Int) ≤ 2)
  have h2 : min (t.stat_hp + t.max_hp.tdiv 2) t.max_hp = t.max_hp.tdiv 2 := by
    rw [hk, h, zero_add, min_eq_left (by omega)]
  rw [h2]

/-- A Revive in the wild-encounter bag on a knocked active Pokemon. -/
theorem encounter_bag_revive (fuel : Nat) (e : Enc) (rest : List Int) (t : Pokemon)
    (hkeys : e.sys.keys = 51 :: rest)
    (ht : vec_at e.sys.pc.poke e.pc_poke = .ok t)
    (hk : t.stat_hp = 0) (hm : 0 ≤ t.max_hp) :
    encounter_bag (fuel + 1) e =
      .ok (0, { e with sys := { e.sys with
        keys := rest,
        pc := { e.sys.pc with
          poke := e.sys.pc.poke.set e.pc_poke.toNat { t with stat_hp := t.max_hp.tdiv 2 },
          num_revives := e.sys.pc.num_revives - 1 } } }) := by
  have hkn : t.is_knocked = true := by simp [Pokemon.is_knocked, hk]
  have hrev := revive_set_eq t hm
  obtain ⟨⟨pc, keys, rp⟩, p, del, pcp, att, pt, ptt⟩ := e
  simp only at hkeys ht
  subst hkeys
  simp [encounter_bag, getch, ht, hkn, hrev, set_poke, bind, Except.bind, pure, Except.pure]

/-- A Revive in the trainer-battle bag on a knocked active Pokemon. -/
theorem battle_bag_revive (fuel : Nat) (pc_poke : Int) (s : Sys) (rest : List Int)
    (t : Pokemon)
    (hkeys : s.keys = 50 :: rest)
    (hrevs : s.pc.num_revives ≠ 0)
    (ht : vec_at s.pc.poke pc_poke = .ok t)
    (hk : t.stat_hp = 0) (hm : 0 ≤ t.max_hp) :
    battle_bag (fuel + 1) pc_poke s =
      .ok { s with
        keys := rest,
        pc := { s.pc with
          poke := s.pc.poke.set pc_poke.toNat { t with stat_hp := t.max_hp.tdiv 2 },
          num_revives := s.pc.num_revives - 1 } } := by
  have hkn : t.is_knocked = true := by simp [Pokemon.is_knocked, hk]
  have hrev := revive_set_eq t hm
  obtain ⟨pc, keys, rp⟩ := s
  simp only at hkeys ht hrevs
  subst hkeys
  simp [battle_bag, getch, ht, hkn, hrev, set_poke, hrevs, bind, Except.bind, pure,
    Except.pure]

/-- The overworld revive on a knocked Pokemon: the hp becomes half the maximum, and
the count that goes down is `num_potions` (io.cpp:927). -/
theorem world_bag_revive (s : Sys) (choice ack : Int) (rest : List Int) (t : Pokemon)
    (hkeys : s.keys = 51 :: (choice + 49) :: ack :: rest)
    (hrevs : s.pc.num_revives ≠ 0)
    (hnp : s.pc.num_poke ≤ s.pc.poke.length)
    (ht : vec_at s.pc.poke choice = .ok t)
    (hk : t.stat_hp = 0) (hm : 0 ≤ t.max_hp) :
    io_world_bag s =
      .ok { s with
        keys := rest,
        pc := { s.pc with
          poke := s.pc.poke.set choice.toNat { t with stat_hp := t.max_hp.tdiv 2 },
          num_potions := s.pc.num_potions - 1 } } := by
  have hkn : t.is_knocked = true := by simp [Pokemon.is_knocked, hk]
  have hrev := revive_add_eq t hk hm
  obtain ⟨pc, keys, rp⟩ := s
  simp only at hkeys ht hrevs
  have hpp : print_party pc = .ok () := by
    simp only at hnp
    simp [print_party, hnp]
  subst hkeys
  simp [io_world_bag, hpp, getch, ht, hkn, hrev, set_poke, hrevs, bind, Except.bind, pure,
    Except.pure]

/-- A Revive in the wild-encounter bag on a non-knocked Pokemon: the menu is shown
again with nothing but the keys consumed. -/
theorem encounter_bag_revive_rejected (fuel : Nat) (e : Enc) (ack : Int) (rest : List Int)
    (t : Pokemon)
    (hkeys : e.sys.keys = 51 :: ack :: rest)
    (ht : vec_at e.sys.pc.poke e.pc_poke = .ok t)
    (hk : t.stat_hp ≠ 0) :
    encounter_bag (fuel + 1) e =
      encounter_bag fuel { e with sys := { e.sys with keys := rest } } := by
  have hkn : t.is_knocked = false := by simp [Pokemon.is_knocked, hk]
  obtain ⟨⟨pc, keys, rp⟩, p, del, pcp, att, pt, ptt⟩ := e
  simp only at hkeys ht
  subst hkeys
  simp [encounter_bag, getch, ht, hkn, bind, Except.bind, pure, Except.pure]

/-- A Revive in the trainer-battle bag on a non-knocked Pokemon: the menu is shown
again with nothing but the keys consumed. -/
theorem battle_bag_revive_rejected (fuel : Nat) (pc_poke : Int) (s : Sys) (ack : Int)
    (rest : List Int) (t : Pokemon)
    (hkeys : s.keys = 50 :: ack :: rest)
    (ht : vec_at s.pc.poke pc_poke = .ok t)
    (hk : t.stat_hp ≠ 0) :
    battle_bag (fuel + 1) pc_poke s = battle_bag fuel pc_poke { s with keys := rest } := by
  have hkn : t.is_knocked = false := by simp [Pokemon.is_knocked, hk]
  obtain ⟨pc, keys, rp⟩ := s
  simp only at hkeys ht
  subst hkeys
  by_cases hrevs : pc.num_revives = 0
  · simp [battle_bag, getch, hrevs, bind, Except.bind, pure, Except.pure]
  · simp [battle_bag, getch, ht, hkn, hrevs, bind, Except.bind, pure, Except.pure]

/-- A Revive in the overworld bag on a non-knocked Pokemon: the bag returns with
nothing but the keys consumed. -/
theorem world_bag_revive_rejected (s : Sys) (choice ack : Int) (rest : List Int)
    (t : Pokemon)
    (hkeys : s.keys = 51 :: (choice + 49) :: ack :: rest)
    (hrevs : s.pc.num_revives ≠ 0)
    (hnp : s.pc.num_poke ≤ s.pc.poke.length)
    (ht : vec_at s.pc.poke choice = .ok t)
    (hk : t.stat_hp ≠ 0) :
    io_world_bag s = .ok { s with keys := rest } := by
  have hkn : t.is_knocked = false := by simp [Pokemon.is_knocked, hk]
  obtain ⟨pc, keys, rp⟩ := s
  simp only at hkeys ht hrevs
  have hpp : print_party pc = .ok () := by
    simp only at hnp
    simp [print_party, hnp]
  subst hkeys
  simp [io_world_bag, hpp, getch, ht, hkn, hrevs, bind, Except.bind, pure, Except.pure]


/-- The Bag action does not write `attempt`. -/
theorem encounter_bag_attempt (fuel : Nat) : ∀ (e : Enc) (r : Int) (e' : Enc),
    encounter_bag fuel e = .ok (r, e') → e'.attempt = e.attempt := by
  induction fuel with
  | zero => intro e r e' h; simp [encounter_bag] at h
  | succ n ih =>
    intro e r e' h
    simp only [encounter_bag, bind, Except.bind, pure, Except.pure] at h
    repeat' split at h
    all_goals first
      | (cases h; done)
      | (cases h; rfl)
      | simpa using ih _ _ _ h


/-- The Fight action does not write `attempt`. -/
theorem encounter_fight_attempt (rand : Nat → Nat) (e : Enc) (c : Ctl) (e' : Enc)
    (h : encounter_fight rand e = .ok (c, e')) : e'.attempt = e.attempt := by
  simp only [encounter_fight, bind, Except.bind, pure, Except.pure] at h
  repeat' split at h
  all_goals first
    | (cases h; done)
    | (cases h; rfl)

/-- The Pokemon action does not write `attempt`. -/
theorem encounter_switch_attempt (e : Enc) (c : Ctl) (e' : Enc)
    (h : encounter_switch e = .ok (c, e')) : e'.attempt = e.attempt := by
  simp only [encounter_switch, bind, Except.bind, pure, Except.pure, throw, throwThe,
    MonadExceptOf.throw] at h
  repeat' split at h
  all_goals first
    | (cases h; done)
    | (cases h; rfl)

/-- A pass of the encounter loop on a key other than `'3'` does not write `attempt`. -/
theorem iter_attempt_frame (rand : Nat → Nat) (e : Enc) (k : Int) (rest : List Int)
    (c : Ctl) (e' : Enc)
    (hkeys : e.sys.keys = k :: rest) (hk : to_char k ≠ 51)
    (h : io_encounter_iter rand e = .ok (c, e')) : e'.attempt = e.attempt := by
  simp only [io_encounter_iter, bind, Except.bind, pure, Except.pure,
    getch_cons e.sys k rest hkeys] at h
  split at h
  · cases h
  · split_ifs at h with h49 h50
    · have := encounter_fight_attempt rand _ c e' h
      simpa using this
    · split at h
      · cases h
      · next r e1 hbag =>
        have h1 := encounter_bag_attempt _ _ _ _ hbag
        split at h <;> (cases h; simpa using h1)
    · have := encounter_switch_attempt _ c e' h
      simpa using this

/-- A pass of the encounter loop on the key `'3'` when the escape odds are defined. -/
theorem iter_run (rand : Nat → Nat) (e : Enc) (ack : Int) (rest : List Int) (t : Pokemon)
    (odds : Int)
    (hkeys : e.sys.keys = 51 :: ack :: rest) (hp : e.p_deleted = false)
    (ht : vec_at e.sys.pc.poke e.pc_poke = .ok t)
    (hodds : escape_odd t.get_speed e.p.get_speed (e.attempt + 1) = .ok odds) :
    io_encounter_iter rand e =
      .ok (if ((rand e.sys.rand_pos : Nat) : Int).tmod 256 ≤ odds then
            (Ctl.exit, { e with
              sys := { e.sys with keys := rest, rand_pos := e.sys.rand_pos + 1 },
              attempt := e.attempt + 1, p_deleted := true })
          else
            (Ctl.next, { e with
              sys := { e.sys with keys := rest, rand_pos := e.sys.rand_pos + 1 },
              attempt := e.attempt + 1 })) := by
  obtain ⟨⟨pc, keys, rp⟩, p, del, pcp, att, pt, ptt⟩ := e
  simp only at hkeys ht hp hodds
  subst hkeys hp
  by_cases hc : ((rand rp : Nat) : Int).tmod 256 ≤ odds
  · simp [io_encounter_iter, io_battle_choice_wild, ht, getch, to_char, encounter_run,
      hodds, next_rand, hc, bind, Except.bind, pure, Except.pure]
  · simp [io_encounter_iter, io_battle_choice_wild, ht, getch, to_char, encounter_run,
      hodds, next_rand, hc, bind, Except.bind, pure, Except.pure]

/-- The bound on the passes of the Bag loop of an encounter is never met: any two
bounds larger than the number of pending keys give the same result. -/
theorem encounter_bag_fuel (n : Nat) : ∀ (m : Nat) (e : Enc),
    e.sys.keys.length < n → e.sys.keys.length < m →
    encounter_bag n e = encounter_bag m e := by
  induction n with
  | zero => intro m e h; omega
  | succ n ih =>
    intro m e hn hm
    cases m with
    | zero => omega
    | succ m =>
      obtain ⟨⟨pc, keys, rp⟩, p, del, pcp, att, pt, ptt⟩ := e
      cases keys with
      | nil => simp [encounter_bag, getch, bind, Except.bind]
      | cons k ks =>
        cases ks with
        | nil => simp only [encounter_bag, getch, bind, Except.bind, pure, Except.pure]
        | cons k2 ks =>
          simp only [List.length_cons] at hn hm
          simp only [encounter_bag, getch, bind, Except.bind, pure, Except.pure]
          repeat' split
          all_goals first
            | rfl
            | (apply ih <;> simp <;> omega)

/-- The bound on the passes of the Bag loop of a trainer battle is never met. -/
theorem battle_bag_fuel (n : Nat) : ∀ (m : Nat) (pc_poke : Int) (s : Sys),
    s.keys.length < n → s.keys.length < m →
    battle_bag n pc_poke s = battle_bag m pc_poke s := by
  induction n with
  | zero => intro m pc_poke s h; omega
  | succ n ih =>
    intro m pc_poke s hn hm
    cases m with
    | zero => omega
    | succ m =>
      obtain ⟨pc, keys, rp⟩ := s
      cases keys with
      | nil => simp [battle_bag, getch, bind, Except.bind]
      | cons k ks =>
        cases ks with
        | nil => simp only [battle_bag, getch, bind, Except.bind, pure, Except.pure]
        | cons k2 ks =>
          simp only [List.length_cons] at hn hm
          simp only [battle_bag, getch, bind, Except.bind, pure, Except.pure]
          repeat' split
          all_goals first
            | rfl
            | (apply ih <;> simp <;> omega)

/-! ## Capture (claims C1 to C3) -/

/-- Bag then Pokeball with `num_poke == 6`: the pass ends without `break`, the wild
Pokemon is deleted and nothing of the player changes. -/
theorem iter_pokeball_full (rand : Nat → Nat) (e : Enc) (ack : Int) (rest : List Int)
    (hfull : e.sys.pc.num_poke = 6)
    (hkeys : e.sys.keys = 50 :: 49 :: ack :: rest)
    (hact : 0 ≤ e.pc_poke ∧ e.pc_poke < e.sys.pc.poke.length)
    (hp : e.p_deleted = false) :
    io_encounter_iter rand e =
      .ok (Ctl.next, { e with sys := { e.sys with keys := rest }, p_deleted := true }) := by
  obtain ⟨a, ha, -⟩ := vec_at_ok e.sys.pc.poke e.pc_poke hact.1 hact.2
  obtain ⟨⟨pc, keys, rp⟩, p, del, pcp, att, pt, ptt⟩ := e
  simp only at hfull hkeys hp ha
  subst hkeys hp
  simp [io_encounter_iter, io_battle_choice_wild, ha, getch, to_char, encounter_bag, hfull,
    bind, Except.bind, pure, Except.pure]

/-- Bag then Pokeball with `num_poke != 6`: the wild Pokemon is pushed on the party and
the loop is left. -/
theorem iter_pokeball_free (rand : Nat → Nat) (e : Enc) (ack : Int) (rest : List Int)
    (hfree : e.sys.pc.num_poke ≠ 6)
    (hkeys : e.sys.keys = 50 :: 49 :: ack :: rest)
    (hact : 0 ≤ e.pc_poke ∧ e.pc_poke < e.sys.pc.poke.length)
    (hp : e.p_deleted = false) :
    io_encounter_iter rand e =
      .ok (Ctl.exit, { e with sys := { e.sys with
        keys := rest,
        pc := { e.sys.pc with
          poke := e.sys.pc.poke ++ [e.p],
          num_poke := e.sys.pc.num_poke + 1,
          num_pokeballs := e.sys.pc.num_pokeballs - 1 } } }) := by
  obtain ⟨a, ha, -⟩ := vec_at_ok e.sys.pc.poke e.pc_poke hact.1 hact.2
  obtain ⟨⟨pc, keys, rp⟩, p, del, pcp, att, pt, ptt⟩ := e
  simp only at hfree hkeys hp ha
  subst hkeys hp
  simp [io_encounter_iter, io_battle_choice_wild, ha, getch, to_char, encounter_bag, hfree,
    bind, Except.bind, pure, Except.pure]

/-- Claim C1: in a wild encounter with a party of six (`num_poke == 6`, the counter the
code keeps equal to the size of the party), Bag then Pokeball returns with the player
unchanged: the same members in the same order, size 6, and the same numbers of
pokeballs, potions and revives. -/
theorem C1_capture_full_party_frame (rand : Nat → Nat) (e : Enc) (ack : Int)
    (rest : List Int)
    (hfull : e.sys.pc.num_poke = 6)
    (hkeys : e.sys.keys = 50 :: 49 :: ack :: rest)
    (hact : 0 ≤ e.pc_poke ∧ e.pc_poke < e.sys.pc.poke.length)
    (hp : e.p_deleted = false) :
    ∃ c e', io_encounter_iter rand e = .ok (c, e') ∧
      e'.sys.pc = e.sys.pc ∧
      e'.sys.pc.poke = e.sys.pc.poke ∧
      e'.sys.pc.poke.length = e.sys.pc.poke.length ∧
      e'.sys.pc.num_poke = 6 ∧
      e'.sys.pc.num_pokeballs = e.sys.pc.num_pokeballs ∧
      e'.sys.pc.num_potions = e.sys.pc.num_potions ∧
      e'.sys.pc.num_revives = e.sys.pc.num_revives :=
  ⟨_, _, iter_pokeball_full rand e ack rest hfull hkeys hact hp, rfl, rfl, rfl, hfull, rfl,
    rfl, rfl⟩

/-- Witness of C1: a full sample party, keys `'2'`, `'1'` and a key for the message. -/
theorem C1_capture_full_party_frame_witness :
    ∃ c e', io_encounter_iter rand_zero
        (encounter_init { pc := sample_pc_full, keys := [50, 49, 32], rand_pos := 0 }
          (sample_mon 15 15 40)) = .ok (c, e') ∧
      e'.sys.pc = sample_pc_full ∧
      e'.sys.pc.poke = sample_pc_full.poke ∧
      e'.sys.pc.poke.length = sample_pc_full.poke.length ∧
      e'.sys.pc.num_poke = 6 ∧
      e'.sys.pc.num_pokeballs = sample_pc_full.num_pokeballs ∧
      e'.sys.pc.num_potions = sample_pc_full.num_potions ∧
      e'.sys.pc.num_revives = sample_pc_full.num_revives :=
  C1_capture_full_party_frame rand_zero
    (encounter_init { pc := sample_pc_full, keys := [50, 49, 32], rand_pos := 0 }
      (sample_mon 15 15 40)) 32 [] rfl rfl (by decide) rfl

/-- Claim C2, at a full party of six with the keys `'2'`, `'1'`, a key for the message
and then `'3'`: the pass for Bag then Pokeball deletes the wild Pokemon but does not
leave the loop, so the encounter goes on to print the menu from the deleted Pokemon
(undefined behaviour) instead of ending; the whole run does not return. -/
theorem C2_capture_full_party_loop_goes_on :
    io_encounter_iter rand_zero
        (encounter_init { pc := sample_pc_full, keys := [50, 49, 32, 51, 32], rand_pos := 0 }
          (sample_mon 15 15 40)) =
      .ok (Ctl.next,
        { encounter_init { pc := sample_pc_full, keys := [51, 32], rand_pos := 0 }
            (sample_mon 15 15 40) with p_deleted := true }) ∧
    io_encounter_pokemon rand_zero
        { pc := sample_pc_full, keys := [50, 49, 32, 51, 32], rand_pos := 0 }
        (sample_mon 15 15 40) = .error Fault.use_after_free :=
  ⟨rfl, rfl⟩

/-- Claim C3: in a wild encounter with fewer than six party members, Bag then Pokeball
leaves the loop (the capture succeeds) with the wild Pokemon appended to the party,
`num_poke` one higher, one pokeball fewer, and the potions, the revives, the active
index `pc_poke` and every former member (so its hp) unchanged; the wild Pokemon is
not deleted. -/
theorem C3_capture_succeeds (rand : Nat → Nat) (e : Enc) (ack : Int) (rest : List Int)
    (hfree : e.sys.pc.num_poke < 6)
    (hkeys : e.sys.keys = 50 :: 49 :: ack :: rest)
    (hact : 0 ≤ e.pc_poke ∧ e.pc_poke < e.sys.pc.poke.length)
    (hp : e.p_deleted = false) :
    ∃ e', io_encounter_iter rand e = .ok (Ctl.exit, e') ∧
      e'.sys.pc.poke = e.sys.pc.poke ++ [e.p] ∧
      e'.sys.pc.poke.length = e.sys.pc.poke.length + 1 ∧
      (∀ i, i < e.sys.pc.poke.length → e'.sys.pc.poke.get? i = e.sys.pc.poke.get? i) ∧
      e'.sys.pc.num_poke = e.sys.pc.num_poke + 1 ∧
      e'.sys.pc.num_pokeballs = e.sys.pc.num_pokeballs - 1 ∧
      e'.sys.pc.num_potions = e.sys.pc.num_potions ∧
      e'.sys.pc.num_revives = e.sys.pc.num_revives ∧
      e'.pc_poke = e.pc_poke ∧
      e'.p = e.p ∧ e'.p_deleted = false := by
  refine ⟨_, iter_pokeball_free rand e ack rest (by omega) hkeys hact hp, rfl, by simp, ?_,
    rfl, rfl, rfl, rfl, rfl, rfl, hp⟩
  intro i hi
  simp [List.getElem?_append_left hi]

/-- Witness of C3: a party of five, keys `'2'`, `'1'` and a key for the message. -/
theorem C3_capture_succeeds_witness :
    ∃ e', io_encounter_iter rand_zero
        (encounter_init { pc := sample_pc_five, keys := [50, 49, 32], rand_pos := 0 }
          (sample_mon 15 15 40)) = .ok (Ctl.exit, e') ∧
      e'.sys.pc.poke = sample_pc_five.poke ++ [sample_mon 15 15 40] ∧
      e'.sys.pc.poke.length = sample_pc_five.poke.length + 1 ∧
      (∀ i, i < sample_pc_five.poke.length →
        e'.sys.pc.poke.get? i = sample_pc_five.poke.get? i) ∧
      e'.sys.pc.num_poke = sample_pc_five.num_poke + 1 ∧
      e'.sys.pc.num_pokeballs = sample_pc_five.num_pokeballs - 1 ∧
      e'.sys.pc.num_potions = sample_pc_five.num_potions ∧
      e'.sys.pc.num_revives = sample_pc_five.num_revives ∧
      e'.pc_poke = 0 ∧
      e'.p = sample_mon 15 15 40 ∧ e'.p_deleted = false :=
  C3_capture_succeeds rand_zero
    (encounter_init { pc := sample_pc_five, keys := [50, 49, 32], rand_pos := 0 }
      (sample_mon 15 15 40)) 32 [] (by decide) rfl (by decide) rfl

/-! ## Item counts (claims C4 to C6) -/

/-- Claim C4, at a player with no item and one hurt Pokemon in a wild encounter: the
Bag of the encounter tests no count, so with zero pokeballs the keys `'2'`, `'1'`
capture the wild Pokemon and leave `num_pokeballs` at `-1`, and with zero potions the
keys `'2'`, `'2'` heal the active Pokemon and leave `num_potions` at `-1`. -/
theorem C4_wild_bag_uses_missing_items :
    (io_encounter_pokemon rand_zero
        { pc := sample_pc_no_items, keys := [50, 49, 32], rand_pos := 0 }
        (sample_mon 15 15 40)).toOption.map (fun e => e.sys.pc) =
      some { poke := [sample_mon 35 50 10, sample_mon 15 15 40], num_poke := 2,
             num_pokeballs := -1, num_potions := 0, num_revives := 0 } ∧
    (io_encounter_iter rand_zero
        (encounter_init { pc := sample_pc_no_items, keys := [50, 50], rand_pos := 0 }
          (sample_mon 15 15 40))).toOption.map (fun r => r.2.sys.pc) =
      some { poke := [sample_mon 50 50 10], num_poke := 1,
             num_pokeballs := 0, num_potions := -1, num_revives := 0 } := by
  constructor <;> decide

/-- Claim C5, at a player with three potions, one revive and a knocked Pokemon in the
overworld bag: the keys `'3'`, `'1'` revive the Pokemon (hp 0 to 25 of 50) but the
count that goes down is `num_potions`, from 3 to 2, and `num_revives` stays 1. -/
theorem C5_world_revive_spends_a_potion :
    (io_world_bag { pc := sample_pc_knocked, keys := [51, 49, 32], rand_pos := 0 }).toOption
      = some { pc := { poke := [sample_mon 25 50 10], num_poke := 1, num_pokeballs := 0,
                       num_potions := 2, num_revives := 1 },
               keys := [], rand_pos := 0 } := by
  decide

/-- Claim C6, at a player with three potions and a knocked Pokemon in the overworld
bag: the keys `'2'`, `'1'` are not rejected; the knocked Pokemon goes from hp 0 to 20
and a potion is spent. -/
theorem C6_world_potion_heals_knocked :
    (io_world_bag { pc := sample_pc_knocked, keys := [50, 49, 32], rand_pos := 0 }).toOption
      = some { pc := { poke := [sample_mon 20 50 10], num_poke := 1, num_pokeballs := 0,
                       num_potions := 2, num_revives := 1 },
               keys := [], rand_pos := 0 } := by
  decide

/-! ## Potion and Revive on the hp (claims C7 and C8) -/

/-- Claim C7: for a party member `t` at index `i` with `0 < hp < max_hp`, a Potion in
the wild-encounter bag, in the trainer-battle bag and in the overworld bag (the last
two test `num_potions != 0`, and the overworld bag first prints the `num_poke` members
of the party) sets the hp of that member to `min (hp + 20) max_hp`,
which is at most `max_hp`, takes one from `num_potions` and leaves the revives, the
pokeballs, the party size, every other member and the wild Pokemon as they were. -/
theorem C7_potion_heals (pc : Pc) (i : Nat) (t : Pokemon)
    (hi : pc.poke.get? i = some t) (h0 : 0 < t.stat_hp) (h1 : t.stat_hp < t.max_hp) :
    min (t.stat_hp + 20) t.max_hp ≤ t.max_hp ∧
    (∀ j, j ≠ i →
      (pc.poke.set i { t with stat_hp := min (t.stat_hp + 20) t.max_hp }).get? j =
        pc.poke.get? j) ∧
    (∀ (fuel : Nat) (e : Enc) (rest : List Int),
      e.sys.pc = pc → e.pc_poke = i → e.sys.keys = 50 :: rest →
      encounter_bag (fuel + 1) e =
        .ok (0, { e with sys := { e.sys with
          keys := rest,
          pc := { pc with
            poke := pc.poke.set i { t with stat_hp := min (t.stat_hp + 20) t.max_hp },
            num_potions := pc.num_potions - 1 } } })) ∧
    (pc.num_potions ≠ 0 → ∀ (fuel rp : Nat) (rest : List Int),
      battle_bag (fuel + 1) i { pc := pc, keys := 49 :: rest, rand_pos := rp } =
        .ok { pc := { pc with
                poke := pc.poke.set i { t with stat_hp := min (t.stat_hp + 20) t.max_hp },
                num_potions := pc.num_potions - 1 },
              keys := rest, rand_pos := rp }) ∧
    (pc.num_potions ≠ 0 → pc.num_poke ≤ pc.poke.length →
      ∀ (rp : Nat) (ack : Int) (rest : List Int),
      io_world_bag { pc := pc, keys := 50 :: ((i : Int) + 49) :: ack :: rest, rand_pos := rp } =
        .ok { pc := { pc with
                poke := pc.poke.set i { t with stat_hp := min (t.stat_hp + 20) t.max_hp },
                num_potions := pc.num_potions - 1 },
              keys := rest, rand_pos := rp }) := by
  have hat := vec_at_of_get? pc.poke i t hi
  refine ⟨min_le_right _ _, ?_, ?_, ?_, ?_⟩
  · intro j hj
    simp [List.getElem?_set_ne (Ne.symm hj)]
  · intro fuel e rest hpc hidx hkeys
    have ht : vec_at e.sys.pc.poke e.pc_poke = .ok t := by rw [hpc, hidx]; exact hat
    rw [encounter_bag_potion fuel e rest t hkeys ht h0 h1, hpc, hidx]
    simp
  · intro hpot fuel rp rest
    rw [battle_bag_potion fuel i _ rest t rfl hpot hat h0 h1]
    simp
  · intro hpot hnp rp ack rest
    rw [world_bag_potion _ i ack rest t rfl hpot hnp hat h0 h1]
    simp

/-- Witness of C7: the hurt sample Pokemon (hp 35 of 50) is healed to 50 in each of
the three flows and the single potion is spent. -/
theorem C7_potion_heals_witness :
    encounter_bag 1
        (encounter_init { pc := sample_pc_hurt, keys := [50], rand_pos := 0 }
          (sample_mon 15 15 40)) =
      .ok (0, encounter_init
        { pc := { sample_pc_hurt with poke := [sample_mon 50 50 10], num_potions := 0 },
          keys := [], rand_pos := 0 } (sample_mon 15 15 40)) ∧
    battle_bag 1 0 { pc := sample_pc_hurt, keys := [49], rand_pos := 0 } =
      .ok { pc := { sample_pc_hurt with poke := [sample_mon 50 50 10], num_potions := 0 },
            keys := [], rand_pos := 0 } ∧
    io_world_bag { pc := sample_pc_hurt, keys := [50, 49, 32], rand_pos := 0 } =
      .ok { pc := { sample_pc_hurt with poke := [sample_mon 50 50 10], num_potions := 0 },
            keys := [], rand_pos := 0 } :=
  have h := C7_potion_heals sample_pc_hurt 0 (sample_mon 35 50 10) rfl (by decide)
    (by decide)
  ⟨h.2.2.1 0 (encounter_init { pc := sample_pc_hurt, keys := [50], rand_pos := 0 }
      (sample_mon 15 15 40)) [] rfl rfl rfl,
    h.2.2.2.1 (by decide) 0 0 [],
    h.2.2.2.2 (by decide) (by decide) 0 32 []⟩

/-- Claim C8: for a party member `t` at index `i` with `0 ≤ max_hp`, a Revive in the
wild-encounter bag, in the trainer-battle bag and in the overworld bag (the last two
test `num_revives != 0`, and the overworld bag first prints the `num_poke` members of
the party) applied when `t` is knocked sets its hp to `max_hp / 2`
(truncating division, here equal to the floor) and changes no other member; applied
when `t` is not knocked it is rejected: the item menu of a battle is shown again, and
the overworld bag returns, with only the keys consumed. -/
theorem C8_revive_hp (pc : Pc) (i : Nat) (t : Pokemon)
    (hi : pc.poke.get? i = some t) (hm : 0 ≤ t.max_hp) :
    t.max_hp.tdiv 2 = t.max_hp / 2 ∧
    (t.stat_hp = 0 →
      (∀ (fuel : Nat) (e : Enc) (rest : List Int),
        e.sys.pc = pc → e.pc_poke = i → e.sys.keys = 51 :: rest →
        ∃ e', encounter_bag (fuel + 1) e = .ok (0, e') ∧
          e'.sys.pc.poke = pc.poke.set i { t with stat_hp := t.max_hp.tdiv 2 }) ∧
      (pc.num_revives ≠ 0 → ∀ (fuel rp : Nat) (rest : List Int),
        ∃ s', battle_bag (fuel + 1) i { pc := pc, keys := 50 :: rest, rand_pos := rp } =
            .ok s' ∧
          s'.pc.poke = pc.poke.set i { t with stat_hp := t.max_hp.tdiv 2 }) ∧
      (pc.num_revives ≠ 0 → pc.num_poke ≤ pc.poke.length →
        ∀ (rp : Nat) (ack : Int) (rest : List Int),
        ∃ s', io_world_bag
            { pc := pc, keys := 51 :: ((i : Int) + 49) :: ack :: rest, rand_pos := rp } =
            .ok s' ∧
          s'.pc.poke = pc.poke.set i { t with stat_hp := t.max_hp.tdiv 2 })) ∧
    (t.stat_hp ≠ 0 →
      (∀ (fuel : Nat) (e : Enc) (ack : Int) (rest : List Int),
        e.sys.pc = pc → e.pc_poke = i → e.sys.keys = 51 :: ack :: rest →
        encounter_bag (fuel + 1) e =
          encounter_bag fuel { e with sys := { e.sys with keys := rest } }) ∧
      (∀ (fuel rp : Nat) (ack : Int) (rest : List Int),
        battle_bag (fuel + 1) i { pc := pc, keys := 50 :: ack :: rest, rand_pos := rp } =
          battle_bag fuel i { pc := pc, keys := rest, rand_pos := rp }) ∧
      (pc.num_revives ≠ 0 → pc.num_poke ≤ pc.poke.length →
        ∀ (rp : Nat) (ack : Int) (rest : List Int),
        io_world_bag
            { pc := pc, keys := 51 :: ((i : Int) + 49) :: ack :: rest, rand_pos := rp } =
          .ok { pc := pc, keys := rest, rand_pos := rp })) := by
  have hat := vec_at_of_get? pc.poke i t hi
  refine ⟨Int.tdiv_eq_ediv hm (by norm_num), fun hk => ⟨?_, ?_, ?_⟩, fun hk => ⟨?_, ?_, ?_⟩⟩
  · intro fuel e rest hpc hidx hkeys
    have ht : vec_at e.sys.pc.poke e.pc_poke = .ok t := by rw [hpc, hidx]; exact hat
    refine ⟨_, encounter_bag_revive fuel e rest t hkeys ht hk hm, ?_⟩
    simp [hpc, hidx]
  · intro hrevs fuel rp rest
    refine ⟨_, battle_bag_revive fuel i _ rest t rfl hrevs hat hk hm, ?_⟩
    simp
  · intro hrevs hnp rp ack rest
    refine ⟨_, world_bag_revive _ i ack rest t rfl hrevs hnp hat hk hm, ?_⟩
    simp
  · intro fuel e ack rest hpc hidx hkeys
    have ht : vec_at e.sys.pc.poke e.pc_poke = .ok t := by rw [hpc, hidx]; exact hat
    exact encounter_bag_revive_rejected fuel e ack rest t hkeys ht hk
  · intro fuel rp ack rest
    exact battle_bag_revive_rejected fuel i _ ack rest t rfl hat hk
  · intro hrevs hnp rp ack rest
    exact world_bag_revive_rejected _ i ack rest t rfl hrevs hnp hat hk

/-- Witness of C8: the knocked sample Pokemon (hp 0 of 50) is revived to hp 25 in
each of the three flows, and for the hurt sample Pokemon (hp 35) the Revive is
rejected: a battle bag goes back to its menu and the overworld bag returns with the
player unchanged. -/
theorem C8_revive_hp_witness :
    ((∃ e', encounter_bag 1
          (encounter_init { pc := sample_pc_knocked, keys := [51], rand_pos := 0 }
            (sample_mon 15 15 40)) = .ok (0, e') ∧
        e'.sys.pc.poke = [sample_mon 25 50 10]) ∧
      (∃ s', battle_bag 1 0 { pc := sample_pc_knocked, keys := [50], rand_pos := 0 } =
          .ok s' ∧
        s'.pc.poke = [sample_mon 25 50 10]) ∧
      (∃ s', io_world_bag { pc := sample_pc_knocked, keys := [51, 49, 32], rand_pos := 0 } =
          .ok s' ∧
        s'.pc.poke = [sample_mon 25 50 10])) ∧
    (encounter_bag 2
        (encounter_init { pc := sample_pc_hurt, keys := [51, 32, 113], rand_pos := 0 }
          (sample_mon 15 15 40)) =
      encounter_bag 1
        (encounter_init { pc := sample_pc_hurt, keys := [113], rand_pos := 0 }
          (sample_mon 15 15 40)) ∧
      battle_bag 2 0 { pc := sample_pc_hurt, keys := [50, 32, 113], rand_pos := 0 } =
        battle_bag 1 0 { pc := sample_pc_hurt, keys := [113], rand_pos := 0 } ∧
      io_world_bag { pc := sample_pc_hurt, keys := [51, 49, 32], rand_pos := 0 } =
        .ok { pc := sample_pc_hurt, keys := [], rand_pos := 0 }) :=
  have hk := (C8_revive_hp sample_pc_knocked 0 (sample_mon 0 50 10) rfl (by decide)).2.1 rfl
  have hh := (C8_revive_hp sample_pc_hurt 0 (sample_mon 35 50 10) rfl (by decide)).2.2
    (by decide)
  ⟨⟨hk.1 0 (encounter_init { pc := sample_pc_knocked, keys := [51], rand_pos := 0 }
        (sample_mon 15 15 40)) [] rfl rfl rfl,
      hk.2.1 (by decide) 0 0 [],
      hk.2.2 (by decide) (by decide) 0 32 []⟩,
    ⟨hh.1 1 (encounter_init { pc := sample_pc_hurt, keys := [51, 32, 113], rand_pos := 0 }
        (sample_mon 15 15 40)) 32 [113] rfl rfl rfl,
      hh.2.1 1 0 32 [113],
      hh.2.2 (by decide) (by decide) 0 32 []⟩⟩

/-! ## Running away (claims C9 and C10) -/

/-- The truncating quotient of the escape odds is the floor of the exact quotient when
both speeds are non-negative. -/
theorem escape_quotient_floor (ps os : Int) (h0 : 0 ≤ ps) (h1 : 0 ≤ os) :
    (ps * 32).tdiv ((os.tdiv 4).tmod 256) =
      ⌊((ps * 32 : Int) : ℚ) / (((os / 4) % 256 : Int) : ℚ)⌋ := by
  have hq : os.tdiv 4 = os / 4 := Int.tdiv_eq_ediv h1 (by norm_num)
  have hq0 : 0 ≤ os / 4 := Int.ediv_nonneg h1 (by norm_num)
  have hm : (os / 4).tmod 256 = (os / 4) % 256 := Int.tmod_eq_emod hq0 (by norm_num)
  have hd0 : 0 ≤ (os / 4) % 256 := Int.emod_nonneg _ (by norm_num)
  rw [hq, hm, Int.tdiv_eq_ediv (by omega) hd0]
  have hcast : (((os / 4) % 256 : Int) : ℚ) = ((((os / 4) % 256).toNat : Nat) : ℚ) := by
    have := Int.toNat_of_nonneg hd0
    exact_mod_cast this.symm
  rw [hcast, Rat.floor_intCast_div_natCast, Int.toNat_of_nonneg hd0]

/-- The divisor of the escape odds is positive when it is not zero and the speed of
the wild Pokemon is non-negative. -/
theorem escape_divisor_pos (os : Int) (h1 : 0 ≤ os) (hd : (os.tdiv 4).tmod 256 ≠ 0) :
    0 < (os.tdiv 4).tmod 256 := by
  have hq : os.tdiv 4 = os / 4 := Int.tdiv_eq_ediv h1 (by norm_num)
  have hq0 : 0 ≤ os / 4 := Int.ediv_nonneg h1 (by norm_num)
  have hm : (os / 4).tmod 256 = (os / 4) % 256 := Int.tmod_eq_emod hq0 (by norm_num)
  rw [hq, hm] at hd ⊢
  have := Int.emod_nonneg (os / 4) (by norm_num : (256 : Int) ≠ 0)
  omega

/-- The escape odds when no product or sum leaves the range of `int`: for non-negative
speeds with `speed * 32` and the sum below `2 ^ 31`, and a non-negative attempt count,
the odds are the exact value of the expression. -/
theorem escape_odd_in_range (ps os a : Int) (h0 : 0 ≤ ps) (hs : ps * 32 < 2 ^ 31)
    (h1 : 0 ≤ os) (hd : (os.tdiv 4).tmod 256 ≠ 0) (ha : 0 ≤ a)
    (hsum : (ps * 32).tdiv ((os.tdiv 4).tmod 256) + 30 * a < 2 ^ 31) :
    escape_odd ps os a = .ok ((ps * 32).tdiv ((os.tdiv 4).tmod 256) + 30 * a) := by
  have hpos := escape_divisor_pos os h1 hd
  have hq : 0 ≤ (ps * 32).tdiv ((os.tdiv 4).tmod 256) :=
    Int.tdiv_nonneg (by omega) (le_of_lt hpos)
  have w1 : wrap_int (ps * 32) = ps * 32 := wrap_int_of_range _ (by omega) hs
  have w2 : wrap_int (30 * a) = 30 * a := wrap_int_of_range _ (by omega) (by omega)
  have w3 : wrap_int ((ps * 32).tdiv ((os.tdiv 4).tmod 256) + 30 * a) =
      (ps * 32).tdiv ((os.tdiv 4).tmod 256) + 30 * a := wrap_int_of_range _ (by omega) hsum
  simp only [escape_odd, w1, w2, bind, Except.bind, pure, Except.pure,
    int_div_ok (ps * 32) ((os.tdiv 4).tmod 256) hd (fun h => by omega), w3]

/-- Claim C9 fails: with a player speed of 100000000 against a wild Pokemon of speed 40
(divisor 10) the value of the claim for the first Run is
`floor(3200000000 / 10) + 30 = 320000030`, which every draw from 0..255 satisfies; but
the `int` product `speed * 32` wraps around to -1094967296, the odds computed are
-109496699, and the Run fails on the draw 0: the loop goes on. -/
theorem C9_odds_wrap_around :
    ⌊(((100000000 : Int) * 32 : Int) : ℚ) / ((((40 : Int) / 4) % 256 : Int) : ℚ)⌋ +
      30 * (0 + 1) = 320000030 ∧
    ((rand_zero 0 : Nat) : Int).tmod 256 = 0 ∧
    escape_odd 100000000 40 (0 + 1) = .ok (-109496699) ∧
    io_encounter_iter rand_zero
        (encounter_init (Sys.mk (sample_pc_speed 100000000) [51, 32] 0)
          (sample_mon 15 15 40)) =
      .ok (Ctl.next,
        { encounter_init (Sys.mk (sample_pc_speed 100000000) [] 1) (sample_mon 15 15 40) with
          attempt := 1 }) := by
  refine ⟨?_, rfl, rfl, rfl⟩
  norm_num

/-- Claim C9 as amended: on a Run selection (key `'3'`, then a key for the message) with
a non-zero divisor, non-negative speeds and a non-negative `attempt`, when neither
`speed * 32` nor the sum leaves the range of `int`, `attempt` is first incremented and
the odds are `(speed * 32) / ((p_speed / 4) % 256) + 30 * attempt` with the incremented
`attempt` and truncating division, which is the floor of the exact quotient; the draw
`rand() % 256` lies in 0..255 and the loop is left, with the wild Pokemon deleted,
exactly when the draw is at most the odds; the player is not changed.  The counter
`attempt` is 0 on entry to the loop and no other action changes it. -/
theorem C9_run_escape_odds (rand : Nat → Nat) (e : Enc) (ack : Int) (rest : List Int)
    (t : Pokemon)
    (hkeys : e.sys.keys = 51 :: ack :: rest)
    (hp : e.p_deleted = false)
    (ht : vec_at e.sys.pc.poke e.pc_poke = .ok t)
    (hd : (e.p.stat_speed.tdiv 4).tmod 256 ≠ 0)
    (h0 : 0 ≤ t.stat_speed) (hs : t.stat_speed * 32 < 2 ^ 31) (h1 : 0 ≤ e.p.stat_speed)
    (ha : 0 ≤ e.attempt)
    (hsum : (t.stat_speed * 32).tdiv ((e.p.stat_speed.tdiv 4).tmod 256) +
      30 * (e.attempt + 1) < 2 ^ 31) :
    ∃ (odds draw : Int) (c : Ctl) (e' : Enc),
      escape_odd t.get_speed e.p.get_speed (e.attempt + 1) = .ok odds ∧
      odds = (t.stat_speed * 32).tdiv ((e.p.stat_speed.tdiv 4).tmod 256) +
        30 * (e.attempt + 1) ∧
      odds = ⌊((t.stat_speed * 32 : Int) : ℚ) / (((e.p.stat_speed / 4) % 256 : Int) : ℚ)⌋ +
        30 * (e.attempt + 1) ∧
      draw = ((rand e.sys.rand_pos : Nat) : Int).tmod 256 ∧ 0 ≤ draw ∧ draw ≤ 255 ∧
      io_encounter_iter rand e = .ok (c, e') ∧
      e'.attempt = e.attempt + 1 ∧
      (c = Ctl.exit ↔ draw ≤ odds) ∧
      (c = Ctl.exit → e'.p_deleted = true) ∧
      (c = Ctl.next → e'.p_deleted = false ∧ e'.p = e.p) ∧
      e'.sys.pc = e.sys.pc ∧
      (∀ (s : Sys) (p : Pokemon), (encounter_init s p).attempt = 0) ∧
      (∀ (e0 : Enc) (k : Int) (ks : List Int) (c0 : Ctl) (e1 : Enc),
        e0.sys.keys = k :: ks → to_char k ≠ 51 →
        io_encounter_iter rand e0 = .ok (c0, e1) → e1.attempt = e0.attempt) := by
  have hodds : escape_odd t.get_speed e.p.get_speed (e.attempt + 1) =
      .ok ((t.stat_speed * 32).tdiv ((e.p.stat_speed.tdiv 4).tmod 256) +
        30 * (e.attempt + 1)) :=
    escape_odd_in_range t.stat_speed e.p.stat_speed (e.attempt + 1) h0 hs h1 hd (by omega) hsum
  have hrun := iter_run rand e ack rest t _ hkeys hp ht hodds
  have hdraw0 : 0 ≤ ((rand e.sys.rand_pos : Nat) : Int).tmod 256 :=
    Int.tmod_nonneg _ (Int.natCast_nonneg _)
  have hdraw1 : ((rand e.sys.rand_pos : Nat) : Int).tmod 256 ≤ 255 := by
    have := Int.tmod_lt_of_pos ((rand e.sys.rand_pos : Nat) : Int) (by norm_num : (0 : Int) < 256)
    omega
  have hfloor :
      (t.stat_speed * 32).tdiv ((e.p.stat_speed.tdiv 4).tmod 256) + 30 * (e.attempt + 1) =
        ⌊((t.stat_speed * 32 : Int) : ℚ) / (((e.p.stat_speed / 4) % 256 : Int) : ℚ)⌋ +
          30 * (e.attempt + 1) := by
    rw [escape_quotient_floor t.stat_speed e.p.stat_speed h0 h1]
  have hframe : ∀ (e0 : Enc) (k : Int) (ks : List Int) (c0 : Ctl) (e1 : Enc),
      e0.sys.keys = k :: ks → to_char k ≠ 51 →
      io_encounter_iter rand e0 = .ok (c0, e1) → e1.attempt = e0.attempt :=
    fun e0 k ks c0 e1 h1 h2 h3 => iter_attempt_frame rand e0 k ks c0 e1 h1 h2 h3
  by_cases hc : ((rand e.sys.rand_pos : Nat) : Int).tmod 256 ≤
      (t.stat_speed * 32).tdiv ((e.p.stat_speed.tdiv 4).tmod 256) + 30 * (e.attempt + 1)
  · rw [if_pos hc] at hrun
    exact ⟨_, _, _, _, hodds, rfl, hfloor, rfl, hdraw0, hdraw1, hrun, rfl,
      ⟨fun _ => hc, fun _ => rfl⟩, fun _ => rfl, fun h => (by cases h), rfl,
      fun _ _ => rfl, hframe⟩
  · rw [if_neg hc] at hrun
    exact ⟨_, _, _, _, hodds, rfl, hfloor, rfl, hdraw0, hdraw1, hrun, rfl,
      ⟨fun h => (by cases h), fun h => absurd h hc⟩, fun h => (by cases h),
      fun _ => ⟨hp, rfl⟩, rfl, fun _ _ => rfl, hframe⟩

/-- Witness of C9 as amended: the first Run of an encounter, player speed 10 against
wild speed 40 (divisor 10, odds 62). -/
theorem C9_run_escape_odds_witness :
    ∃ (odds draw : Int) (c : Ctl) (e' : Enc),
      escape_odd 10 40 (0 + 1) = .ok odds ∧
      odds = ((10 : Int) * 32).tdiv (((40 : Int).tdiv 4).tmod 256) + 30 * (0 + 1) ∧
      odds = ⌊(((10 : Int) * 32 : Int) : ℚ) / ((((40 : Int) / 4) % 256 : Int) : ℚ)⌋ +
        30 * (0 + 1) ∧
      draw = ((rand_zero 0 : Nat) : Int).tmod 256 ∧ 0 ≤ draw ∧ draw ≤ 255 ∧
      io_encounter_iter rand_zero
        (encounter_init { pc := sample_pc_hurt, keys := [51, 32], rand_pos := 0 }
          (sample_mon 15 15 40)) = .ok (c, e') ∧
      e'.attempt = 0 + 1 ∧
      (c = Ctl.exit ↔ draw ≤ odds) ∧
      (c = Ctl.exit → e'.p_deleted = true) ∧
      (c = Ctl.next → e'.p_deleted = false ∧ e'.p = sample_mon 15 15 40) ∧
      e'.sys.pc = sample_pc_hurt ∧
      (∀ (s : Sys) (p : Pokemon), (encounter_init s p).attempt = 0) ∧
      (∀ (e0 : Enc) (k : Int) (ks : List Int) (c0 : Ctl) (e1 : Enc),
        e0.sys.keys = k :: ks → to_char k ≠ 51 →
        io_encounter_iter rand_zero e0 = .ok (c0, e1) → e1.attempt = e0.attempt) :=
  C9_run_escape_odds rand_zero
    (encounter_init { pc := sample_pc_hurt, keys := [51, 32], rand_pos := 0 }
      (sample_mon 15 15 40)) 32 [] (sample_mon 35 50 10) rfl rfl rfl (by decide)
    (by decide) (by decide) (by decide) (by decide) (by decide)

/-- Claim C10 fails: for the non-negative speeds 100000000 and 40 (divisor 10) the odds
at attempt count 9 are -109496459, not above 255, because `speed * 32` wraps around in
`int`; a Run selected with `attempt = 8` fails on the draw 0. -/
theorem C10_nine_attempts_not_enough :
    ((0 : Int) ≤ 100000000 ∧ (0 : Int) ≤ 40 ∧ ((40 : Int).tdiv 4).tmod 256 ≠ 0) ∧
    escape_odd 100000000 40 9 = .ok (-109496459) ∧
    ¬ ((255 : Int) < -109496459) ∧
    io_encounter_iter rand_zero
        { encounter_init (Sys.mk (sample_pc_speed 100000000) [51, 32] 0)
            (sample_mon 15 15 40) with attempt := 8 } =
      .ok (Ctl.next,
        { encounter_init (Sys.mk (sample_pc_speed 100000000) [] 1) (sample_mon 15 15 40) with
          attempt := 9 }) :=
  ⟨⟨by decide, by decide, by decide⟩, rfl, by decide, rfl⟩

/-- Claim C10 as amended: for non-negative speeds with `speed * 32` below `2 ^ 31` and a
non-zero divisor, let `q = (speed * 32) / ((p_speed / 4) % 256)`.  For every attempt
count `a ≥ 0` with `q + 30 * a` below `2 ^ 31` the odds are defined and equal
`q + 30 * a`; over these attempt counts they are non-decreasing (so a draw that succeeds
at attempt `a` succeeds at attempt `a + 1`), and from attempt count 9 on they exceed
255, so that every draw `rand() % 256` succeeds: a Run selected when `attempt` is
already at least 8 leaves the loop whatever the random stream is. -/
theorem C10_escape_monotone_certain (ps os : Int) (h0 : 0 ≤ ps) (hs : ps * 32 < 2 ^ 31)
    (h1 : 0 ≤ os) (hd : (os.tdiv 4).tmod 256 ≠ 0) :
    ∃ q : Int, q = (ps * 32).tdiv ((os.tdiv 4).tmod 256) ∧ 0 ≤ q ∧
      (∀ a, 0 ≤ a → q + 30 * a < 2 ^ 31 → escape_odd ps os a = .ok (q + 30 * a)) ∧
      (∀ (a b oa ob : Int), 0 ≤ a → a ≤ b → q + 30 * b < 2 ^ 31 →
        escape_odd ps os a = .ok oa → escape_odd ps os b = .ok ob → oa ≤ ob) ∧
      (∀ (a oa ob draw : Int), 0 ≤ a → q + 30 * (a + 1) < 2 ^ 31 →
        escape_odd ps os a = .ok oa → escape_odd ps os (a + 1) = .ok ob →
        draw ≤ oa → draw ≤ ob) ∧
      (∀ a, 9 ≤ a → q + 30 * a < 2 ^ 31 →
        ∃ o, escape_odd ps os a = .ok o ∧ 255 < o ∧
          ∀ r : Nat, ((r : Nat) : Int).tmod 256 ≤ o) ∧
      (∀ (rand : Nat → Nat) (e : Enc) (ack : Int) (rest : List Int) (t : Pokemon),
        e.sys.keys = 51 :: ack :: rest → e.p_deleted = false →
        vec_at e.sys.pc.poke e.pc_poke = .ok t →
        t.stat_speed = ps → e.p.stat_speed = os → 8 ≤ e.attempt →
        q + 30 * (e.attempt + 1) < 2 ^ 31 →
        ∃ e', io_encounter_iter rand e = .ok (Ctl.exit, e')) := by
  have hpos := escape_divisor_pos os h1 hd
  have hbase : 0 ≤ (ps * 32).tdiv ((os.tdiv 4).tmod 256) :=
    Int.tdiv_nonneg (by omega) (le_of_lt hpos)
  have hval : ∀ a, 0 ≤ a → (ps * 32).tdiv ((os.tdiv 4).tmod 256) + 30 * a < 2 ^ 31 →
      escape_odd ps os a = .ok ((ps * 32).tdiv ((os.tdiv 4).tmod 256) + 30 * a) :=
    fun a ha hsum => escape_odd_in_range ps os a h0 hs h1 hd ha hsum
  refine ⟨_, rfl, hbase, hval, ?_, ?_, ?_, ?_⟩
  · intro a b oa ob ha hab hsum hoa hob
    rw [hval a ha (by omega)] at hoa
    rw [hval b (by omega) hsum] at hob
    cases hoa
    cases hob
    omega
  · intro a oa ob draw ha hsum hoa hob hle
    rw [hval a ha (by omega)] at hoa
    rw [hval (a + 1) (by omega) hsum] at hob
    cases hoa
    cases hob
    omega
  · intro a ha hsum
    refine ⟨_, hval a (by omega) hsum, by omega, ?_⟩
    intro r
    have := Int.tmod_lt_of_pos ((r : Nat) : Int) (by norm_num : (0 : Int) < 256)
    omega
  · intro rand e ack rest t hkeys hp ht hps hos hatt hsum
    have hodds : escape_odd t.get_speed e.p.get_speed (e.attempt + 1) =
        .ok ((ps * 32).tdiv ((os.tdiv 4).tmod 256) + 30 * (e.attempt + 1)) := by
      have := hval (e.attempt + 1) (by omega) hsum
      simpa [Pokemon.get_speed, hps, hos] using this
    have hrun := iter_run rand e ack rest t _ hkeys hp ht hodds
    have hlt := Int.tmod_lt_of_pos ((rand e.sys.rand_pos : Nat) : Int)
      (by norm_num : (0 : Int) < 256)
    have hc : ((rand e.sys.rand_pos : Nat) : Int).tmod 256 ≤
        (ps * 32).tdiv ((os.tdiv 4).tmod 256) + 30 * (e.attempt + 1) := by
      omega
    rw [if_pos hc] at hrun
    exact ⟨_, hrun⟩

/-- Witness of C10 as amended: player speed 10 against wild speed 40, where `q = 32`. -/
theorem C10_escape_monotone_certain_witness :
    ((0 : Int) ≤ 10 ∧ (10 : Int) * 32 < 2 ^ 31 ∧ (0 : Int) ≤ 40 ∧
      ((40 : Int).tdiv 4).tmod 256 ≠ 0) ∧
    ∃ q : Int, q = ((10 : Int) * 32).tdiv (((40 : Int).tdiv 4).tmod 256) ∧ 0 ≤ q ∧
      (∀ a, 0 ≤ a → q + 30 * a < 2 ^ 31 → escape_odd 10 40 a = .ok (q + 30 * a)) ∧
      (∀ (a b oa ob : Int), 0 ≤ a → a ≤ b → q + 30 * b < 2 ^ 31 →
        escape_odd 10 40 a = .ok oa → escape_odd 10 40 b = .ok ob → oa ≤ ob) ∧
      (∀ (a oa ob draw : Int), 0 ≤ a → q + 30 * (a + 1) < 2 ^ 31 →
        escape_odd 10 40 a = .ok oa → escape_odd 10 40 (a + 1) = .ok ob →
        draw ≤ oa → draw ≤ ob) ∧
      (∀ a, 9 ≤ a → q + 30 * a < 2 ^ 31 →
        ∃ o, escape_odd 10 40 a = .ok o ∧ 255 < o ∧
          ∀ r : Nat, ((r : Nat) : Int).tmod 256 ≤ o) ∧
      (∀ (rand : Nat → Nat) (e : Enc) (ack : Int) (rest : List Int) (t : Pokemon),
        e.sys.keys = 51 :: ack :: rest → e.p_deleted = false →
        vec_at e.sys.pc.poke e.pc_poke = .ok t →
        t.stat_speed = 10 → e.p.stat_speed = 40 → 8 ≤ e.attempt →
        q + 30 * (e.attempt + 1) < 2 ^ 31 →
        ∃ e', io_encounter_iter rand e = .ok (Ctl.exit, e')) :=
  ⟨⟨by decide, by decide, by decide, by decide⟩,
    C10_escape_monotone_certain 10 40 (by decide) (by decide) (by decide) (by decide)⟩

/-! ## Attacks and the Fight action, step by step -/

/-- An attack whose accuracy test fails: the defender is returned as it was and one
key is read. -/
theorem attack_miss (rand : Nat → Nat) (a d : Pokemon) (mv acc move_hit : Int) (s : Sys)
    (hacc : a.get_move_acc mv = .ok acc) (hmiss : ¬ move_hit < acc) :
    attack rand a d (some mv) move_hit s = (getch s).map (fun ks => (d, ks.2)) := by
  simp only [attack, hacc, bind, Except.bind, pure, Except.pure, hmiss, if_false]
  cases getch s <;> rfl

/-- An attack whose accuracy test passes: two values of `rand()` are drawn, the damage
is computed and subtracted from the defender, and one key is read. -/
theorem attack_hit (rand : Nat → Nat) (a d : Pokemon) (mv acc move_hit : Int) (s : Sys)
    (hacc : a.get_move_acc mv = .ok acc) (hhit : move_hit < acc) :
    attack rand a d (some mv) move_hit s =
      (compute_damage a d mv (rand s.rand_pos) (rand (s.rand_pos + 1))).bind (fun damage =>
        (getch { s with rand_pos := s.rand_pos + 2 }).map
          (fun ks => (d.subtract_hp damage, ks.2))) := by
  simp only [attack, hacc, bind, Except.bind, pure, Except.pure, hhit, if_true, next_rand]
  cases compute_damage a d mv (rand s.rand_pos) (rand (s.rand_pos + 1)) with
  | error f => rfl
  | ok dmg =>
    simp only
    cases getch { s with rand_pos := s.rand_pos + 2 } <;> rfl

/-- A call of `getch()` that returns has removed the first pending key. -/
theorem getch_ok (s : Sys) (k : Int) (s' : Sys) (h : getch s = .ok (k, s')) :
    s.keys = k :: s'.keys ∧ s'.pc = s.pc ∧ s'.rand_pos = s.rand_pos := by
  unfold getch at h
  split at h
  · cases h
  · next k0 ks hks =>
    cases h
    exact ⟨hks, rfl, rfl⟩

/-- An attack that returns has read one key and left the player as it was, and the
defender is either unchanged or has had some damage subtracted. -/
theorem attack_frame (rand : Nat → Nat) (a d : Pokemon) (move : Option Int) (move_hit : Int)
    (s : Sys) (d' : Pokemon) (s' : Sys)
    (h : attack rand a d move move_hit s = .ok (d', s')) :
    s'.pc = s.pc ∧ (∃ k, s.keys = k :: s'.keys) ∧
      (d' = d ∨ ∃ damage, d' = d.subtract_hp damage) := by
  cases move with
  | none => simp [attack, bind, Except.bind, throw, throwThe, MonadExceptOf.throw] at h
  | some mv =>
    cases hacc : a.get_move_acc mv with
    | error f => simp [attack, hacc, bind, Except.bind, pure, Except.pure] at h
    | ok acc =>
      by_cases hhit : move_hit < acc
      · rw [attack_hit rand a d mv acc move_hit s hacc hhit] at h
        cases hd : compute_damage a d mv (rand s.rand_pos) (rand (s.rand_pos + 1)) with
        | error f => simp [hd, Except.bind] at h
        | ok dmg =>
          simp only [hd, Except.bind] at h
          cases hg : getch { s with rand_pos := s.rand_pos + 2 } with
          | error f => simp [hg, Except.map] at h
          | ok ks =>
            obtain ⟨k, s2⟩ := ks
            simp only [hg, Except.map, Except.ok.injEq, Prod.mk.injEq] at h
            obtain ⟨h1, h2⟩ := h
            subst h1 h2
            obtain ⟨hk, hpc, -⟩ := getch_ok _ k s2 hg
            exact ⟨hpc, ⟨k, hk⟩, Or.inr ⟨dmg, rfl⟩⟩
      · rw [attack_miss rand a d mv acc move_hit s hacc hhit] at h
        cases hg : getch s with
        | error f => simp [hg, Except.map] at h
        | ok ks =>
          obtain ⟨k, s2⟩ := ks
          simp only [hg, Except.map, Except.ok.injEq, Prod.mk.injEq] at h
          obtain ⟨h1, h2⟩ := h
          subst h1 h2
          obtain ⟨hk, hpc, -⟩ := getch_ok _ k s2 hg
          exact ⟨hpc, ⟨k, hk⟩, Or.inl rfl⟩


/-- A Fight of the wild encounter with a non-knocked active Pokemon against a
non-knocked wild Pokemon, when `pc_turn` is set: the player attacks. -/
theorem encounter_fight_pc_turn (rand : Nat → Nat) (e : Enc) (t : Pokemon) (c : Ctl)
    (e' : Enc)
    (ht : vec_at e.sys.pc.poke e.pc_poke = .ok t) (hk : t.is_knocked = false)
    (hpk : e.p.is_knocked = false) (hturn : e.pc_turn ≠ 0)
    (h : encounter_fight rand e = .ok (c, e')) :
    c = Ctl.next ∧ e'.pc_turn = 0 ∧ e'.p_turn = 1 ∧ e'.sys.pc = e.sys.pc ∧
      e'.pc_poke = e.pc_poke ∧ e'.attempt = e.attempt ∧ e'.p_deleted = e.p_deleted ∧
      (e'.p = e.p ∨ ∃ damage, e'.p = e.p.subtract_hp damage) := by
  by_cases hm : t.get_num_moves > 1
  · by_cases hpm : e.p.get_num_moves > 1
    all_goals
      cases hkeys : e.sys.keys
      all_goals
        simp only [encounter_fight, ht, hk, hpk, bind, Except.bind, pure, Except.pure, hturn,
          ne_eq, not_false_eq_true, if_true, if_false, Bool.false_eq_true, hm, hpm,
          next_rand, getch, Except.map, hkeys] at h
        repeat' split at h
        all_goals first
          | (cases h; done)
          | (cases h
             rename_i hatt
             obtain ⟨hpc, -, hd⟩ := attack_frame _ _ _ _ _ _ _ _ hatt
             exact ⟨rfl, rfl, rfl, hpc, rfl, rfl, rfl, hd⟩)
  · by_cases hpm : e.p.get_num_moves > 1
    all_goals
      simp only [encounter_fight, ht, hk, hpk, bind, Except.bind, pure, Except.pure, hturn,
        ne_eq, not_false_eq_true, if_true, if_false, Bool.false_eq_true, hm, hpm, next_rand,
        getch, Except.map, attack, throw, throwThe, MonadExceptOf.throw] at h
      cases h

/-- A Fight of the wild encounter with a non-knocked active Pokemon against a
non-knocked wild Pokemon, when only `p_turn` is set: the wild Pokemon attacks. -/
theorem encounter_fight_p_turn (rand : Nat → Nat) (e : Enc) (t : Pokemon) (c : Ctl)
    (e' : Enc)
    (ht : vec_at e.sys.pc.poke e.pc_poke = .ok t) (hk : t.is_knocked = false)
    (hpk : e.p.is_knocked = false) (hturn : e.pc_turn = 0) (hp : e.p_turn ≠ 0)
    (h : encounter_fight rand e = .ok (c, e')) :
    c = Ctl.next ∧ e'.pc_turn = 1 ∧ e'.p_turn = 0 ∧ e'.p = e.p ∧
      e'.pc_poke = e.pc_poke ∧ e'.attempt = e.attempt ∧ e'.p_deleted = e.p_deleted ∧
      ∃ t', (t' = t ∨ ∃ damage, t' = t.subtract_hp damage) ∧
        e'.sys.pc = set_poke e.sys.pc e.pc_poke t' := by
  by_cases hpm : e.p.get_num_moves > 1
  · simp only [encounter_fight, ht, hk, hpk, bind, Except.bind, pure, Except.pure, hturn,
      ne_eq, not_true_eq_false, not_false_eq_true, if_true, if_false, Bool.false_eq_true, hp,
      hpm, next_rand] at h
    repeat' split at h
    all_goals first
      | (cases h; done)
      | (cases h
         rename_i hatt
         obtain ⟨hpc, -, hd⟩ := attack_frame _ _ _ _ _ _ _ _ hatt
         refine ⟨rfl, rfl, rfl, rfl, rfl, rfl, rfl, _, hd, ?_⟩
         simp only [hpc])
  · simp only [encounter_fight, ht, hk, hpk, bind, Except.bind, pure, Except.pure, hturn,
      ne_eq, not_true_eq_false, not_false_eq_true, if_true, if_false, Bool.false_eq_true, hp,
      hpm, next_rand, attack, throw, throwThe, MonadExceptOf.throw] at h
    cases h

/-- A Fight of the wild encounter in which neither turn flag is set does not return:
the priority comparison reads `move_choice` before any assignment (io.cpp:580). -/
theorem encounter_fight_no_turn (rand : Nat → Nat) (e : Enc) (t : Pokemon)
    (ht : vec_at e.sys.pc.poke e.pc_poke = .ok t) (hk : t.is_knocked = false)
    (hpk : e.p.is_knocked = false) (hturn : e.pc_turn = 0) (hp : e.p_turn = 0) :
    ∃ f, encounter_fight rand e = .error f := by
  by_cases hpm : e.p.get_num_moves > 1
  · simp only [encounter_fight, ht, hk, hpk, bind, Except.bind, pure, Except.pure, hturn,
      ne_eq, not_true_eq_false, not_false_eq_true, if_true, if_false, Bool.false_eq_true, hp,
      hpm, next_rand, read_local]
    split
    · exact ⟨_, rfl⟩
    · exact ⟨_, rfl⟩
  · simp only [encounter_fight, ht, hk, hpk, bind, Except.bind, pure, Except.pure, hturn,
      ne_eq, not_true_eq_false, not_false_eq_true, if_true, if_false, Bool.false_eq_true, hp,
      hpm, next_rand, read_local]
    exact ⟨_, rfl⟩

/-- A Fight of a trainer battle with a non-knocked active Pokemon when `pc_turn` is
set: the player attacks the trainer's active Pokemon. -/
theorem battle_fight_pc_turn (rand : Nat → Nat) (move_hit : Int) (b : Bat)
    (t n : Pokemon) (j : Jump) (b' : Bat)
    (ht : vec_at b.sys.pc.poke b.pc_poke = .ok t) (hk : t.is_knocked = false)
    (hn : vec_at b.npc.poke b.trainer_poke = .ok n) (hturn : b.pc_turn ≠ 0)
    (h : battle_fight rand move_hit b = .ok (j, b')) :
    j = Jump.fall ∧ b'.pc_turn = 0 ∧ b'.npc_turn = 1 ∧ b'.sys.pc = b.sys.pc ∧
      b'.pc_poke = b.pc_poke ∧ b'.trainer_poke = b.trainer_poke ∧
      ∃ n', (n' = n ∨ ∃ damage, n' = n.subtract_hp damage) ∧
        b'.npc = { b.npc with poke := b.npc.poke.set b.trainer_poke.toNat n' } := by
  by_cases hm : t.get_num_moves > 1
  · by_cases hnm : n.get_num_moves > 1
    all_goals
      cases hkeys : b.sys.keys
      all_goals
        simp only [battle_fight, ht, hk, hn, bind, Except.bind, pure, Except.pure, hturn,
          ne_eq, not_false_eq_true, if_true, if_false, Bool.false_eq_true, hm, hnm,
          next_rand, getch, Except.map, hkeys] at h
        repeat' split at h
        all_goals first
          | (cases h; done)
          | (cases h
             rename_i hatt
             obtain ⟨hpc, -, hd⟩ := attack_frame _ _ _ _ _ _ _ _ hatt
             exact ⟨rfl, rfl, rfl, hpc, rfl, rfl, _, hd, rfl⟩)
  · by_cases hnm : n.get_num_moves > 1
    all_goals
      simp only [battle_fight, ht, hk, hn, bind, Except.bind, pure, Except.pure, hturn,
        ne_eq, not_false_eq_true, if_true, if_false, Bool.false_eq_true, hm, hnm, next_rand,
        getch, Except.map, attack, throw, throwThe, MonadExceptOf.throw] at h
      cases h

/-- A Fight of a trainer battle with a non-knocked active Pokemon when only `npc_turn`
is set: the trainer's active Pokemon attacks. -/
theorem battle_fight_npc_turn (rand : Nat → Nat) (move_hit : Int) (b : Bat)
    (t n : Pokemon) (j : Jump) (b' : Bat)
    (ht : vec_at b.sys.pc.poke b.pc_poke = .ok t) (hk : t.is_knocked = false)
    (hn : vec_at b.npc.poke b.trainer_poke = .ok n) (hturn : b.pc_turn = 0)
    (hp : b.npc_turn ≠ 0)
    (h : battle_fight rand move_hit b = .ok (j, b')) :
    j = Jump.fall ∧ b'.pc_turn = 1 ∧ b'.npc_turn = 0 ∧ b'.npc = b.npc ∧
      b'.pc_poke = b.pc_poke ∧ b'.trainer_poke = b.trainer_poke ∧
      ∃ t', (t' = t ∨ ∃ damage, t' = t.subtract_hp damage) ∧
        b'.sys.pc = set_poke b.sys.pc b.pc_poke t' := by
  by_cases hnm : n.get_num_moves > 1
  · simp only [battle_fight, ht, hk, hn, bind, Except.bind, pure, Except.pure, hturn,
      ne_eq, not_true_eq_false, not_false_eq_true, if_true, if_false, Bool.false_eq_true, hp,
      hnm, next_rand] at h
    repeat' split at h
    all_goals first
      | (cases h; done)
      | (cases h
         rename_i hatt
         obtain ⟨hpc, -, hd⟩ := attack_frame _ _ _ _ _ _ _ _ hatt
         refine ⟨rfl, rfl, rfl, rfl, rfl, rfl, _, hd, ?_⟩
         simp only [hpc])
  · simp only [battle_fight, ht, hk, hn, bind, Except.bind, pure, Except.pure, hturn,
      ne_eq, not_true_eq_false, not_false_eq_true, if_true, if_false, Bool.false_eq_true, hp,
      hnm, next_rand, attack, throw, throwThe, MonadExceptOf.throw] at h
    cases h

/-- A Fight of a trainer battle in which neither turn flag is set does not return: the
priority comparison reads `move_choice` before any assignment (io.cpp:1088). -/
theorem battle_fight_no_turn (rand : Nat → Nat) (move_hit : Int) (b : Bat) (t n : Pokemon)
    (ht : vec_at b.sys.pc.poke b.pc_poke = .ok t) (hk : t.is_knocked = false)
    (hn : vec_at b.npc.poke b.trainer_poke = .ok n) (hturn : b.pc_turn = 0)
    (hp : b.npc_turn = 0) :
    ∃ f, battle_fight rand move_hit b = .error f := by
  by_cases hnm : n.get_num_moves > 1
  · simp only [battle_fight, ht, hk, hn, bind, Except.bind, pure, Except.pure, hturn,
      ne_eq, not_true_eq_false, not_false_eq_true, if_true, if_false, Bool.false_eq_true, hp,
      hnm, next_rand, read_local]
    split
    · exact ⟨_, rfl⟩
    · exact ⟨_, rfl⟩
  · simp only [battle_fight, ht, hk, hn, bind, Except.bind, pure, Except.pure, hturn,
      ne_eq, not_true_eq_false, not_false_eq_true, if_true, if_false, Bool.false_eq_true, hp,
      hnm, next_rand, read_local]
    exact ⟨_, rfl⟩

/-- A Fight with a knocked active Pokemon in the wild encounter: one key is read and
the loop goes on from the same state. -/
theorem encounter_fight_rejected (rand : Nat → Nat) (e : Enc) (t : Pokemon) (ack : Int)
    (rest : List Int)
    (ht : vec_at e.sys.pc.poke e.pc_poke = .ok t) (hk : t.is_knocked = true)
    (hkeys : e.sys.keys = ack :: rest) :
    encounter_fight rand e = .ok (Ctl.next, { e with sys := { e.sys with keys := rest } }) := by
  simp [encounter_fight, ht, hk, getch, hkeys, bind, Except.bind, pure, Except.pure]

/-- A Fight with a knocked active Pokemon in a trainer battle: one key is read and
`continue` is executed from the same state. -/
theorem battle_fight_rejected (rand : Nat → Nat) (move_hit : Int) (b : Bat) (t : Pokemon)
    (ack : Int) (rest : List Int)
    (ht : vec_at b.sys.pc.poke b.pc_poke = .ok t) (hk : t.is_knocked = true)
    (hkeys : b.sys.keys = ack :: rest) :
    battle_fight rand move_hit b =
      .ok (Jump.cont, { b with sys := { b.sys with keys := rest } }) := by
  simp [battle_fight, ht, hk, getch, hkeys, bind, Except.bind, pure, Except.pure]

/-! ## The level band (claim C20) -/

/-- The level band is inside `[1, 100]` and not empty. -/
theorem level_band_bounds (w x y : Int) :
    1 ≤ (level_band w x y).1 ∧ (level_band w x y).1 ≤ (level_band w x y).2 ∧
      (level_band w x y).2 ≤ 100 := by
  unfold level_band c_abs
  simp only
  have hd := Int.tdiv_nonneg (a := (if x - w.tdiv 2 < 0 then -(x - w.tdiv 2) else x - w.tdiv 2) +
    (if x - w.tdiv 2 < 0 then -(x - w.tdiv 2) else x - w.tdiv 2)) (b := 2)
  split_ifs <;> simp_all

/-- Claim C20: for every value of `WORLD_SIZE` and every pair of world indices the level
band satisfies `1 ≤ minl ≤ maxl ≤ 100`, so the modulus `maxl - minl + 1` is at least 1,
and for every value `r` of `rand()` the level `r % (maxl - minl + 1) + minl` is
computed without a division by zero and lies in `[minl, maxl]`, hence in `[1, 100]`. -/
theorem C20_level_in_band (world_size cur_idx_x cur_idx_y : Int) (r : Nat) :
    1 ≤ (level_band world_size cur_idx_x cur_idx_y).1 ∧
    (level_band world_size cur_idx_x cur_idx_y).1 ≤
      (level_band world_size cur_idx_x cur_idx_y).2 ∧
    (level_band world_size cur_idx_x cur_idx_y).2 ≤ 100 ∧
    1 ≤ (level_band world_size cur_idx_x cur_idx_y).2 -
      (level_band world_size cur_idx_x cur_idx_y).1 + 1 ∧
    ∃ level : Int, encounter_level world_size cur_idx_x cur_idx_y r = .ok level ∧
      (level_band world_size cur_idx_x cur_idx_y).1 ≤ level ∧
      level ≤ (level_band world_size cur_idx_x cur_idx_y).2 ∧
      1 ≤ level ∧ level ≤ 100 := by
  obtain ⟨h1, h2, h3⟩ := level_band_bounds world_size cur_idx_x cur_idx_y
  have hm : 0 < (level_band world_size cur_idx_x cur_idx_y).2 -
      (level_band world_size cur_idx_x cur_idx_y).1 + 1 := by omega
  have hr0 := Int.tmod_nonneg ((level_band world_size cur_idx_x cur_idx_y).2 -
      (level_band world_size cur_idx_x cur_idx_y).1 + 1) (Int.natCast_nonneg r)
  have hr1 := Int.tmod_lt_of_pos (r : Int) hm
  have hlev : encounter_level world_size cur_idx_x cur_idx_y r =
      .ok ((r : Int).tmod ((level_band world_size cur_idx_x cur_idx_y).2 -
        (level_band world_size cur_idx_x cur_idx_y).1 + 1) +
        (level_band world_size cur_idx_x cur_idx_y).1) := by
    unfold encounter_level
    simp only
    rw [if_neg (by omega)]
  exact ⟨h1, h2, h3, by omega, _, hlev, by omega, by omega, by omega, by omega⟩


/-! ## Rejections and the Pokemon action (claims C12, C18, C19) -/

/-- Claim C12: Fight with a knocked active Pokemon is rejected in both flows.  In the
wild encounter the pass ends with `continue` in a state that differs from the one
before in the two keys read only.  In a trainer battle the pass ends with `continue`,
before the scan of the trainer's party, in a state that differs in the two keys read
and in the one value `move_hit` drawn from `rand()` before the action is selected:
every hp on both sides, the item counts, the party, the active indices, the turn
flags, the `defeated` flag (and, in the encounter, `attempt`) are as before, so the
loop condition holds as before and the same menu is printed again. -/
theorem C12_fight_knocked_rejected (rand : Nat → Nat) (t : Pokemon) (ack : Int)
    (rest : List Int) (hk : t.stat_hp = 0) :
    (∀ e : Enc, vec_at e.sys.pc.poke e.pc_poke = .ok t → e.p_deleted = false →
      e.sys.keys = 49 :: ack :: rest →
      io_encounter_iter rand e =
        .ok (Ctl.next, { e with sys := { e.sys with keys := rest } })) ∧
    (∀ (b : Bat) (n : Pokemon), vec_at b.sys.pc.poke b.pc_poke = .ok t →
      vec_at b.npc.poke b.trainer_poke = .ok n →
      b.sys.keys = 49 :: ack :: rest →
      io_battle_iter rand b =
        .ok { b with sys := { b.sys with keys := rest, rand_pos := b.sys.rand_pos + 1 } }) := by
  have hkn : t.is_knocked = true := by simp [Pokemon.is_knocked, hk]
  constructor
  · intro e ht hp hkeys
    obtain ⟨⟨pc, keys, rp⟩, p, del, pcp, att, pt, ptt⟩ := e
    simp only at ht hp hkeys
    subst hkeys hp
    simp [io_encounter_iter, io_battle_choice_wild, ht, getch, to_char, encounter_fight, hkn,
      bind, Except.bind, pure, Except.pure]
  · intro b n ht hn hkeys
    obtain ⟨⟨pc, keys, rp⟩, npc, tp, pcp, pt, nt⟩ := b
    simp only at ht hn hkeys
    subst hkeys
    simp [io_battle_iter, io_battle_choice_trainer, ht, hn, getch, to_char, battle_fight, hkn,
      next_rand, bind, Except.bind, pure, Except.pure]

/-- Witness of C12: the knocked sample Pokemon (hp 0 of 50) is selected to fight a wild
Pokemon and a trainer. -/
theorem C12_fight_knocked_rejected_witness :
    io_encounter_iter rand_zero
        (encounter_init { pc := sample_pc_knocked, keys := [49, 32], rand_pos := 0 }
          (sample_mon 15 15 40)) =
      .ok (Ctl.next, encounter_init { pc := sample_pc_knocked, keys := [], rand_pos := 0 }
        (sample_mon 15 15 40)) ∧
    io_battle_iter rand_zero
        (battle_init { pc := sample_pc_knocked, keys := [49, 32], rand_pos := 0 }
          sample_trainer) =
      .ok (battle_init { pc := sample_pc_knocked, keys := [], rand_pos := 1 } sample_trainer) :=
  have h := C12_fight_knocked_rejected rand_zero (sample_mon 0 50 10) 32 [] rfl
  ⟨h.1 (encounter_init { pc := sample_pc_knocked, keys := [49, 32], rand_pos := 0 }
      (sample_mon 15 15 40)) rfl rfl rfl,
    h.2 (battle_init { pc := sample_pc_knocked, keys := [49, 32], rand_pos := 0 }
      sample_trainer) (sample_trainer_mon 20 20) rfl rfl rfl⟩

/-- Reading a vector outside its bounds throws. -/
theorem vec_at_out {α : Type} (v : List α) (i : Int) (h : i < 0 ∨ (v.length : Int) ≤ i) :
    vec_at v i = .error Fault.out_of_range := by
  unfold vec_at
  rw [if_neg (by omega)]

/-- The Pokemon action of the wild encounter on any key: `pc_poke` becomes the key
minus `'1'`, whatever the party is. -/
theorem iter_switch (rand : Nat → Nat) (e : Enc) (k0 k : Int) (rest : List Int)
    (t : Pokemon)
    (hkeys : e.sys.keys = k0 :: k :: rest)
    (hk0 : to_char k0 ≠ 49 ∧ to_char k0 ≠ 50 ∧ to_char k0 ≠ 51)
    (ht : vec_at e.sys.pc.poke e.pc_poke = .ok t)
    (hp : e.p_deleted = false)
    (hnp : e.sys.pc.num_poke ≤ e.sys.pc.poke.length) :
    io_encounter_iter rand e =
      .ok (Ctl.next, { e with sys := { e.sys with keys := rest }, pc_poke := k - 49 }) := by
  obtain ⟨⟨pc, keys, rp⟩, p, del, pcp, att, pt, ptt⟩ := e
  simp only at hkeys ht hp hnp
  subst hkeys hp
  have hpp : print_party pc = .ok () := by
    simp [print_party, hnp]
  simp [io_encounter_iter, io_battle_choice_wild, ht, getch, hk0.1, hk0.2.1, hk0.2.2,
    encounter_switch, hpp, bind, Except.bind, pure, Except.pure]

/-- A pass of the encounter loop with `pc_poke` outside the party throws when the menu
is printed. -/
theorem iter_bad_active (rand : Nat → Nat) (e : Enc)
    (h : e.pc_poke < 0 ∨ (e.sys.pc.poke.length : Int) ≤ e.pc_poke) :
    io_encounter_iter rand e = .error Fault.out_of_range := by
  simp [io_encounter_iter, io_battle_choice_wild, vec_at_out _ _ h, bind, Except.bind]

/-- The Pokemon action of a trainer battle on a key outside the party throws in the
knocked test. -/
theorem battle_iter_switch_out (rand : Nat → Nat) (b : Bat) (k : Int) (rest : List Int)
    (t n : Pokemon)
    (hkeys : b.sys.keys = 51 :: k :: rest)
    (ht : vec_at b.sys.pc.poke b.pc_poke = .ok t)
    (hn : vec_at b.npc.poke b.trainer_poke = .ok n)
    (hnp : b.sys.pc.num_poke ≤ b.sys.pc.poke.length)
    (hout : k - 49 < 0 ∨ (b.sys.pc.poke.length : Int) ≤ k - 49) :
    io_battle_iter rand b = .error Fault.out_of_range := by
  obtain ⟨⟨pc, keys, rp⟩, npc, tp, pcp, pt, nt⟩ := b
  simp only at hkeys ht hn hnp hout
  subst hkeys
  have hpp : print_party pc = .ok () := by
    simp [print_party, hnp]
  simp [io_battle_iter, io_battle_choice_trainer, ht, hn, getch, to_char, battle_switch, hpp,
    next_rand, vec_at_out _ _ hout, bind, Except.bind, pure, Except.pure, Except.map]

/-- Claim C18 fails: with a party of one and the active index 0, the key `'9'` in the
Pokemon action of a wild encounter makes the active index 8, and the next pass of the
loop throws `out_of_range`; in a trainer battle the same choice throws at once. -/
theorem C18_out_of_range_choice_not_recovered :
    io_encounter_iter rand_zero
        (encounter_init { pc := sample_pc_hurt, keys := [52, 57, 49], rand_pos := 0 }
          (sample_mon 15 15 40)) =
      .ok (Ctl.next,
        { encounter_init { pc := sample_pc_hurt, keys := [49], rand_pos := 0 }
            (sample_mon 15 15 40) with pc_poke := 8 }) ∧
    io_encounter_pokemon rand_zero
        { pc := sample_pc_hurt, keys := [52, 57, 49], rand_pos := 0 } (sample_mon 15 15 40) =
      .error Fault.out_of_range ∧
    io_battle_iter rand_zero
        (battle_init { pc := sample_pc_hurt, keys := [51, 57, 49], rand_pos := 0 }
          sample_trainer) =
      .error Fault.out_of_range :=
  ⟨rfl, rfl, rfl⟩

/-- Claim C18 as amended: a choice outside the party in a switch flow changes no hp and
no item count but is not recovered.  In a wild encounter the pass returns with the
active index set to the out-of-range value and nothing else changed but the keys
read, and every later pass throws `out_of_range` when it prints the menu; in a trainer
battle the pass throws `out_of_range` in the knocked test of the switch loop. -/
theorem C18_out_of_range_choice (rand : Nat → Nat) (pc : Pc) (k : Int) (t : Pokemon)
    (hnp : pc.num_poke ≤ pc.poke.length)
    (hout : k - 49 < 0 ∨ (pc.poke.length : Int) ≤ k - 49) :
    (∀ (e : Enc) (k0 : Int) (rest : List Int), e.sys.pc = pc →
      e.sys.keys = k0 :: k :: rest →
      to_char k0 ≠ 49 ∧ to_char k0 ≠ 50 ∧ to_char k0 ≠ 51 →
      vec_at pc.poke e.pc_poke = .ok t → e.p_deleted = false →
      io_encounter_iter rand e =
        .ok (Ctl.next, { e with sys := { e.sys with keys := rest }, pc_poke := k - 49 }) ∧
      ∀ keys rand_pos, io_encounter_iter rand
        { e with sys := { e.sys with keys := keys, rand_pos := rand_pos }, pc_poke := k - 49 } =
          .error Fault.out_of_range) ∧
    (∀ (b : Bat) (n : Pokemon) (rest : List Int), b.sys.pc = pc →
      b.sys.keys = 51 :: k :: rest →
      vec_at pc.poke b.pc_poke = .ok t → vec_at b.npc.poke b.trainer_poke = .ok n →
      io_battle_iter rand b = .error Fault.out_of_range) := by
  constructor
  · intro e k0 rest hpc hkeys hk0 ht hp
    subst hpc
    refine ⟨iter_switch rand e k0 k rest t hkeys hk0 ht hp hnp, fun keys rand_pos => ?_⟩
    exact iter_bad_active rand _ hout
  · intro b n rest hpc hkeys ht hn
    subst hpc
    exact battle_iter_switch_out rand b k rest t n hkeys ht hn hnp hout

/-- Witness of C18 as amended: the key `'9'` with a party of one. -/
theorem C18_out_of_range_choice_witness :
    (io_encounter_iter rand_zero
        (encounter_init { pc := sample_pc_hurt, keys := [52, 57, 49], rand_pos := 0 }
          (sample_mon 15 15 40)) =
      .ok (Ctl.next,
        { encounter_init { pc := sample_pc_hurt, keys := [49], rand_pos := 0 }
            (sample_mon 15 15 40) with pc_poke := 57 - 49 }) ∧
      ∀ keys rand_pos, io_encounter_iter rand_zero
        { encounter_init { pc := sample_pc_hurt, keys := keys, rand_pos := rand_pos }
            (sample_mon 15 15 40) with pc_poke := 57 - 49 } =
          .error Fault.out_of_range) ∧
    io_battle_iter rand_zero
        (battle_init { pc := sample_pc_hurt, keys := [51, 57, 49], rand_pos := 0 }
          sample_trainer) =
      .error Fault.out_of_range :=
  have h := C18_out_of_range_choice rand_zero sample_pc_hurt 57 (sample_mon 35 50 10)
    (by decide) (by decide)
  ⟨h.1 (encounter_init { pc := sample_pc_hurt, keys := [52, 57, 49], rand_pos := 0 }
      (sample_mon 15 15 40)) 52 [49] rfl rfl (by decide) rfl rfl,
    h.2 (battle_init { pc := sample_pc_hurt, keys := [51, 57, 49], rand_pos := 0 }
      sample_trainer) (sample_trainer_mon 20 20) [49] rfl rfl rfl rfl⟩

/-- The switch loop of a trainer battle returns only with a non-knocked member, and
leaves the player as it was. -/
theorem battle_switch_ok (fuel : Nat) : ∀ (s : Sys) (pc_poke : Int) (s' : Sys),
    battle_switch fuel s = .ok (pc_poke, s') →
    s'.pc = s.pc ∧ s'.rand_pos = s.rand_pos ∧
      ∃ t, vec_at s'.pc.poke pc_poke = .ok t ∧ t.is_knocked = false := by
  induction fuel with
  | zero => intro s pc_poke s' h; simp [battle_switch] at h
  | succ n ih =>
    intro s pc_poke s' h
    simp only [battle_switch, bind, Except.bind, pure, Except.pure] at h
    split at h
    · cases h
    · split at h
      · cases h
      · next x1 ks hg =>
        obtain ⟨k, s1⟩ := ks
        obtain ⟨-, hpc1, hrp1⟩ := getch_ok _ _ _ hg
        split at h
        · cases h
        · next x2 t ht =>
          split at h
          · split at h
            · cases h
            · next x3 ks2 hg2 =>
              obtain ⟨k2, s2⟩ := ks2
              obtain ⟨-, hpc2, hrp2⟩ := getch_ok _ _ _ hg2
              obtain ⟨h1, h2, h3⟩ := ih _ _ _ h
              simp only at hpc1 hpc2 hrp1 hrp2 h1 h2
              exact ⟨by rw [h1, hpc2, hpc1], by rw [h2, hrp2, hrp1], h3⟩
          · next hkn =>
            cases h
            simp only at hpc1 hrp1 ht
            exact ⟨hpc1, hrp1, t, ht, by simpa using hkn⟩

/-- The switch loop of a trainer battle asks again after a knocked choice. -/
theorem battle_switch_again (fuel : Nat) (s : Sys) (k ack : Int) (rest : List Int)
    (t : Pokemon)
    (hkeys : s.keys = k :: ack :: rest)
    (hnp : s.pc.num_poke ≤ s.pc.poke.length)
    (ht : vec_at s.pc.poke (k - 49) = .ok t) (hk : t.is_knocked = true) :
    battle_switch (fuel + 1) s = battle_switch fuel { s with keys := rest } := by
  obtain ⟨pc, keys, rp⟩ := s
  simp only at hkeys hnp ht
  subst hkeys
  have hpp : print_party pc = .ok () := by
    simp [print_party, hnp]
  simp [battle_switch, hpp, getch, ht, hk, bind, Except.bind, pure, Except.pure]

/-- The scan of the trainer's party moves `trainer_poke` forward over knocked members
only. -/
theorem scan_trainer_ok (npc : Npc) (fuel : Nat) : ∀ (tp tp' : Int),
    scan_trainer npc fuel tp = .ok tp' →
    tp ≤ tp' ∧ (tp' ≤ npc.num_poke ∨ tp' = tp) ∧
      (tp' < npc.num_poke → ∃ t, vec_at npc.poke tp' = .ok t ∧ t.is_knocked = false) ∧
      ∀ j, tp ≤ j → j < tp' → ∃ t, vec_at npc.poke j = .ok t ∧ t.is_knocked = true := by
  induction fuel with
  | zero =>
    intro tp tp' h
    simp only [scan_trainer] at h
    split at h
    · cases h
    · cases h
      exact ⟨le_refl _, Or.inr rfl, fun hlt => absurd hlt (by assumption),
        fun j h1 h2 => absurd h2 (by omega)⟩
  | succ n ih =>
    intro tp tp' h
    simp only [scan_trainer, bind, Except.bind, pure, Except.pure] at h
    split at h
    · next hlt =>
      split at h
      · cases h
      · next x t ht =>
        split at h
        · next hkn =>
          obtain ⟨h1, h2, h3, h4⟩ := ih _ _ h
          refine ⟨by omega, ?_, h3, ?_⟩
          · rcases h2 with h2 | h2
            · exact Or.inl h2
            · exact Or.inl (by omega)
          · intro j hj1 hj2
            by_cases hj : j = tp
            · subst hj
              exact ⟨t, ht, hkn⟩
            · exact h4 j (by omega) hj2
        · next hkn =>
          cases h
          exact ⟨le_refl _, Or.inl (le_of_lt hlt), fun _ => ⟨t, ht, by simpa using hkn⟩,
            fun j h1 h2 => absurd h2 (by omega)⟩
    · next hge =>
      cases h
      exact ⟨le_refl _, Or.inr rfl, fun hlt => absurd hlt hge,
        fun j h1 h2 => absurd h2 (by omega)⟩

/-- The end of the body of the battle loop writes `trainer_poke`, and, when the scan
reaches `num_poke`, the `defeated` flag and the behaviour of a hiker or a rival. -/
theorem battle_scan_ok (b b' : Bat) (h : battle_scan b = .ok b') :
    b'.sys = b.sys ∧ b'.pc_poke = b.pc_poke ∧ b'.pc_turn = b.pc_turn ∧
      b'.npc_turn = b.npc_turn ∧ b'.npc.poke = b.npc.poke ∧
      b'.npc.num_poke = b.npc.num_poke ∧ b'.npc.ctype = b.npc.ctype ∧
      b.trainer_poke ≤ b'.trainer_poke ∧
      (∀ j, b.trainer_poke ≤ j → j < b'.trainer_poke →
        ∃ t, vec_at b.npc.poke j = .ok t ∧ t.is_knocked = true) ∧
      ((b'.trainer_poke = b.npc.num_poke ∧ b'.npc.defeated = 1 ∧
          b'.npc.mtype = (if b.npc.ctype = character_type.char_hiker ∨
            b.npc.ctype = character_type.char_rival then movement_type.move_wander
            else b.npc.mtype)) ∨
        (b'.trainer_poke ≠ b.npc.num_poke ∧ b'.npc.defeated = b.npc.defeated ∧
          b'.npc.mtype = b.npc.mtype)) := by
  simp only [battle_scan, bind, Except.bind, pure, Except.pure] at h
  split at h
  · cases h
  · next x tp hscan =>
    obtain ⟨h1, -, -, h4⟩ := scan_trainer_ok _ _ _ _ hscan
    split at h
    · next heq =>
      cases h
      refine ⟨rfl, rfl, rfl, rfl, ?_, ?_, ?_, h1, h4, Or.inl ⟨heq, ?_, ?_⟩⟩
      all_goals split <;> simp_all
    · next hne =>
      cases h
      exact ⟨rfl, rfl, rfl, rfl, rfl, rfl, rfl, h1, h4, Or.inr ⟨hne, rfl, rfl⟩⟩

/-- A pass of the battle loop on the Pokemon action returns only with an active index
that refers to a non-knocked party member. -/
theorem battle_iter_switch_ok (rand : Nat → Nat) (b b' : Bat) (rest : List Int)
    (hkeys : b.sys.keys = 51 :: rest)
    (h : io_battle_iter rand b = .ok b') :
    b'.sys.pc = b.sys.pc ∧
      ∃ t, vec_at b'.sys.pc.poke b'.pc_poke = .ok t ∧ t.is_knocked = false := by
  simp only [io_battle_iter, bind, Except.bind, pure, Except.pure,
    getch_cons b.sys 51 rest hkeys, next_rand, to_char] at h
  split at h
  · cases h
  · norm_num at h
    split at h
    · cases h
    · next x r hr =>
      obtain ⟨j, b1⟩ := r
      simp only [Except.map] at hr
      split at hr
      · cases hr
      · next x2 r2 hsw =>
        cases hr
        obtain ⟨pcp, s2⟩ := r2
        obtain ⟨hpc, -, t, ht, hkn⟩ := battle_switch_ok _ _ _ _ hsw
        simp only at h
        obtain ⟨hs, hp, -⟩ := battle_scan_ok _ _ h
        simp only at hs hp hpc
        rw [hs, hp]
        exact ⟨hpc, t, ht, hkn⟩

/-- Claim C19: in a trainer battle a pass on the Pokemon action returns only with an
active index that refers to a non-knocked party member (the player being unchanged),
and after an in-range choice of a knocked member the switch loop asks again; in a wild
encounter there is a state, with a non-knocked active Pokemon, and an in-range choice
after which the active index refers to a knocked member. -/
theorem C19_switch_knocked_guard (rand : Nat → Nat) :
    (∀ (b b' : Bat) (rest : List Int), b.sys.keys = 51 :: rest →
      io_battle_iter rand b = .ok b' →
      b'.sys.pc = b.sys.pc ∧
        ∃ t, vec_at b'.sys.pc.poke b'.pc_poke = .ok t ∧ t.is_knocked = false) ∧
    (∀ (fuel : Nat) (s : Sys) (k ack : Int) (rest : List Int) (t : Pokemon),
      s.keys = k :: ack :: rest → s.pc.num_poke ≤ s.pc.poke.length →
      vec_at s.pc.poke (k - 49) = .ok t → t.is_knocked = true →
      battle_switch (fuel + 1) s = battle_switch fuel { s with keys := rest }) ∧
    (∃ (e e' : Enc) (t t' : Pokemon), e.p_deleted = false ∧
      vec_at e.sys.pc.poke e.pc_poke = .ok t ∧ t.is_knocked = false ∧
      io_encounter_iter rand e = .ok (Ctl.next, e') ∧ e'.sys.pc = e.sys.pc ∧
      vec_at e'.sys.pc.poke e'.pc_poke = .ok t' ∧ t'.is_knocked = true) := by
  refine ⟨fun b b' rest hkeys h => battle_iter_switch_ok rand b b' rest hkeys h,
    fun fuel s k ack rest t hkeys hnp ht hk => battle_switch_again fuel s k ack rest t hkeys
      hnp ht hk, ?_⟩
  exact ⟨{ encounter_init { pc := sample_pc_two, keys := [52, 49], rand_pos := 0 }
      (sample_mon 15 15 40) with pc_poke := 1 },
    encounter_init { pc := sample_pc_two, keys := [], rand_pos := 0 } (sample_mon 15 15 40),
    sample_mon 20 20 10, sample_mon 0 50 10, rfl, rfl, rfl,
    iter_switch rand _ 52 49 [] (sample_mon 20 20 10) rfl (by decide) rfl rfl (by decide),
    rfl, rfl, rfl⟩

/-- Witness of C19: with the party (knocked, healthy) and the healthy member active,
the keys `'3'`, `'1'`, a key for the message and `'2'` in a trainer battle end with
the healthy member active, the first choice having been asked again. -/
theorem C19_switch_knocked_guard_witness :
    (sample_pc_two = sample_pc_two ∧
      ∃ t, vec_at sample_pc_two.poke 1 = .ok t ∧ t.is_knocked = false) ∧
    battle_switch 2 { pc := sample_pc_two, keys := [49, 32, 50], rand_pos := 0 } =
      battle_switch 1 { pc := sample_pc_two, keys := [50], rand_pos := 0 } :=
  have h := C19_switch_knocked_guard rand_zero
  ⟨h.1 { battle_init { pc := sample_pc_two, keys := [51, 49, 32, 50], rand_pos := 0 }
        sample_trainer with pc_poke := 1 }
      { battle_init { pc := sample_pc_two, keys := [], rand_pos := 1 }
        sample_trainer with pc_poke := 1 } [49, 32, 50] rfl rfl,
    h.2.1 1 { pc := sample_pc_two, keys := [49, 32, 50], rand_pos := 0 } 49 32 [50]
      (sample_mon 0 50 10) rfl (by decide) rfl rfl⟩


/-! ## The turn flags after an attack -/

/-- A resolved attack of the wild encounter leaves the turn with the other side: after
the player's attack the flags are `(0, 1)` and the player is unchanged, after the wild
Pokemon's attack they are `(1, 0)` and the wild Pokemon is unchanged. -/
theorem encounter_fight_flags (rand : Nat → Nat) (e : Enc) (t : Pokemon) (c : Ctl)
    (e' : Enc)
    (ht : vec_at e.sys.pc.poke e.pc_poke = .ok t) (hk : t.is_knocked = false)
    (hpk : e.p.is_knocked = false)
    (h : encounter_fight rand e = .ok (c, e')) :
    (e'.pc_turn = 0 ∧ e'.p_turn = 1 ∧ e'.sys.pc = e.sys.pc) ∨
      (e'.pc_turn = 1 ∧ e'.p_turn = 0 ∧ e'.p = e.p) := by
  by_cases hturn : e.pc_turn ≠ 0
  · obtain ⟨-, h1, h2, h3, -⟩ := encounter_fight_pc_turn rand e t c e' ht hk hpk hturn h
    exact Or.inl ⟨h1, h2, h3⟩
  · have hturn0 : e.pc_turn = 0 := by simpa using hturn
    by_cases hp : e.p_turn ≠ 0
    · obtain ⟨-, h1, h2, h3, -⟩ := encounter_fight_p_turn rand e t c e' ht hk hpk hturn0 hp h
      exact Or.inr ⟨h1, h2, h3⟩
    · have hp0 : e.p_turn = 0 := by simpa using hp
      obtain ⟨f, hf⟩ := encounter_fight_no_turn rand e t ht hk hpk hturn0 hp0
      rw [hf] at h
      cases h

/-- A resolved attack of a trainer battle leaves the turn with the other side. -/
theorem battle_fight_flags (rand : Nat → Nat) (move_hit : Int) (b : Bat) (t : Pokemon)
    (j : Jump) (b' : Bat)
    (ht : vec_at b.sys.pc.poke b.pc_poke = .ok t) (hk : t.is_knocked = false)
    (h : battle_fight rand move_hit b = .ok (j, b')) :
    (b'.pc_turn = 0 ∧ b'.npc_turn = 1 ∧ b'.sys.pc = b.sys.pc) ∨
      (b'.pc_turn = 1 ∧ b'.npc_turn = 0 ∧ b'.npc = b.npc) := by
  cases hn : vec_at b.npc.poke b.trainer_poke with
  | error f =>
    simp [battle_fight, ht, hk, hn, bind, Except.bind] at h
  | ok n =>
    by_cases hturn : b.pc_turn ≠ 0
    · obtain ⟨-, h1, h2, h3, -⟩ := battle_fight_pc_turn rand move_hit b t n j b' ht hk hn hturn h
      exact Or.inl ⟨h1, h2, h3⟩
    · have hturn0 : b.pc_turn = 0 := by simpa using hturn
      by_cases hp : b.npc_turn ≠ 0
      · obtain ⟨-, h1, h2, h3, -⟩ :=
          battle_fight_npc_turn rand move_hit b t n j b' ht hk hn hturn0 hp h
        exact Or.inr ⟨h1, h2, h3⟩
      · have hp0 : b.npc_turn = 0 := by simpa using hp
        obtain ⟨f, hf⟩ := battle_fight_no_turn rand move_hit b t n ht hk hn hturn0 hp0
        rw [hf] at h
        cases h

/-- Claim C16 fails: on the first pass of a trainer battle the trainer's move has
priority 1 and the player's move priority 0, yet the Fight resolves the player's attack
(the trainer's Pokemon goes from hp 20 to 16) and no attack of the trainer: the
player's party is as before and the flags are `(0, 1)`. -/
theorem C16_lower_priority_attacks_first :
    (sample_trainer_mon 20 20).get_move_priority 0 = .ok 1 ∧
    (sample_mon 35 50 10).get_move_priority 0 = .ok 0 ∧
    io_battle_iter rand_zero
        (battle_init { pc := sample_pc_hurt, keys := [49, 49, 32], rand_pos := 0 }
          sample_trainer) =
      .ok { battle_init { pc := sample_pc_hurt, keys := [], rand_pos := 4 }
              { sample_trainer with
                poke := [sample_trainer_mon 16 20, sample_trainer_mon 20 20] } with
            pc_turn := 0, npc_turn := 1 } :=
  ⟨rfl, rfl, rfl⟩

/-- Claim C16 as amended: in both flows a Fight that resolves an attack resolves the
attack of one side, chosen by the turn flags whatever the priorities of the moves.
When `pc_turn` is set the player attacks: the player is unchanged, the opponent's
Pokemon is unchanged or has had damage subtracted, and the flags become `(0, 1)`.
When `pc_turn` is clear and the opponent's flag is set the opponent attacks: the
opponent is unchanged, the player's active Pokemon is unchanged or has had damage
subtracted, and the flags become `(1, 0)`. -/
theorem C16_attacker_by_turn_flags (rand : Nat → Nat) :
    (∀ (e : Enc) (t : Pokemon) (c : Ctl) (e' : Enc),
      vec_at e.sys.pc.poke e.pc_poke = .ok t → t.is_knocked = false →
      e.p.is_knocked = false → encounter_fight rand e = .ok (c, e') →
      (e.pc_turn ≠ 0 →
        e'.pc_turn = 0 ∧ e'.p_turn = 1 ∧ e'.sys.pc = e.sys.pc ∧
          (e'.p = e.p ∨ ∃ damage, e'.p = e.p.subtract_hp damage)) ∧
      (e.pc_turn = 0 → e.p_turn ≠ 0 →
        e'.pc_turn = 1 ∧ e'.p_turn = 0 ∧ e'.p = e.p ∧
          ∃ t', (t' = t ∨ ∃ damage, t' = t.subtract_hp damage) ∧
            e'.sys.pc = set_poke e.sys.pc e.pc_poke t')) ∧
    (∀ (move_hit : Int) (b : Bat) (t n : Pokemon) (j : Jump) (b' : Bat),
      vec_at b.sys.pc.poke b.pc_poke = .ok t → t.is_knocked = false →
      vec_at b.npc.poke b.trainer_poke = .ok n →
      battle_fight rand move_hit b = .ok (j, b') →
      (b.pc_turn ≠ 0 →
        b'.pc_turn = 0 ∧ b'.npc_turn = 1 ∧ b'.sys.pc = b.sys.pc ∧
          ∃ n', (n' = n ∨ ∃ damage, n' = n.subtract_hp damage) ∧
            b'.npc = { b.npc with poke := b.npc.poke.set b.trainer_poke.toNat n' }) ∧
      (b.pc_turn = 0 → b.npc_turn ≠ 0 →
        b'.pc_turn = 1 ∧ b'.npc_turn = 0 ∧ b'.npc = b.npc ∧
          ∃ t', (t' = t ∨ ∃ damage, t' = t.subtract_hp damage) ∧
            b'.sys.pc = set_poke b.sys.pc b.pc_poke t')) := by
  constructor
  · intro e t c e' ht hk hpk h
    constructor
    · intro hturn
      obtain ⟨-, h1, h2, h3, -, -, -, h4⟩ :=
        encounter_fight_pc_turn rand e t c e' ht hk hpk hturn h
      exact ⟨h1, h2, h3, h4⟩
    · intro hturn hp
      obtain ⟨-, h1, h2, h3, -, -, -, h4⟩ :=
        encounter_fight_p_turn rand e t c e' ht hk hpk hturn hp h
      exact ⟨h1, h2, h3, h4⟩
  · intro move_hit b t n j b' ht hk hn h
    constructor
    · intro hturn
      obtain ⟨-, h1, h2, h3, -, -, h4⟩ :=
        battle_fight_pc_turn rand move_hit b t n j b' ht hk hn hturn h
      exact ⟨h1, h2, h3, h4⟩
    · intro hturn hp
      obtain ⟨-, h1, h2, h3, -, -, h4⟩ :=
        battle_fight_npc_turn rand move_hit b t n j b' ht hk hn hturn hp h
      exact ⟨h1, h2, h3, h4⟩

/-- Witness of C16 as amended: a Fight of a wild encounter with `p_turn` set, in which
the wild Pokemon attacks, and the Fight of the first pass of a trainer battle, in
which the player attacks. -/
theorem C16_attacker_by_turn_flags_witness :
    ((1 : Int) = 1 ∧ (0 : Int) = 0 ∧ sample_mon 15 15 40 = sample_mon 15 15 40 ∧
      ∃ t', (t' = sample_mon 35 50 10 ∨
          ∃ damage, t' = (sample_mon 35 50 10).subtract_hp damage) ∧
        ({ sample_pc_hurt with poke := [sample_mon 31 50 10] } : Pc) =
          set_poke sample_pc_hurt 0 t') ∧
    ((0 : Int) = 0 ∧ (1 : Int) = 1 ∧ sample_pc_hurt = sample_pc_hurt ∧
      ∃ n', (n' = sample_trainer_mon 20 20 ∨
          ∃ damage, n' = (sample_trainer_mon 20 20).subtract_hp damage) ∧
        ({ sample_trainer with
            poke := [sample_trainer_mon 16 20, sample_trainer_mon 20 20] } : Npc) =
          { sample_trainer with
            poke := sample_trainer.poke.set 0 n' }) :=
  have h := C16_attacker_by_turn_flags rand_zero
  ⟨(h.1 { encounter_init { pc := sample_pc_hurt, keys := [32], rand_pos := 0 }
          (sample_mon 15 15 40) with p_turn := 1 }
      (sample_mon 35 50 10) Ctl.next
      { encounter_init (Sys.mk { sample_pc_hurt with poke := [sample_mon 31 50 10] } [] 4)
          (sample_mon 15 15 40) with pc_turn := 1 }
      rfl rfl rfl rfl).2 rfl (by decide),
    (h.2 0 (battle_init { pc := sample_pc_hurt, keys := [49, 32], rand_pos := 1 }
          sample_trainer)
      (sample_mon 35 50 10) (sample_trainer_mon 20 20) Jump.fall
      { battle_init { pc := sample_pc_hurt, keys := [], rand_pos := 4 }
          { sample_trainer with
            poke := [sample_trainer_mon 16 20, sample_trainer_mon 20 20] } with
        pc_turn := 0, npc_turn := 1 }
      rfl rfl rfl rfl).1 (by decide)⟩


/-- Claim C11 fails: in a wild encounter with `pc_turn = 1` and `p_turn = 0`, a Run that
fails (odds 62, draw 255) leaves the flags at `(1, 0)`, and the Fight selected next
resolves the player's attack, not the wild Pokemon's: the wild Pokemon goes from hp 15
to 10 and the player's party is as before. -/
theorem C11_failed_run_keeps_the_turn :
    io_encounter_iter rand_high
        { encounter_init (Sys.mk sample_pc_hurt [51, 32, 49, 49, 32] 0) (sample_mon 15 15 40)
          with pc_turn := 1 } =
      .ok (Ctl.next,
        { encounter_init (Sys.mk sample_pc_hurt [49, 49, 32] 1) (sample_mon 15 15 40)
          with pc_turn := 1, attempt := 1 }) ∧
    io_encounter_iter rand_high
        { encounter_init (Sys.mk sample_pc_hurt [49, 49, 32] 1) (sample_mon 15 15 40)
          with pc_turn := 1, attempt := 1 } =
      .ok (Ctl.next,
        { encounter_init (Sys.mk sample_pc_hurt [] 5) (sample_mon 10 15 40)
          with p_turn := 1, attempt := 1 }) :=
  ⟨rfl, rfl⟩

/-- Claim C11 as amended: a Run that fails (the escape odds are defined and the draw
`rand() % 256` exceeds them) changes `attempt`, the keys read and the position of the
random stream only; the turn flags, the player and the wild Pokemon are as before.  So the side that attacks in a Fight
resolved from the state after the Run is the side the flags named before the Run: the
player when `pc_turn` was set, the wild Pokemon when `pc_turn` was clear and `p_turn`
set. -/
theorem C11_failed_run_turn (rand : Nat → Nat) (e : Enc) (ack : Int) (rest : List Int)
    (t : Pokemon) (odds : Int)
    (hkeys : e.sys.keys = 51 :: ack :: rest)
    (hp : e.p_deleted = false)
    (ht : vec_at e.sys.pc.poke e.pc_poke = .ok t)
    (hodds : escape_odd t.get_speed e.p.get_speed (e.attempt + 1) = .ok odds)
    (hfail : ¬ ((rand e.sys.rand_pos : Nat) : Int).tmod 256 ≤ odds) :
    ∃ e', io_encounter_iter rand e = .ok (Ctl.next, e') ∧
      e' = { e with
        sys := { e.sys with keys := rest, rand_pos := e.sys.rand_pos + 1 },
        attempt := e.attempt + 1 } ∧
      e'.pc_turn = e.pc_turn ∧ e'.p_turn = e.p_turn ∧ e'.sys.pc = e.sys.pc ∧ e'.p = e.p ∧
      e'.pc_poke = e.pc_poke ∧
      ∀ (c : Ctl) (e'' : Enc), t.is_knocked = false → e.p.is_knocked = false →
        encounter_fight rand e' = .ok (c, e'') →
        (e.pc_turn ≠ 0 →
          e''.pc_turn = 0 ∧ e''.p_turn = 1 ∧ e''.sys.pc = e.sys.pc ∧
            (e''.p = e.p ∨ ∃ damage, e''.p = e.p.subtract_hp damage)) ∧
        (e.pc_turn = 0 → e.p_turn ≠ 0 →
          e''.pc_turn = 1 ∧ e''.p_turn = 0 ∧ e''.p = e.p ∧
            ∃ t', (t' = t ∨ ∃ damage, t' = t.subtract_hp damage) ∧
              e''.sys.pc = set_poke e.sys.pc e.pc_poke t') := by
  have hrun := iter_run rand e ack rest t odds hkeys hp ht hodds
  rw [if_neg hfail] at hrun
  refine ⟨_, hrun, rfl, rfl, rfl, rfl, rfl, rfl, ?_⟩
  intro c e'' hk hpk h
  constructor
  · intro hturn
    obtain ⟨-, h1, h2, h3, -, -, -, h4⟩ :=
      encounter_fight_pc_turn rand
        (Enc.mk (Sys.mk e.sys.pc rest (e.sys.rand_pos + 1)) e.p e.p_deleted e.pc_poke
          (e.attempt + 1) e.pc_turn e.p_turn) t c e'' ht hk hpk hturn h
    exact ⟨h1, h2, h3, h4⟩
  · intro hturn hpt
    obtain ⟨-, h1, h2, h3, -, -, -, h4⟩ :=
      encounter_fight_p_turn rand
        (Enc.mk (Sys.mk e.sys.pc rest (e.sys.rand_pos + 1)) e.p e.p_deleted e.pc_poke
          (e.attempt + 1) e.pc_turn e.p_turn) t c e'' ht hk hpk hturn hpt h
    exact ⟨h1, h2, h3, h4⟩

/-- Witness of C11 as amended: the failed Run of the counterexample, from `pc_turn = 1`. -/
theorem C11_failed_run_turn_witness :
    ∃ e', io_encounter_iter rand_high
        { encounter_init (Sys.mk sample_pc_hurt [51, 32, 49, 49, 32] 0) (sample_mon 15 15 40)
          with pc_turn := 1 } = .ok (Ctl.next, e') ∧
      e' = { encounter_init (Sys.mk sample_pc_hurt [49, 49, 32] 1) (sample_mon 15 15 40)
        with pc_turn := 1, attempt := 0 + 1 } ∧
      e'.pc_turn = 1 ∧ e'.p_turn = 0 ∧ e'.sys.pc = sample_pc_hurt ∧
      e'.p = sample_mon 15 15 40 ∧ e'.pc_poke = 0 ∧
      ∀ (c : Ctl) (e'' : Enc), (sample_mon 35 50 10).is_knocked = false →
        (sample_mon 15 15 40).is_knocked = false →
        encounter_fight rand_high e' = .ok (c, e'') →
        ((1 : Int) ≠ 0 →
          e''.pc_turn = 0 ∧ e''.p_turn = 1 ∧ e''.sys.pc = sample_pc_hurt ∧
            (e''.p = sample_mon 15 15 40 ∨
              ∃ damage, e''.p = (sample_mon 15 15 40).subtract_hp damage)) ∧
        ((1 : Int) = 0 → (0 : Int) ≠ 0 →
          e''.pc_turn = 1 ∧ e''.p_turn = 0 ∧ e''.p = sample_mon 15 15 40 ∧
            ∃ t', (t' = sample_mon 35 50 10 ∨
                ∃ damage, t' = (sample_mon 35 50 10).subtract_hp damage) ∧
              e''.sys.pc = set_poke sample_pc_hurt 0 t') :=
  C11_failed_run_turn rand_high
    { encounter_init (Sys.mk sample_pc_hurt [51, 32, 49, 49, 32] 0) (sample_mon 15 15 40)
      with pc_turn := 1 } 32 [49, 49, 32] (sample_mon 35 50 10) 62 rfl rfl rfl rfl
    (by decide)


/-! ## The end of a trainer battle (claim C17) -/

/-- A write to one element of a vector is not seen at another index. -/
theorem vec_at_set_ne {α : Type} (v : List α) (i j : Int) (x : α) (hj : 0 ≤ j)
    (hi : 0 ≤ i) (hne : j ≠ i) : vec_at (v.set i.toNat x) j = vec_at v j := by
  have hne' : i.toNat ≠ j.toNat := by omega
  unfold vec_at
  simp only [List.length_set, List.get?_eq_getElem?, List.getElem?_set_ne hne']

/-- The Fight action of a trainer battle leaves `trainer_poke` and writes no member of
the trainer's party other than the active one. -/
theorem battle_fight_npc (rand : Nat → Nat) (move_hit : Int) (b : Bat) (j : Jump)
    (b' : Bat) (h : battle_fight rand move_hit b = .ok (j, b')) :
    b'.trainer_poke = b.trainer_poke ∧
      (b'.npc = b.npc ∨
        ∃ n', b'.npc = { b.npc with poke := b.npc.poke.set b.trainer_poke.toNat n' }) := by
  cases ht : vec_at b.sys.pc.poke b.pc_poke with
  | error f => simp [battle_fight, ht, bind, Except.bind] at h
  | ok t =>
    cases hk : t.is_knocked with
    | true =>
      simp only [battle_fight, ht, hk, bind, Except.bind, pure, Except.pure, if_true] at h
      split at h
      · cases h
      · cases h
        exact ⟨rfl, Or.inl rfl⟩
    | false =>
      cases hn : vec_at b.npc.poke b.trainer_poke with
      | error f => simp [battle_fight, ht, hk, hn, bind, Except.bind] at h
      | ok n =>
        by_cases hturn : b.pc_turn ≠ 0
        · obtain ⟨-, -, -, -, -, h5, n', -, h6⟩ :=
            battle_fight_pc_turn rand move_hit b t n j b' ht hk hn hturn h
          exact ⟨h5, Or.inr ⟨n', h6⟩⟩
        · have hturn0 : b.pc_turn = 0 := by simpa using hturn
          by_cases hp : b.npc_turn ≠ 0
          · obtain ⟨-, -, -, h3, -, h5, -⟩ :=
              battle_fight_npc_turn rand move_hit b t n j b' ht hk hn hturn0 hp h
            exact ⟨h5, Or.inl h3⟩
          · have hp0 : b.npc_turn = 0 := by simpa using hp
            obtain ⟨f, hf⟩ := battle_fight_no_turn rand move_hit b t n ht hk hn hturn0 hp0
            rw [hf] at h
            cases h

/-- The members of the trainer's party below `trainer_poke` stay knocked when the
active member is written. -/
theorem knocked_prefix_set (npc : Npc) (tp : Int) (n' : Pokemon) (htp : 0 ≤ tp)
    (hpre : ∀ j, 0 ≤ j → j < tp → ∃ t, vec_at npc.poke j = .ok t ∧ t.is_knocked = true) :
    ∀ j, 0 ≤ j → j < tp →
      ∃ t, vec_at (npc.poke.set tp.toNat n') j = .ok t ∧ t.is_knocked = true := by
  intro j hj0 hj1
  rw [vec_at_set_ne npc.poke tp j n' hj0 htp (by omega)]
  exact hpre j hj0 hj1

/-- One pass of the battle loop keeps `num_poke` and the class of the trainer, keeps
every member below `trainer_poke` knocked, and either leaves `defeated` and the
behaviour as they were or ends with `trainer_poke == num_poke`, `defeated = 1` and the
behaviour of a hiker or a rival set to wander. -/
theorem battle_iter_inv (rand : Nat → Nat) (b b' : Bat)
    (h : io_battle_iter rand b = .ok b') (htp : 0 ≤ b.trainer_poke)
    (hpre : ∀ j, 0 ≤ j → j < b.trainer_poke →
      ∃ t, vec_at b.npc.poke j = .ok t ∧ t.is_knocked = true) :
    b'.npc.num_poke = b.npc.num_poke ∧ b'.npc.ctype = b.npc.ctype ∧ 0 ≤ b'.trainer_poke ∧
      (∀ j, 0 ≤ j → j < b'.trainer_poke →
        ∃ t, vec_at b'.npc.poke j = .ok t ∧ t.is_knocked = true) ∧
      ((b'.npc.defeated = b.npc.defeated ∧ b'.npc.mtype = b.npc.mtype) ∨
        (b'.npc.defeated = 1 ∧ b'.trainer_poke = b.npc.num_poke ∧
          b'.npc.mtype = (if b.npc.ctype = character_type.char_hiker ∨
            b.npc.ctype = character_type.char_rival then movement_type.move_wander
            else b.npc.mtype))) := by
  simp only [io_battle_iter, bind, Except.bind, pure, Except.pure, next_rand] at h
  split at h
  · cases h
  · split at h
    · cases h
    · next x1 ks hg =>
      split at h
      · cases h
      · next x2 r hact =>
        obtain ⟨jmp, b1⟩ := r
        -- the action leaves `trainer_poke` and writes the active member at most
        have hframe : b1.trainer_poke = b.trainer_poke ∧
            (b1.npc = b.npc ∨
              ∃ n', b1.npc = { b.npc with poke := b.npc.poke.set b.trainer_poke.toNat n' }) := by
          split at hact
          · have hfn := battle_fight_npc rand _ _ jmp b1 hact
            exact hfn
          · split at hact
            · simp only [Except.map] at hact
              split at hact
              · cases hact
              · cases hact
                exact ⟨rfl, Or.inl rfl⟩
            · split at hact
              · simp only [Except.map] at hact
                split at hact
                · cases hact
                · cases hact
                  exact ⟨rfl, Or.inl rfl⟩
              · cases hact
                exact ⟨rfl, Or.inl rfl⟩
        obtain ⟨hf1, hf2⟩ := hframe
        have hnum : b1.npc.num_poke = b.npc.num_poke := by
          rcases hf2 with hf2 | ⟨n', hf2⟩ <;> rw [hf2]
        have hct : b1.npc.ctype = b.npc.ctype := by
          rcases hf2 with hf2 | ⟨n', hf2⟩ <;> rw [hf2]
        have hdef : b1.npc.defeated = b.npc.defeated := by
          rcases hf2 with hf2 | ⟨n', hf2⟩ <;> rw [hf2]
        have hmt : b1.npc.mtype = b.npc.mtype := by
          rcases hf2 with hf2 | ⟨n', hf2⟩ <;> rw [hf2]
        have hpre1 : ∀ j, 0 ≤ j → j < b1.trainer_poke →
            ∃ t, vec_at b1.npc.poke j = .ok t ∧ t.is_knocked = true := by
          rw [hf1]
          rcases hf2 with hf2 | ⟨n', hf2⟩
          · rw [hf2]
            exact hpre
          · rw [hf2]
            exact knocked_prefix_set b.npc b.trainer_poke n' htp hpre
        cases jmp with
        | cont =>
          simp only at h
          cases h
          exact ⟨hnum, hct, by rw [hf1]; exact htp, hpre1, Or.inl ⟨hdef, hmt⟩⟩
        | fall =>
          simp only at h
          obtain ⟨-, -, -, -, s5, s6, s7, s8, s9, s10⟩ := battle_scan_ok b1 b' h
          refine ⟨by rw [s6, hnum], by rw [s7, hct], by omega, ?_, ?_⟩
          · intro j hj0 hj1
            rw [s5]
            by_cases hlt : j < b1.trainer_poke
            · exact hpre1 j hj0 hlt
            · exact s9 j (by omega) hj1
          · rcases s10 with ⟨t1, t2, t3⟩ | ⟨t1, t2, t3⟩
            · exact Or.inr ⟨t2, by rw [t1, hnum], by rw [t3, hct, hmt]⟩
            · exact Or.inl ⟨by rw [t2, hdef], by rw [t3, hmt]⟩

/-- The battle loop returns only in a state with `defeated = 1` reached by a scan that
ended at `num_poke`, with every member below `num_poke` knocked. -/
theorem battle_loop_inv (rand : Nat → Nat) (num : Int) (ct : character_type)
    (mt : movement_type) (fuel : Nat) : ∀ (b b' : Bat),
    io_battle_loop rand fuel b = .ok b' →
    b.npc.num_poke = num → b.npc.ctype = ct → 0 ≤ b.trainer_poke →
    (∀ j, 0 ≤ j → j < b.trainer_poke →
      ∃ t, vec_at b.npc.poke j = .ok t ∧ t.is_knocked = true) →
    ((b.npc.defeated = 0 ∧ b.npc.mtype = mt) ∨
      (b.npc.defeated = 1 ∧ b.trainer_poke = num ∧
        b.npc.mtype = (if ct = character_type.char_hiker ∨ ct = character_type.char_rival
          then movement_type.move_wander else mt))) →
    b'.npc.num_poke = num ∧ b'.npc.ctype = ct ∧ b'.npc.defeated = 1 ∧
      b'.trainer_poke = num ∧
      (∀ j, 0 ≤ j → j < num → ∃ t, vec_at b'.npc.poke j = .ok t ∧ t.is_knocked = true) ∧
      b'.npc.mtype = (if ct = character_type.char_hiker ∨ ct = character_type.char_rival
        then movement_type.move_wander else mt) := by
  induction fuel with
  | zero =>
    intro b b' h hnum hct htp hpre hst
    simp only [io_battle_loop] at h
    split at h
    · cases h
    · next hdef =>
      cases h
      rcases hst with ⟨h0, -⟩ | ⟨h1, h2, h3⟩
      · exact absurd h0 hdef
      · exact ⟨hnum, hct, h1, h2, by rw [← h2]; exact hpre, h3⟩
  | succ n ih =>
    intro b b' h hnum hct htp hpre hst
    simp only [io_battle_loop, bind, Except.bind, pure, Except.pure] at h
    split at h
    · next hdef =>
      split at h
      · cases h
      · next x b1 hiter =>
        obtain ⟨i1, i2, i3, i4, i5⟩ := battle_iter_inv rand b b1 hiter htp hpre
        have hmt : b.npc.mtype = mt := by
          rcases hst with ⟨-, h0⟩ | ⟨h1, -, -⟩
          · exact h0
          · rw [hdef] at h1
            cases h1
        refine ih b1 b' h (by rw [i1, hnum]) (by rw [i2, hct]) i3 i4 ?_
        rcases i5 with ⟨j1, j2⟩ | ⟨j1, j2, j3⟩
        · exact Or.inl ⟨by rw [j1, hdef], by rw [j2, hmt]⟩
        · exact Or.inr ⟨j1, by rw [j2, hnum], by rw [j3, hct, hmt]⟩
    · next hdef =>
      cases h
      rcases hst with ⟨h0, -⟩ | ⟨h1, h2, h3⟩
      · exact absurd h0 hdef
      · exact ⟨hnum, hct, h1, h2, by rw [← h2]; exact hpre, h3⟩

/-- Claim C17: a trainer battle against a trainer with `defeated == 0` returns only in
a state in which the scan has reached `num_poke` and every member of the trainer's
party (every index below `num_poke`) is knocked; there `defeated` is 1, the behaviour
is `move_wander` for a hiker or a rival and as at the start for every other class,
and the loop makes no further pass from that state, whatever keys are pending.  The
bound on the passes is arbitrary; `io_battle` is the case `fuel = keys + 1`. -/
theorem C17_battle_exit (rand : Nat → Nat) (fuel : Nat) (s : Sys) (npc : Npc) (b' : Bat)
    (hdef : npc.defeated = 0)
    (h : io_battle_loop rand fuel (battle_init s npc) = .ok b') :
    b'.npc.defeated = 1 ∧ b'.trainer_poke = npc.num_poke ∧
      b'.npc.num_poke = npc.num_poke ∧
      (∀ j, 0 ≤ j → j < npc.num_poke →
        ∃ t, vec_at b'.npc.poke j = .ok t ∧ t.is_knocked = true) ∧
      b'.npc.ctype = npc.ctype ∧
      (npc.ctype = character_type.char_hiker ∨ npc.ctype = character_type.char_rival →
        b'.npc.mtype = movement_type.move_wander) ∧
      (¬ (npc.ctype = character_type.char_hiker ∨ npc.ctype = character_type.char_rival) →
        b'.npc.mtype = npc.mtype) ∧
      (∀ (fuel' : Nat) (keys : List Int),
        io_battle_loop rand fuel' { b' with sys := { b'.sys with keys := keys } } =
          .ok { b' with sys := { b'.sys with keys := keys } }) := by
  obtain ⟨h1, h2, h3, h4, h5, h6⟩ :=
    battle_loop_inv rand npc.num_poke npc.ctype npc.mtype fuel (battle_init s npc) b' h rfl rfl
      (le_refl _) (fun j hj0 hj1 => absurd hj1 (by simp only [battle_init]; omega))
      (Or.inl ⟨hdef, rfl⟩)
  refine ⟨h3, h4, h1, h5, h2, ?_, ?_, ?_⟩
  · intro hc
    rw [h6, if_pos hc]
  · intro hc
    rw [h6, if_neg hc]
  · intro fuel' keys
    cases fuel' with
    | zero => simp [io_battle_loop, h3]
    | succ n => simp [io_battle_loop, h3, pure, Except.pure]

/-- Witness of C17: the sample hiker, whose only Pokemon has hp 4, is beaten by the
first Fight; `io_battle` returns with the Pokemon knocked, `defeated = 1` and the
hiker set to wander. -/
theorem C17_battle_exit_witness :
    io_battle rand_zero (Sys.mk sample_pc_hurt [49, 49, 32] 0) sample_hiker =
      .ok { battle_init (Sys.mk sample_pc_hurt [] 4)
              { sample_hiker with poke := [sample_trainer_mon 0 20], defeated := 1,
                                  mtype := movement_type.move_wander } with
            trainer_poke := 1, pc_turn := 0, npc_turn := 1 } ∧
    ∀ j : Int, 0 ≤ j → j < 1 →
      ∃ t, vec_at [sample_trainer_mon 0 20] j = .ok t ∧ t.is_knocked = true :=
  ⟨rfl, (C17_battle_exit rand_zero 4 (Sys.mk sample_pc_hurt [49, 49, 32] 0) sample_hiker
    { battle_init (Sys.mk sample_pc_hurt [] 4)
        { sample_hiker with poke := [sample_trainer_mon 0 20], defeated := 1,
                            mtype := movement_type.move_wander } with
      trainer_poke := 1, pc_turn := 0, npc_turn := 1 } rfl rfl).2.2.2.1⟩


/-! ## Monotonicity of the damage (claim C15) -/

/-- With enough fuel, `bit_length` is the number of binary digits: `n < 2 ^ bits`, and
`2 ^ (bits - 1) ≤ n` when `n` is not zero. -/
theorem bit_length_spec (fuel : Nat) : ∀ n, n ≤ fuel →
    n < 2 ^ bit_length fuel n ∧ (n ≠ 0 → 2 ^ (bit_length fuel n - 1) ≤ n ∧
      1 ≤ bit_length fuel n) := by
  induction fuel with
  | zero =>
    intro n hn
    have : n = 0 := by omega
    subst this
    simp [bit_length]
  | succ f ih =>
    intro n hn
    by_cases h0 : n = 0
    · subst h0
      simp [bit_length]
    · have hhalf : n / 2 ≤ f := by omega
      obtain ⟨h1, h2⟩ := ih (n / 2) hhalf
      simp only [bit_length, h0, if_false]
      refine ⟨?_, fun _ => ⟨?_, by omega⟩⟩
      · rw [pow_succ]
        omega
      · simp only [Nat.add_sub_cancel]
        by_cases hq : n / 2 = 0
        · have : bit_length f (n / 2) = 0 := by
            rw [hq]
            cases f <;> simp [bit_length]
          rw [this]
          simp
          omega
        · obtain ⟨h3, h4⟩ := h2 hq
          have : bit_length f (n / 2) = (bit_length f (n / 2) - 1) + 1 := by omega
          rw [this, pow_succ]
          omega

/-- The value of `round_binary64` spelled out for an argument of more than 53 binary
digits. -/
theorem round_binary64_big (n : Nat) (h : 53 < bit_length n n) :
    round_binary64 n =
      (if n % 2 ^ (bit_length n n - 53) > 2 ^ (bit_length n n - 53 - 1) ∨
          (n % 2 ^ (bit_length n n - 53) = 2 ^ (bit_length n n - 53 - 1) ∧
            n / 2 ^ (bit_length n n - 53) % 2 = 1)
        then n / 2 ^ (bit_length n n - 53) + 1 else n / 2 ^ (bit_length n n - 53)) *
        2 ^ (bit_length n n - 53) := by
  unfold round_binary64
  simp only
  rw [if_neg (by omega)]

/-- The value of `round_binary64` for an argument of at most 53 binary digits. -/
theorem round_binary64_small (n : Nat) (h : bit_length n n ≤ 53) : round_binary64 n = n := by
  unfold round_binary64
  simp only
  rw [if_pos h]

/-- The quotient kept by `round_binary64` has exactly 53 binary digits. -/
theorem round_quotient_bounds (n : Nat) (h : 53 < bit_length n n) :
    2 ^ 52 ≤ n / 2 ^ (bit_length n n - 53) ∧ n / 2 ^ (bit_length n n - 53) < 2 ^ 53 := by
  obtain ⟨h1, h2⟩ := bit_length_spec n n (le_refl n)
  have hn : n ≠ 0 := by
    intro h0
    subst h0
    simp [bit_length] at h
  obtain ⟨h3, -⟩ := h2 hn
  have hpos : 0 < 2 ^ (bit_length n n - 53) := Nat.pow_pos (by norm_num)
  constructor
  · rw [Nat.le_div_iff_mul_le hpos, ← pow_add]
    have : 52 + (bit_length n n - 53) = bit_length n n - 1 := by omega
    rw [this]
    exact h3
  · rw [Nat.div_lt_iff_lt_mul hpos, ← pow_add]
    have : 53 + (bit_length n n - 53) = bit_length n n := by omega
    rw [this]
    exact h1

/-- The rounded value is at most the next power of two. -/
theorem round_binary64_le_pow (n : Nat) : round_binary64 n ≤ 2 ^ bit_length n n := by
  by_cases h : bit_length n n ≤ 53
  · rw [round_binary64_small n h]
    exact le_of_lt (bit_length_spec n n (le_refl n)).1
  · have h' : 53 < bit_length n n := by omega
    rw [round_binary64_big n h']
    obtain ⟨-, hq⟩ := round_quotient_bounds n h'
    have hpow : 2 ^ bit_length n n = 2 ^ 53 * 2 ^ (bit_length n n - 53) := by
      rw [← pow_add]
      congr 1
      omega
    rw [hpow]
    apply Nat.mul_le_mul_right
    split <;> omega

/-- The rounded value of a non-zero argument is at least its leading power of two. -/
theorem round_binary64_ge_pow (n : Nat) (hn : n ≠ 0) :
    2 ^ (bit_length n n - 1) ≤ round_binary64 n := by
  by_cases h : bit_length n n ≤ 53
  · rw [round_binary64_small n h]
    exact ((bit_length_spec n n (le_refl n)).2 hn).1
  · have h' : 53 < bit_length n n := by omega
    rw [round_binary64_big n h']
    obtain ⟨hq, -⟩ := round_quotient_bounds n h'
    have hpow : 2 ^ (bit_length n n - 1) = 2 ^ 52 * 2 ^ (bit_length n n - 53) := by
      rw [← pow_add]
      congr 1
      omega
    rw [hpow]
    apply Nat.mul_le_mul_right
    split <;> omega

/-- The number of binary digits is monotone. -/
theorem bit_length_mono (n m : Nat) (h : n ≤ m) : bit_length n n ≤ bit_length m m := by
  by_contra hc
  have hlt : bit_length m m < bit_length n n := by omega
  have hn : n ≠ 0 := by
    intro h0
    subst h0
    simp [bit_length] at hlt
  obtain ⟨h1, -⟩ := (bit_length_spec n n (le_refl n)).2 hn
  have h2 := (bit_length_spec m m (le_refl m)).1
  have h3 : 2 ^ bit_length m m ≤ 2 ^ (bit_length n n - 1) :=
    Nat.pow_le_pow_right (by norm_num) (by omega)
  omega

/-- Rounding to binary64 is monotone. -/
theorem round_binary64_mono (n m : Nat) (h : n ≤ m) :
    round_binary64 n ≤ round_binary64 m := by
  by_cases hn : n = 0
  · subst hn
    have : round_binary64 0 = 0 := by
      rw [round_binary64_small 0 (by simp [bit_length])]
    rw [this]
    exact Nat.zero_le _
  have hm : m ≠ 0 := by omega
  have hb := bit_length_mono n m h
  by_cases hbeq : bit_length n n = bit_length m m
  · by_cases hs : bit_length n n ≤ 53
    · rw [round_binary64_small n hs, round_binary64_small m (by omega)]
      exact h
    · have hn' : 53 < bit_length n n := by omega
      have hm' : 53 < bit_length m m := by omega
      rw [round_binary64_big n hn', round_binary64_big m hm', ← hbeq]
      have hpos : 0 < 2 ^ (bit_length n n - 53) := Nat.pow_pos (by norm_num)
      have hq : n / 2 ^ (bit_length n n - 53) ≤ m / 2 ^ (bit_length n n - 53) :=
        Nat.div_le_div_right h
      apply Nat.mul_le_mul_right
      by_cases hqeq : n / 2 ^ (bit_length n n - 53) = m / 2 ^ (bit_length n n - 53)
      · have hr : n % 2 ^ (bit_length n n - 53) ≤ m % 2 ^ (bit_length n n - 53) := by
          have e1 := Nat.div_add_mod n (2 ^ (bit_length n n - 53))
          have e2 := Nat.div_add_mod m (2 ^ (bit_length n n - 53))
          rw [hqeq] at e1
          omega
        rw [← hqeq]
        split
        · next hup =>
          split
          · exact le_refl _
          · next hnup =>
            exfalso
            apply hnup
            rcases hup with hup | ⟨hup1, hup2⟩
            · exact Or.inl (by omega)
            · by_cases hreq : m % 2 ^ (bit_length n n - 53) = 2 ^ (bit_length n n - 53 - 1)
              · exact Or.inr ⟨hreq, hup2⟩
              · exact Or.inl (by omega)
        · split <;> omega
      · have hlt : n / 2 ^ (bit_length n n - 53) < m / 2 ^ (bit_length n n - 53) := by
          omega
        split <;> split <;> omega
  · have hlt : bit_length n n < bit_length m m := by omega
    calc round_binary64 n ≤ 2 ^ bit_length n n := round_binary64_le_pow n
      _ ≤ 2 ^ (bit_length m m - 1) := Nat.pow_le_pow_right (by norm_num) (by omega)
      _ ≤ round_binary64 m := round_binary64_ge_pow m hm

/-- The `int` variable `critical` holds 1 whatever the test gives. -/
theorem critical_of_eq_one (base_speed draw : Int) : critical_of base_speed draw = 1 := by
  unfold critical_of int_of_1_5
  split <;> rfl

/-- The `int` variable `stab` holds 1 whatever the types are. -/
theorem stab_of_eq_one (types : List Int) (move_type : Int) : stab_of types move_type = 1 := by
  unfold stab_of
  have key : ∀ (l : List Int) (acc : Int), acc = 1 →
      l.foldl (fun stab t => if t = move_type then int_of_1_5 else stab) acc = 1 := by
    intro l
    induction l with
    | nil => intro acc h; simpa using h
    | cons t l ih =>
      intro acc h
      simp only [List.foldl]
      apply ih
      split
      · rfl
      · exact h
  exact key types 1 rfl

/-- The integer part of the damage expression when `2 * level` and the product before
the division by 50 stay in the range of `int`: no wrap-around changes it. -/
theorem damage_base_eq (level power ratio : Int)
    (hl : -2 ^ 31 ≤ 2 * level ∧ 2 * level < 2 ^ 31)
    (hprod : -2 ^ 31 ≤ ((2 * level).tdiv 5 + 2) * power * ratio ∧
      ((2 * level).tdiv 5 + 2) * power * ratio < 2 ^ 31) :
    wrap_int (wrap_int ((wrap_int (wrap_int (wrap_int ((wrap_int (2 * level)).tdiv 5 + 2) *
        power) * ratio)).tdiv 50 + 2)) =
      (((2 * level).tdiv 5 + 2) * power * ratio).tdiv 50 + 2 := by
  have w1 : wrap_int (2 * level) = 2 * level := wrap_int_of_range _ hl.1 hl.2
  have r1 := (tdiv_range (2 * level) hl.1 hl.2).1
  have w2 : wrap_int ((2 * level).tdiv 5 + 2) = (2 * level).tdiv 5 + 2 :=
    wrap_int_of_range _ (by omega) (by omega)
  have w3 : wrap_int (((2 * level).tdiv 5 + 2) * power * ratio) =
      ((2 * level).tdiv 5 + 2) * power * ratio := wrap_int_of_range _ hprod.1 hprod.2
  have r2 := (tdiv_range (((2 * level).tdiv 5 + 2) * power * ratio) hprod.1 hprod.2).2
  have w4 : wrap_int ((((2 * level).tdiv 5 + 2) * power * ratio).tdiv 50 + 2) =
      (((2 * level).tdiv 5 + 2) * power * ratio).tdiv 50 + 2 :=
    wrap_int_of_range _ (by omega) (by omega)
  rw [w1, w2, wrap_int_mul, w3, w4, w4]

/-- The damage of a hit with a move the attacker has, when `atk / def` is defined and
`2 * level` and the product before the division by 50 stay in the range of `int`: the
integer part `b` with truncating divisions, then the double product with `random`,
`stab = 1` and `type = 1`, truncated. -/
theorem compute_damage_eq (a d : Pokemon) (mv : Int) (m : Move) (crit_draw rand_draw b : Int)
    (hm : a.get_move mv = .ok m) (hd : d.stat_def ≠ 0)
    (hdiv : ¬ (a.stat_atk = -2 ^ 31 ∧ d.stat_def = -1))
    (hl : -2 ^ 31 ≤ 2 * a.level ∧ 2 * a.level < 2 ^ 31)
    (hprod : -2 ^ 31 ≤ ((2 * a.level).tdiv 5 + 2) * m.power *
        (a.stat_atk.tdiv d.stat_def) ∧
      ((2 * a.level).tdiv 5 + 2) * m.power * (a.stat_atk.tdiv d.stat_def) < 2 ^ 31)
    (hb : b = (((2 * a.level).tdiv 5 + 2) * m.power *
      (a.stat_atk.tdiv d.stat_def)).tdiv 50 + 2) :
    compute_damage a d mv crit_draw rand_draw =
      .ok (if 0 ≤ b then
          trunc_binary64 (mul_binary64 (mul_binary64 (round_binary64
            (b.natAbs * random_factor_binary64 (rand_draw.tmod 16 + 85).toNat)) 1) 1)
        else
          - trunc_binary64 (mul_binary64 (mul_binary64 (round_binary64
            (b.natAbs * random_factor_binary64 (rand_draw.tmod 16 + 85).toNat)) 1) 1)) := by
  subst hb
  simp only [compute_damage, Pokemon.get_move_type, Pokemon.get_move_power, hm, Except.map,
    critical_of_eq_one, stab_of_eq_one, bind, Except.bind, pure, Except.pure,
    int_div_ok a.stat_atk d.stat_def hd hdiv,
    mul_one, Pokemon.get_level, Pokemon.get_atk, Pokemon.get_def, ite_self,
    damage_base_eq a.level m.power (a.stat_atk.tdiv d.stat_def) hl hprod]

/-- The damage of a hit does not depend on the `base_speed` and the types of the
attacker, the type of the move or the critical draw: attackers of the same level and
`atk` with a move of the same power get the same result, wrap-around included. -/
theorem compute_damage_indep (a a' d : Pokemon) (mv : Int) (m m' : Move)
    (crit_draw crit_draw' rand_draw : Int)
    (hm : a.get_move mv = .ok m) (hm' : a'.get_move mv = .ok m')
    (hl : a'.level = a.level) (ha : a'.stat_atk = a.stat_atk) (hp : m'.power = m.power) :
    compute_damage a' d mv crit_draw' rand_draw = compute_damage a d mv crit_draw rand_draw := by
  simp only [compute_damage, Pokemon.get_move_type, Pokemon.get_move_power, hm, hm',
    Except.map, critical_of_eq_one, stab_of_eq_one, bind, Except.bind, pure, Except.pure,
    mul_one, Pokemon.get_level, Pokemon.get_atk, Pokemon.get_def, ite_self, hl, ha, hp]

/-- The integer quotient `atk / def` is monotone in the exact ratio. -/
theorem stat_quotient_mono (atk1 def1 atk2 def2 : Int) (ha1 : 0 ≤ atk1) (ha2 : 0 ≤ atk2)
    (hd1 : 0 < def1) (hd2 : 0 < def2)
    (hratio : (atk1 : ℚ) / (def1 : ℚ) ≤ (atk2 : ℚ) / (def2 : ℚ)) :
    0 ≤ atk1.tdiv def1 ∧ atk1.tdiv def1 ≤ atk2.tdiv def2 := by
  rw [Int.tdiv_eq_ediv ha1 (le_of_lt hd1), Int.tdiv_eq_ediv ha2 (le_of_lt hd2)]
  have hq1 : (0 : ℚ) < (def1 : ℚ) := by exact_mod_cast hd1
  have hq2 : (0 : ℚ) < (def2 : ℚ) := by exact_mod_cast hd2
  have hcross : atk1 * def2 ≤ atk2 * def1 := by
    have := (div_le_div_iff₀ hq1 hq2).mp hratio
    exact_mod_cast this
  have h1 : atk1 / def1 * def1 ≤ atk1 := Int.ediv_mul_le atk1 (ne_of_gt hd1)
  have h0 : 0 ≤ atk1 / def1 := Int.ediv_nonneg ha1 (le_of_lt hd1)
  refine ⟨h0, ?_⟩
  rw [Int.le_ediv_iff_mul_le hd2]
  have h2 : atk1 / def1 * def2 * def1 ≤ atk2 * def1 := by
    calc atk1 / def1 * def2 * def1 = atk1 / def1 * def1 * def2 := by ring
      _ ≤ atk1 * def2 := Int.mul_le_mul_of_nonneg_right h1 (le_of_lt hd2)
      _ ≤ atk2 * def1 := hcross
  exact le_of_mul_le_mul_right h2 hd1

/-- The double product and its truncation are monotone in the integer part of the
damage. -/
theorem scaled_mono (b1 b2 : Int) (k : Nat) (h0 : 0 ≤ b1) (h : b1 ≤ b2) :
    trunc_binary64 (mul_binary64 (mul_binary64 (round_binary64
        (b1.natAbs * random_factor_binary64 k)) 1) 1) ≤
      trunc_binary64 (mul_binary64 (mul_binary64 (round_binary64
        (b2.natAbs * random_factor_binary64 k)) 1) 1) := by
  have habs : b1.natAbs ≤ b2.natAbs := by omega
  unfold trunc_binary64 mul_binary64
  simp only [Int.natAbs_one, mul_one]
  apply Int.ofNat_le.mpr
  apply Nat.div_le_div_right
  apply round_binary64_mono
  apply round_binary64_mono
  apply round_binary64_mono
  exact Nat.mul_le_mul_right _ habs

/-- Claim C15 fails: a level 100 attacker hits a defender with `def` 1 with a move of
power 250 and the same two draws.  With `atk` 100000 the damage is 17850001; with `atk`
2000000, a larger ratio `atk / def`, the `int` product `10500 * 2000000` wraps around
and the damage is -8072217. -/
theorem C15_damage_not_monotone :
    ((1 : Int) ≤ (sample_giant 100000).level ∧ (0 : Int) ≤ sample_hyper.power ∧
      (0 : Int) ≤ (sample_giant 100000).stat_atk ∧ (0 : Int) ≤ (sample_giant 2000000).stat_atk ∧
      (0 : Int) < sample_frail.stat_def) ∧
    ((sample_giant 100000).stat_atk : ℚ) / (sample_frail.stat_def : ℚ) ≤
      ((sample_giant 2000000).stat_atk : ℚ) / (sample_frail.stat_def : ℚ) ∧
    compute_damage (sample_giant 100000) sample_frail 0 200 0 = .ok 17850001 ∧
    compute_damage (sample_giant 2000000) sample_frail 0 200 0 = .ok (-8072217) ∧
    ¬ ((17850001 : Int) ≤ -8072217) := by
  refine ⟨⟨by decide, by decide, by decide, by decide, by decide⟩, ?_, rfl, rfl, by decide⟩
  norm_num [sample_giant, sample_frail, sample_mon]

/-- Claim C15 as amended: with level at least 1, non-negative power, non-negative `atk`,
positive `def` and the same two random draws, when `2 * level` and the product
`((2 * level) / 5 + 2) * power * (atk / def)` of the larger pair stay below `2 ^ 31`, the
damage of a hit is computed without fault and is non-decreasing in the power of the
move and in the exact ratio `atk / def`: for two attacker and defender pairs of the same
level, with `power1 ≤ power2` and `atk1 / def1 ≤ atk2 / def2`, the first damage is at
most the second. -/
theorem C15_damage_monotone (a1 a2 d1 d2 : Pokemon) (mv : Int) (m1 m2 : Move)
    (crit_draw rand_draw : Int)
    (hm1 : a1.get_move mv = .ok m1) (hm2 : a2.get_move mv = .ok m2)
    (hlevel : a1.level = a2.level) (hl : 1 ≤ a1.level)
    (hp0 : 0 ≤ m1.power) (hp : m1.power ≤ m2.power)
    (ha1 : 0 ≤ a1.stat_atk) (ha2 : 0 ≤ a2.stat_atk)
    (hd1 : 0 < d1.stat_def) (hd2 : 0 < d2.stat_def)
    (hratio : (a1.stat_atk : ℚ) / (d1.stat_def : ℚ) ≤ (a2.stat_atk : ℚ) / (d2.stat_def : ℚ))
    (hl2 : 2 * a1.level < 2 ^ 31)
    (hprod : ((2 * a2.level).tdiv 5 + 2) * m2.power * (a2.stat_atk.tdiv d2.stat_def) <
      2 ^ 31) :
    ∃ x y, compute_damage a1 d1 mv crit_draw rand_draw = .ok x ∧
      compute_damage a2 d2 mv crit_draw rand_draw = .ok y ∧ x ≤ y := by
  obtain ⟨hr0, hr⟩ := stat_quotient_mono a1.stat_atk d1.stat_def a2.stat_atk d2.stat_def
    ha1 ha2 hd1 hd2 hratio
  have hL : 0 ≤ (2 * a1.level).tdiv 5 + 2 := by
    have := Int.tdiv_nonneg (a := 2 * a1.level) (b := 5) (by omega) (by norm_num)
    omega
  have hX0 : 0 ≤ ((2 * a1.level).tdiv 5 + 2) * m1.power * (a1.stat_atk.tdiv d1.stat_def) :=
    mul_nonneg (mul_nonneg hL hp0) hr0
  have hX : ((2 * a1.level).tdiv 5 + 2) * m1.power * (a1.stat_atk.tdiv d1.stat_def) ≤
      ((2 * a2.level).tdiv 5 + 2) * m2.power * (a2.stat_atk.tdiv d2.stat_def) := by
    rw [← hlevel]
    exact mul_le_mul (mul_le_mul_of_nonneg_left hp hL) hr hr0
      (mul_nonneg hL (le_trans hp0 hp))
  have hB0 : 0 ≤ (((2 * a1.level).tdiv 5 + 2) * m1.power *
      (a1.stat_atk.tdiv d1.stat_def)).tdiv 50 + 2 := by
    have := Int.tdiv_nonneg hX0 (by norm_num : (0 : Int) ≤ 50)
    omega
  have hB : (((2 * a1.level).tdiv 5 + 2) * m1.power *
      (a1.stat_atk.tdiv d1.stat_def)).tdiv 50 + 2 ≤
      (((2 * a2.level).tdiv 5 + 2) * m2.power *
      (a2.stat_atk.tdiv d2.stat_def)).tdiv 50 + 2 := by
    rw [Int.tdiv_eq_ediv hX0 (by norm_num), Int.tdiv_eq_ediv (le_trans hX0 hX) (by norm_num)]
    have := Int.ediv_le_ediv (by norm_num : (0 : Int) < 50) hX
    omega
  refine ⟨_, _,
    compute_damage_eq a1 d1 mv m1 crit_draw rand_draw _ hm1 (ne_of_gt hd1) (by omega)
      ⟨by omega, hl2⟩ ⟨by omega, by omega⟩ rfl,
    compute_damage_eq a2 d2 mv m2 crit_draw rand_draw _ hm2 (ne_of_gt hd2) (by omega)
      ⟨by omega, by omega⟩ ⟨by omega, hprod⟩ rfl, ?_⟩
  rw [if_pos hB0, if_pos (le_trans hB0 hB)]
  exact scaled_mono _ _ _ hB0 hB

/-- Witness of C15 as amended: the same level 5 attacker (`atk` 12) against `def` 10 and against
`def` 5, with the first sample move. -/
theorem C15_damage_monotone_witness :
    ∃ x y, compute_damage (sample_mon 35 50 10) (sample_mon 15 15 40) 0 30 15 = .ok x ∧
      compute_damage (sample_mon 35 50 10) { sample_mon 15 15 40 with stat_def := 5 } 0 30 15 =
        .ok y ∧ x ≤ y :=
  C15_damage_monotone (sample_mon 35 50 10) (sample_mon 35 50 10) (sample_mon 15 15 40)
    { sample_mon 15 15 40 with stat_def := 5 } 0 sample_tackle sample_tackle 30 15 rfl rfl rfl
    (by decide) (by decide) (by decide) (by decide) (by decide) (by decide) (by decide)
    (by norm_num [sample_mon]) (by decide) (by decide)

/-! ## The damage formula (claim C14) -/

/-- A number between `2 ^ (k - 1)` and `2 ^ k` has `k` binary digits. -/
theorem bit_length_eq (v k : Nat) (hk : 1 ≤ k) (h1 : 2 ^ (k - 1) ≤ v) (h2 : v < 2 ^ k) :
    bit_length v v = k := by
  have hv : v ≠ 0 := by
    have := Nat.pow_pos (n := k - 1) (by norm_num : 0 < 2)
    omega
  obtain ⟨s1, s2⟩ := bit_length_spec v v (le_refl v)
  obtain ⟨s3, s4⟩ := s2 hv
  by_contra hne
  rcases Nat.lt_or_gt_of_ne hne with hlt | hgt
  · have : 2 ^ bit_length v v ≤ 2 ^ (k - 1) := Nat.pow_le_pow_right (by norm_num) (by omega)
    omega
  · have : 2 ^ k ≤ 2 ^ (bit_length v v - 1) := Nat.pow_le_pow_right (by norm_num) (by omega)
    omega

/-- A multiple `q * 2 ^ sh` with `q` of 53 binary digits is a binary64 value: rounding
leaves it as it is. -/
theorem round_binary64_multiple (q sh : Nat) (h1 : 2 ^ 52 ≤ q) (h2 : q < 2 ^ 53) :
    round_binary64 (q * 2 ^ sh) = q * 2 ^ sh := by
  have hpos : 0 < 2 ^ sh := Nat.pow_pos (by norm_num)
  have hbits : bit_length (q * 2 ^ sh) (q * 2 ^ sh) = 53 + sh := by
    apply bit_length_eq _ _ (by omega)
    · have : 53 + sh - 1 = 52 + sh := by omega
      rw [this, pow_add]
      exact Nat.mul_le_mul_right _ h1
    · rw [pow_add]
      exact Nat.mul_lt_mul_of_pos_right h2 hpos
  by_cases hsh : sh = 0
  · subst hsh
    rw [round_binary64_small _ (by omega)]
  · rw [round_binary64_big _ (by omega), hbits]
    have hsub : 53 + sh - 53 = sh := by omega
    rw [hsub, Nat.mul_mod_left, Nat.mul_div_cancel _ hpos]
    have hhalf : 0 < 2 ^ (sh - 1) := Nat.pow_pos (by norm_num)
    rw [if_neg (by omega)]

/-- Rounding to binary64 is idempotent. -/
theorem round_binary64_idem (n : Nat) : round_binary64 (round_binary64 n) = round_binary64 n := by
  by_cases h : bit_length n n ≤ 53
  · rw [round_binary64_small n h, round_binary64_small n h]
  · have h' : 53 < bit_length n n := by omega
    obtain ⟨hq1, hq2⟩ := round_quotient_bounds n h'
    rw [round_binary64_big n h']
    split
    · by_cases hc : n / 2 ^ (bit_length n n - 53) + 1 < 2 ^ 53
      · exact round_binary64_multiple _ _ (by omega) hc
      · have he : n / 2 ^ (bit_length n n - 53) + 1 = 2 ^ 52 * 2 := by omega
        rw [he, mul_assoc, ← pow_succ']
        exact round_binary64_multiple _ _ (le_refl _) (by norm_num)
    · exact round_binary64_multiple _ _ hq1 hq2

/-- The double products with `stab = 1` and `type = 1` change nothing. -/
theorem mul_binary64_one (n : Nat) :
    mul_binary64 (mul_binary64 (round_binary64 n) 1) 1 = round_binary64 n := by
  unfold mul_binary64
  simp only [Int.natAbs_one, mul_one, round_binary64_idem]

/-- Claim C14 fails: a level 5 attacker with `atk` 12 hits a defender with `def` 10 with
a move of power 100 that is not of its type, with no critical hit (draw 30 against
`base_speed` 45) and the random factor 100/100.  The code computes `12 / 10 = 1`, so
the damage is `400 / 50 + 2 = 10`; the reference value, with the exact ratio 1.2, is
`floor(9.6) + 2 = 11`. -/
theorem C14_damage_differs_from_reference :
    compute_damage sample_slammer (sample_mon 15 15 40) 0 30 15 = .ok 10 ∧
    spec_damage sample_slammer (sample_mon 15 15 40) sample_slam 30 100 = 11 := by
  refine ⟨rfl, ?_⟩
  simp only [spec_damage, sample_slammer, sample_mon, sample_slam]
  norm_num

/-- With no type of the attacker equal to the type of the move, `stab` stays at its
initial value 1. -/
theorem stab_of_not_mem (types : List Int) (move_type : Int) (h : move_type ∉ types) :
    stab_of types move_type = 1 := by
  unfold stab_of
  have key : ∀ (l : List Int) (acc : Int), move_type ∉ l →
      l.foldl (fun stab t => if t = move_type then int_of_1_5 else stab) acc = acc := by
    intro l
    induction l with
    | nil => intro acc _; rfl
    | cons t l ih =>
      intro acc hmem
      simp only [List.mem_cons, not_or] at hmem
      simp only [List.foldl]
      rw [if_neg (fun heq => hmem.1 heq.symm)]
      exact ih acc hmem.2
  exact key types 1 h

/-- Claim C14 as amended: on a hit in which the critical test of the code fails and the
type of the move is none of the attacker's types, with `atk / def` defined (a non-zero
`def`, and not the least `int` divided by -1) and `2 * level` and the product
`((2 * level) / 5 + 2) * power * (atk / def)` inside the range of `int`, so that no
product wraps around, the damage is the double product `b * (k / 100.0)`, rounded to
binary64 and truncated toward zero, where
`b = ((2 * level / 5 + 2) * power * (atk / def)) / 50 + 2` with truncating integer
division throughout, `atk / def` included, and `k = rand() % 16 + 85` lies in 85..100. -/
theorem C14_damage_of_hit (a d : Pokemon) (mv : Int) (m : Move) (crit_draw rand_draw : Nat)
    (hm : a.get_move mv = .ok m) (hd : d.stat_def ≠ 0)
    (hdiv : ¬ (a.stat_atk = -2 ^ 31 ∧ d.stat_def = -1))
    (hl : -2 ^ 31 ≤ 2 * a.level ∧ 2 * a.level < 2 ^ 31)
    (hprod : -2 ^ 31 ≤ ((2 * a.level).tdiv 5 + 2) * m.power *
        (a.stat_atk.tdiv d.stat_def) ∧
      ((2 * a.level).tdiv 5 + 2) * m.power * (a.stat_atk.tdiv d.stat_def) < 2 ^ 31)
    (hcrit : ¬ (a.base_speed.tdiv 2 > (crit_draw : Int).tmod 255))
    (hstab : m.type ∉ a.type) :
    ∃ (b : Int) (k : Nat),
      b = (((2 * a.level).tdiv 5 + 2) * m.power * (a.stat_atk.tdiv d.stat_def)).tdiv 50 + 2 ∧
      (k : Int) = (rand_draw : Int).tmod 16 + 85 ∧ 85 ≤ k ∧ k ≤ 100 ∧
      compute_damage a d mv crit_draw rand_draw =
        .ok (if 0 ≤ b then
            trunc_binary64 (round_binary64 (b.natAbs * random_factor_binary64 k))
          else
            - trunc_binary64 (round_binary64 (b.natAbs * random_factor_binary64 k))) := by
  have hk0 := Int.tmod_nonneg 16 (Int.natCast_nonneg rand_draw)
  have hk1 := Int.tmod_lt_of_pos (rand_draw : Int) (by norm_num : (0 : Int) < 16)
  have hc : critical_of a.get_base_speed (crit_draw : Int) = 1 := by
    unfold critical_of Pokemon.get_base_speed
    rw [if_neg hcrit]
  have hs : stab_of a.type m.type = 1 := stab_of_not_mem a.type m.type hstab
  refine ⟨_, ((rand_draw : Int).tmod 16 + 85).toNat, rfl, by omega, by omega, by omega, ?_⟩
  simp only [compute_damage, Pokemon.get_move_type, Pokemon.get_move_power, hm, Except.map,
    hc, hs, bind, Except.bind, pure, Except.pure, int_div_ok a.stat_atk d.stat_def hd hdiv,
    mul_one, Pokemon.get_level, Pokemon.get_atk, Pokemon.get_def, ite_self, mul_binary64_one,
    damage_base_eq a.level m.power (a.stat_atk.tdiv d.stat_def) hl hprod]

/-- Witness of C14 as amended: the hit of the counterexample, with damage 10. -/
theorem C14_damage_of_hit_witness :
    ∃ (b : Int) (k : Nat),
      b = (((2 * (5 : Int)).tdiv 5 + 2) * 100 * ((12 : Int).tdiv 10)).tdiv 50 + 2 ∧
      (k : Int) = ((15 : Nat) : Int).tmod 16 + 85 ∧ 85 ≤ k ∧ k ≤ 100 ∧
      compute_damage sample_slammer (sample_mon 15 15 40) 0 ((30 : Nat) : Int)
          ((15 : Nat) : Int) =
        .ok (if 0 ≤ b then
            trunc_binary64 (round_binary64 (b.natAbs * random_factor_binary64 k))
          else
            - trunc_binary64 (round_binary64 (b.natAbs * random_factor_binary64 k))) :=
  C14_damage_of_hit sample_slammer (sample_mon 15 15 40) 0 sample_slam 30 15 rfl (by decide)
    (by decide) (by decide) (by decide) (by decide) (by decide)


/-! ## The divisor of the escape odds (claim C25) -/

/-- A pass of the encounter loop on the key `'3'` when the divisor of the escape odds
is zero: the division is undefined. -/
theorem iter_run_div_zero (rand : Nat → Nat) (e : Enc) (rest : List Int) (t : Pokemon)
    (hkeys : e.sys.keys = 51 :: rest) (hp : e.p_deleted = false)
    (ht : vec_at e.sys.pc.poke e.pc_poke = .ok t)
    (hd : (e.p.stat_speed.tdiv 4).tmod 256 = 0) :
    io_encounter_iter rand e = .error Fault.div_by_zero := by
  obtain ⟨⟨pc, keys, rp⟩, p, del, pcp, att, pt, ptt⟩ := e
  simp only at hkeys ht hp hd
  subst hkeys hp
  simp [io_encounter_iter, io_battle_choice_wild, ht, getch, to_char, encounter_run,
    escape_odd, int_div, Pokemon.get_speed, hd, bind, Except.bind, pure, Except.pure]

/-- Claim C25 fails: for the non-negative speeds 70000000 of the player and 40 of the
wild Pokemon the divisor is 10, in 1..255, but the `int` product `speed * 32` wraps
around to -2054967296 and the odds of the first Run are -205496699, a negative number. -/
theorem C25_odds_negative :
    ((0 : Int) ≤ 70000000 ∧ (0 : Int) ≤ 40) ∧
    ((40 : Int).tdiv 4).tmod 256 = 10 ∧
    wrap_int (70000000 * 32) = -2054967296 ∧
    escape_odd 70000000 40 1 = .ok (-205496699) ∧
    ¬ ((0 : Int) ≤ -205496699) :=
  ⟨⟨by decide, by decide⟩, by decide, by decide, rfl, by decide⟩

/-- Claim C25 as amended: the escape odds divide by `(p_speed / 4) % 256`.  For a
non-negative speed `os` of the wild Pokemon this divisor is zero exactly when `os / 4`
is a multiple of 256, in particular for every `os` in 0..3; then the odds are undefined
(division by zero) for every player speed and attempt count, and a pass of the encounter
loop on the key `'3'` does not return.  For every other non-negative `os` the divisor
lies in 1..255 and the odds are defined; with a non-negative player speed `ps` and
attempt count `a` for which neither `ps * 32` nor the sum leaves the range of `int`,
they are the exact value of the expression and non-negative. -/
theorem C25_escape_divisor (ps os a : Int) (hos : 0 ≤ os) :
    ((os.tdiv 4).tmod 256 = 0 ↔ (256 : Int) ∣ os.tdiv 4) ∧
    (os ≤ 3 → (os.tdiv 4).tmod 256 = 0) ∧
    ((os.tdiv 4).tmod 256 = 0 → escape_odd ps os a = .error Fault.div_by_zero) ∧
    ((os.tdiv 4).tmod 256 = 0 →
      ∀ (rand : Nat → Nat) (e : Enc) (rest : List Int) (t : Pokemon),
        e.p.stat_speed = os → e.sys.keys = 51 :: rest → e.p_deleted = false →
        vec_at e.sys.pc.poke e.pc_poke = .ok t →
        io_encounter_iter rand e = .error Fault.div_by_zero) ∧
    ((os.tdiv 4).tmod 256 ≠ 0 →
      1 ≤ (os.tdiv 4).tmod 256 ∧ (os.tdiv 4).tmod 256 ≤ 255 ∧
      (∃ odds, escape_odd ps os a = .ok odds) ∧
      (0 ≤ ps → ps * 32 < 2 ^ 31 → 0 ≤ a →
        (ps * 32).tdiv ((os.tdiv 4).tmod 256) + 30 * a < 2 ^ 31 →
        ∃ odds, escape_odd ps os a = .ok odds ∧
          odds = (ps * 32).tdiv ((os.tdiv 4).tmod 256) + 30 * a ∧ 0 ≤ odds)) := by
  have hq : os.tdiv 4 = os / 4 := Int.tdiv_eq_ediv hos (by norm_num)
  have hq0 : 0 ≤ os / 4 := Int.ediv_nonneg hos (by norm_num)
  have hm : (os / 4).tmod 256 = (os / 4) % 256 := Int.tmod_eq_emod hq0 (by norm_num)
  refine ⟨?_, ?_, ?_, ?_, ?_⟩
  · rw [hq, hm]
    exact Int.dvd_iff_emod_eq_zero.symm
  · intro h3
    rw [hq, hm]
    omega
  · intro hd
    simp [escape_odd, int_div, hd, bind, Except.bind]
  · intro hd rand e rest t hsp hkeys hp ht
    exact iter_run_div_zero rand e rest t hkeys hp ht (by rw [hsp]; exact hd)
  · intro hd
    have hpos := escape_divisor_pos os hos hd
    have hlt : (os.tdiv 4).tmod 256 < 256 := by
      rw [hq, hm]
      exact Int.emod_lt_of_pos _ (by norm_num)
    refine ⟨by omega, by omega, ?_, ?_⟩
    · refine ⟨wrap_int ((wrap_int (ps * 32)).tdiv ((os.tdiv 4).tmod 256) +
        wrap_int (30 * a)), ?_⟩
      simp only [escape_odd, bind, Except.bind, pure, Except.pure,
        int_div_ok (wrap_int (ps * 32)) ((os.tdiv 4).tmod 256) hd (fun h => by omega)]
    · intro hps hs ha hsum
      refine ⟨_, escape_odd_in_range ps os a hps hs hos hd ha hsum, rfl, ?_⟩
      have := Int.tdiv_nonneg (a := ps * 32) (b := (os.tdiv 4).tmod 256) (by omega) (by omega)
      omega

/-- Witness of C25 as amended: a wild Pokemon of speed 2 (divisor 0) for a player of
speed 10 at the first attempt, and a wild Pokemon of speed 40 (divisor 10, odds 62). -/
theorem C25_escape_divisor_witness :
    io_encounter_iter rand_zero
        (encounter_init (Sys.mk sample_pc_hurt [51, 32] 0) (sample_mon 15 15 2)) =
      .error Fault.div_by_zero ∧
    escape_odd 10 2 1 = .error Fault.div_by_zero ∧
    (1 ≤ ((40 : Int).tdiv 4).tmod 256 ∧ ((40 : Int).tdiv 4).tmod 256 ≤ 255 ∧
      (∃ odds, escape_odd 10 40 1 = .ok odds) ∧
      ((0 : Int) ≤ 10 → (10 : Int) * 32 < 2 ^ 31 → (0 : Int) ≤ 1 →
        ((10 : Int) * 32).tdiv (((40 : Int).tdiv 4).tmod 256) + 30 * 1 < 2 ^ 31 →
        ∃ odds, escape_odd 10 40 1 = .ok odds ∧
          odds = ((10 : Int) * 32).tdiv (((40 : Int).tdiv 4).tmod 256) + 30 * 1 ∧ 0 ≤ odds)) :=
  ⟨(C25_escape_divisor 10 2 1 (by decide)).2.2.2.1 (by decide) rand_zero
      (encounter_init (Sys.mk sample_pc_hurt [51, 32] 0) (sample_mon 15 15 2)) [32]
      (sample_mon 35 50 10) rfl rfl rfl rfl,
    (C25_escape_divisor 10 2 1 (by decide)).2.2.1 (by decide),
    (C25_escape_divisor 10 40 1 (by decide)).2.2.2.2 (by decide)⟩

/-! ## The passes of the battle loop -/

/-- A pass of the battle loop that returns has read a key with both active Pokemon in
range, and is either a Fight, which ends in `continue` or goes on to the scan of the
trainer's party, or another action, which leaves the trainer, `trainer_poke` and the
turn flags as they were and goes on to the scan. -/
theorem battle_iter_cases (rand : Nat → Nat) (b b' : Bat)
    (h : io_battle_iter rand b = .ok b') :
    ∃ (k : Int) (rest : List Int) (t n : Pokemon),
      b.sys.keys = k :: rest ∧ vec_at b.sys.pc.poke b.pc_poke = .ok t ∧
      vec_at b.npc.poke b.trainer_poke = .ok n ∧
      ((to_char k = 49 ∧ ∃ (j : Jump) (b1 : Bat),
          battle_fight rand ((rand b.sys.rand_pos : Int).tmod 100)
            { b with sys := { b.sys with keys := rest, rand_pos := b.sys.rand_pos + 1 } } =
              .ok (j, b1) ∧
          ((j = Jump.cont ∧ b' = b1) ∨ (j = Jump.fall ∧ battle_scan b1 = .ok b'))) ∨
        (to_char k ≠ 49 ∧ ∃ b1 : Bat, b1.npc = b.npc ∧ b1.trainer_poke = b.trainer_poke ∧
          b1.pc_turn = b.pc_turn ∧ b1.npc_turn = b.npc_turn ∧ battle_scan b1 = .ok b')) := by
  obtain ⟨⟨pc, keys, rp⟩, npc, tp, pcp, pt, nt⟩ := b
  cases ht : vec_at pc.poke pcp with
  | error f => simp [io_battle_iter, io_battle_choice_trainer, ht, bind, Except.bind] at h
  | ok t =>
    cases hn : vec_at npc.poke tp with
    | error f =>
      simp [io_battle_iter, io_battle_choice_trainer, ht, hn, bind, Except.bind] at h
    | ok n =>
      cases keys with
      | nil =>
        simp [io_battle_iter, io_battle_choice_trainer, ht, hn, getch, bind, Except.bind,
          pure, Except.pure] at h
      | cons k rest =>
        refine ⟨k, rest, t, n, rfl, rfl, rfl, ?_⟩
        simp only [io_battle_iter, io_battle_choice_trainer, ht, hn, getch, next_rand, bind,
          Except.bind, pure, Except.pure] at h
        by_cases h49 : to_char k = 49
        · left
          refine ⟨h49, ?_⟩
          simp only [h49, if_true] at h
          split at h
          · cases h
          · next x r hact =>
            obtain ⟨j, b1⟩ := r
            refine ⟨j, b1, hact, ?_⟩
            cases j with
            | cont =>
              simp only at h
              cases h
              exact Or.inl ⟨rfl, rfl⟩
            | fall =>
              simp only at h
              exact Or.inr ⟨rfl, h⟩
        · right
          refine ⟨h49, ?_⟩
          simp only [h49, if_false] at h
          split at h
          · cases h
          · next x r hact =>
            obtain ⟨j, b1⟩ := r
            have hj : j = Jump.fall ∧ b1.npc = npc ∧ b1.trainer_poke = tp ∧
                b1.pc_turn = pt ∧ b1.npc_turn = nt := by
              split at hact
              · simp only [Except.map] at hact
                split at hact
                · cases hact
                · cases hact
                  exact ⟨rfl, rfl, rfl, rfl, rfl⟩
              · split at hact
                · simp only [Except.map] at hact
                  split at hact
                  · cases hact
                  · cases hact
                    exact ⟨rfl, rfl, rfl, rfl, rfl⟩
                · cases hact
                  exact ⟨rfl, rfl, rfl, rfl, rfl⟩
            obtain ⟨hj1, hj2, hj3, hj4, hj5⟩ := hj
            subst hj1
            simp only at h
            exact ⟨b1, hj2, hj3, hj4, hj5, h⟩

/-- A Fight of a trainer battle with a knocked active Pokemon reads one key and ends in
`continue`: no random value is drawn and nothing else changes. -/
theorem battle_fight_knocked (rand : Nat → Nat) (move_hit : Int) (b : Bat) (t : Pokemon)
    (ht : vec_at b.sys.pc.poke b.pc_poke = .ok t) (hk : t.is_knocked = true) :
    battle_fight rand move_hit b =
      (getch b.sys).map (fun ks => (Jump.cont, { b with sys := ks.2 })) := by
  simp only [battle_fight, ht, hk, bind, Except.bind, pure, Except.pure, if_true]
  cases getch b.sys <;> rfl

/-- A Fight of a trainer battle with a non-knocked active Pokemon that returns goes on
to the scan of the trainer's party. -/
theorem battle_fight_fall (rand : Nat → Nat) (move_hit : Int) (b : Bat) (t : Pokemon)
    (j : Jump) (b' : Bat)
    (ht : vec_at b.sys.pc.poke b.pc_poke = .ok t) (hk : t.is_knocked = false)
    (h : battle_fight rand move_hit b = .ok (j, b')) : j = Jump.fall := by
  cases hn : vec_at b.npc.poke b.trainer_poke with
  | error f => simp [battle_fight, ht, hk, hn, bind, Except.bind] at h
  | ok n =>
    by_cases hturn : b.pc_turn ≠ 0
    · exact (battle_fight_pc_turn rand move_hit b t n j b' ht hk hn hturn h).1
    · have hturn0 : b.pc_turn = 0 := by simpa using hturn
      by_cases hp : b.npc_turn ≠ 0
      · exact (battle_fight_npc_turn rand move_hit b t n j b' ht hk hn hturn0 hp h).1
      · have hp0 : b.npc_turn = 0 := by simpa using hp
        obtain ⟨f, hf⟩ := battle_fight_no_turn rand move_hit b t n ht hk hn hturn0 hp0
        rw [hf] at h
        cases h

/-- The scan at the end of the body of the battle loop: `trainer_poke` moves forward
over knocked members and stops at the first member that is not knocked or at
`num_poke`; the trainer is marked defeated exactly when it stops at `num_poke`. -/
theorem battle_scan_least (b b' : Bat) (h : battle_scan b = .ok b') :
    b'.sys = b.sys ∧ b'.pc_poke = b.pc_poke ∧ b'.pc_turn = b.pc_turn ∧
      b'.npc_turn = b.npc_turn ∧ b'.npc.poke = b.npc.poke ∧
      b'.npc.num_poke = b.npc.num_poke ∧
      b.trainer_poke ≤ b'.trainer_poke ∧
      (b'.trainer_poke ≤ b.npc.num_poke ∨ b'.trainer_poke = b.trainer_poke) ∧
      (b'.trainer_poke < b.npc.num_poke →
        ∃ t, vec_at b.npc.poke b'.trainer_poke = .ok t ∧ t.is_knocked = false) ∧
      (∀ j, b.trainer_poke ≤ j → j < b'.trainer_poke →
        ∃ t, vec_at b.npc.poke j = .ok t ∧ t.is_knocked = true) ∧
      ((b'.trainer_poke = b.npc.num_poke ∧ b'.npc.defeated = 1) ∨
        (b'.trainer_poke ≠ b.npc.num_poke ∧ b'.npc.defeated = b.npc.defeated)) := by
  simp only [battle_scan, bind, Except.bind, pure, Except.pure] at h
  split at h
  · cases h
  · next x tp hscan =>
    obtain ⟨h1, h2, h3, h4⟩ := scan_trainer_ok _ _ _ _ hscan
    split at h
    · next heq =>
      cases h
      refine ⟨rfl, rfl, rfl, rfl, ?_, ?_, h1, h2, h3, h4, Or.inl ⟨heq, ?_⟩⟩
      all_goals split <;> rfl
    · next hne =>
      cases h
      exact ⟨rfl, rfl, rfl, rfl, rfl, rfl, h1, h2, h3, h4, Or.inr ⟨hne, rfl⟩⟩

/-- A pass of the battle loop that is not a rejected Fight ends with the scan of the
trainer's party, run on a state in which `trainer_poke`, `num_poke` and `defeated` are
as at the start of the pass. -/
theorem battle_iter_scan (rand : Nat → Nat) (b b' : Bat)
    (h : io_battle_iter rand b = .ok b') (hproc : rejects_fight b = false) :
    ∃ b1 : Bat, b1.trainer_poke = b.trainer_poke ∧ b1.npc.num_poke = b.npc.num_poke ∧
      b1.npc.defeated = b.npc.defeated ∧ battle_scan b1 = .ok b' := by
  obtain ⟨k, rest, t, n, hkeys, ht, hn, hc⟩ := battle_iter_cases rand b b' h
  rcases hc with ⟨h49, j, b1, hf, hj⟩ | ⟨-, b1, h1, h2, -, -, h5⟩
  · have hk : t.is_knocked = false := by
      simpa [rejects_fight, hkeys, ht, h49] using hproc
    have hfall := battle_fight_fall rand _
      (Bat.mk (Sys.mk b.sys.pc rest (b.sys.rand_pos + 1)) b.npc b.trainer_poke b.pc_poke
      b.pc_turn b.npc_turn) t j b1 ht hk hf
    obtain ⟨hf1, hf2⟩ := battle_fight_npc rand _
      (Bat.mk (Sys.mk b.sys.pc rest (b.sys.rand_pos + 1)) b.npc b.trainer_poke b.pc_poke
      b.pc_turn b.npc_turn) j b1 hf
    rcases hj with ⟨hj, -⟩ | ⟨-, hscan⟩
    · rw [hfall] at hj
      cases hj
    · refine ⟨b1, hf1, ?_, ?_, hscan⟩
      · rcases hf2 with hf2 | ⟨n', hf2⟩ <;> rw [hf2]
      · rcases hf2 with hf2 | ⟨n', hf2⟩ <;> rw [hf2]
  · exact ⟨b1, h2, by rw [h1], by rw [h1], h5⟩

/-- A pass of the battle loop that is a rejected Fight changes neither the trainer nor
`trainer_poke`, the turn flags, the player or `pc_poke`. -/
theorem battle_iter_rejected (rand : Nat → Nat) (b b' : Bat)
    (h : io_battle_iter rand b = .ok b') (hrej : rejects_fight b = true) :
    b'.npc = b.npc ∧ b'.trainer_poke = b.trainer_poke ∧ b'.pc_turn = b.pc_turn ∧
      b'.npc_turn = b.npc_turn ∧ b'.sys.pc = b.sys.pc ∧ b'.pc_poke = b.pc_poke := by
  obtain ⟨k, rest, t, n, hkeys, ht, hn, hc⟩ := battle_iter_cases rand b b' h
  have hr : to_char k = 49 ∧ t.is_knocked = true := by
    simpa [rejects_fight, hkeys, ht] using hrej
  rcases hc with ⟨-, j, b1, hf, hj⟩ | ⟨h49, -⟩
  · rw [battle_fight_knocked rand _
      (Bat.mk (Sys.mk b.sys.pc rest (b.sys.rand_pos + 1)) b.npc b.trainer_poke b.pc_poke
      b.pc_turn b.npc_turn) t ht hr.2] at hf
    cases hg : getch { b.sys with keys := rest, rand_pos := b.sys.rand_pos + 1 } with
    | error f =>
      simp only [hg, Except.map] at hf
      cases hf
    | ok ks =>
      obtain ⟨-, hpc, -⟩ := getch_ok _ _ _ hg
      simp only [hg, Except.map, Except.ok.injEq, Prod.mk.injEq] at hf
      obtain ⟨hf1, hf2⟩ := hf
      subst hf1 hf2
      rcases hj with ⟨-, hj⟩ | ⟨hj, -⟩
      · subst hj
        exact ⟨rfl, rfl, rfl, rfl, hpc, rfl⟩
      · cases hj
  · exact absurd hr.1 h49

/-! ## The trainer's active Pokemon (claim C21) -/

/-- Claim C21: over a pass of the battle loop `trainer_poke` never decreases and
`num_poke` is kept.  A Fight rejected with `continue` skips the scan and leaves
`trainer_poke` and the trainer as they were.  After every other pass, with the party as
the action left it: every member from the former `trainer_poke` up to the new one is
knocked, a new `trainer_poke` below `num_poke` names a member that is not knocked, so it
is the smallest index not below the former value whose member is not knocked; it is
`num_poke` when there is no such index below `num_poke`; it is unchanged when the member
at the former `trainer_poke` is not knocked; and for a trainer not yet defeated,
`defeated` is 1 after the pass exactly when `trainer_poke` is `num_poke`. -/
theorem C21_trainer_scan (rand : Nat → Nat) (b b' : Bat)
    (h : io_battle_iter rand b = .ok b') :
    b.trainer_poke ≤ b'.trainer_poke ∧ b'.npc.num_poke = b.npc.num_poke ∧
    (rejects_fight b = true → b'.trainer_poke = b.trainer_poke ∧ b'.npc = b.npc) ∧
    (rejects_fight b = false →
      (∀ j, b.trainer_poke ≤ j → j < b'.trainer_poke →
        ∃ t, vec_at b'.npc.poke j = .ok t ∧ t.is_knocked = true) ∧
      (b'.trainer_poke < b.npc.num_poke →
        ∃ t, vec_at b'.npc.poke b'.trainer_poke = .ok t ∧ t.is_knocked = false) ∧
      (∀ j, b.trainer_poke ≤ j →
        (∃ t, vec_at b'.npc.poke j = .ok t ∧ t.is_knocked = false) → b'.trainer_poke ≤ j) ∧
      (b.trainer_poke ≤ b.npc.num_poke → b'.trainer_poke ≤ b.npc.num_poke) ∧
      (b.trainer_poke ≤ b.npc.num_poke →
        (∀ j, b.trainer_poke ≤ j → j < b.npc.num_poke →
          ¬ ∃ t, vec_at b'.npc.poke j = .ok t ∧ t.is_knocked = false) →
        b'.trainer_poke = b.npc.num_poke) ∧
      ((∃ t, vec_at b'.npc.poke b.trainer_poke = .ok t ∧ t.is_knocked = false) →
        b'.trainer_poke = b.trainer_poke) ∧
      (b.npc.defeated = 0 → (b'.npc.defeated = 1 ↔ b'.trainer_poke = b.npc.num_poke))) := by
  cases hrej : rejects_fight b with
  | true =>
    obtain ⟨r1, r2, -⟩ := battle_iter_rejected rand b b' h hrej
    exact ⟨by rw [r2], by rw [r1], fun _ => ⟨r2, r1⟩, fun hc => (by cases hc)⟩
  | false =>
    obtain ⟨b1, e1, e2, e3, hscan⟩ := battle_iter_scan rand b b' h hrej
    obtain ⟨-, -, -, -, s5, s6, s7, s8, s9, s10, s11⟩ := battle_scan_least b1 b' hscan
    rw [e1] at s7 s8 s10
    rw [e2] at s8 s9 s11
    rw [e3] at s11
    rw [← s5] at s9 s10
    have hleast : ∀ j, b.trainer_poke ≤ j →
        (∃ t, vec_at b'.npc.poke j = .ok t ∧ t.is_knocked = false) → b'.trainer_poke ≤ j := by
      intro j hj ⟨t, ht, hk⟩
      by_contra hlt
      obtain ⟨t', ht', hk'⟩ := s10 j hj (by omega)
      rw [ht] at ht'
      cases ht'
      rw [hk] at hk'
      cases hk'
    refine ⟨s7, by rw [s6, e2], fun hc => (by cases hc), fun _ =>
      ⟨s10, s9, hleast, ?_, ?_, ?_, ?_⟩⟩
    · intro htp
      rcases s8 with s8 | s8 <;> omega
    · intro htp hnone
      by_contra hne
      have hlt : b'.trainer_poke < b.npc.num_poke := by
        rcases s8 with s8 | s8 <;> omega
      exact hnone b'.trainer_poke s7 hlt (s9 hlt)
    · intro hnk
      have := hleast b.trainer_poke (le_refl _) hnk
      omega
    · intro hdef
      rcases s11 with ⟨t1, t2⟩ | ⟨t1, t2⟩
      · exact ⟨fun _ => t1, fun _ => t2⟩
      · constructor
        · intro h1
          rw [t2, hdef] at h1
          cases h1
        · intro h1
          exact absurd h1 t1

/-- Witness of C21: the trainer's first Pokemon has hp 4 and the second hp 20; the
player's attack of the first pass knocks the first, and the scan moves `trainer_poke`
from 0 to 1, below `num_poke = 2`, with `defeated` still 0. -/
theorem C21_trainer_scan_witness :
    io_battle_iter rand_zero
        (battle_init (Sys.mk sample_pc_hurt [49, 49, 32] 0)
          { sample_trainer with poke := [sample_trainer_mon 4 20, sample_trainer_mon 20 20] }) =
      .ok { battle_init (Sys.mk sample_pc_hurt [] 4)
              { sample_trainer with
                poke := [sample_trainer_mon 0 20, sample_trainer_mon 20 20] } with
            trainer_poke := 1, pc_turn := 0, npc_turn := 1 } ∧
    ((0 : Int) ≤ 1 ∧ (2 : Int) = 2) ∧
    (∀ j : Int, 0 ≤ j → j < 1 →
      ∃ t, vec_at [sample_trainer_mon 0 20, sample_trainer_mon 20 20] j = .ok t ∧
        t.is_knocked = true) ∧
    ((1 : Int) < 2 →
      ∃ t, vec_at [sample_trainer_mon 0 20, sample_trainer_mon 20 20] 1 = .ok t ∧
        t.is_knocked = false) ∧
    ((0 : Int) = 0 → ((0 : Int) = 1 ↔ (1 : Int) = 2)) :=
  have h := C21_trainer_scan rand_zero
    (battle_init (Sys.mk sample_pc_hurt [49, 49, 32] 0)
      { sample_trainer with poke := [sample_trainer_mon 4 20, sample_trainer_mon 20 20] })
    { battle_init (Sys.mk sample_pc_hurt [] 4)
        { sample_trainer with
          poke := [sample_trainer_mon 0 20, sample_trainer_mon 20 20] } with
      trainer_poke := 1, pc_turn := 0, npc_turn := 1 } rfl
  ⟨rfl, ⟨h.1, h.2.1⟩, (h.2.2.2 rfl).1, (h.2.2.2 rfl).2.1, (h.2.2.2 rfl).2.2.2.2.2.2⟩


/-! ## No attack by or against a knocked Pokemon (claim C22) -/

/-- A property of the states of a trainer battle that holds in the first state and is
kept by every pass that returns with the trainer not defeated holds at the start of
every pass, where moreover `defeated` is 0. -/
theorem battle_passes_induction (rand : Nat → Nat) (P : Bat → Prop)
    (hstep : ∀ b b', b.npc.defeated = 0 → P b → io_battle_iter rand b = .ok b' →
      b'.npc.defeated = 0 → P b')
    (fuel : Nat) : ∀ b, (b.npc.defeated = 0 → P b) →
    ∀ x ∈ io_battle_passes rand fuel b, P x ∧ x.npc.defeated = 0 := by
  induction fuel with
  | zero =>
    intro b _ x hx
    simp [io_battle_passes] at hx
  | succ n ih =>
    intro b hb x hx
    simp only [io_battle_passes] at hx
    split at hx
    · next hdef =>
      rcases List.mem_cons.mp hx with hx | hx
      · subst hx
        exact ⟨hb hdef, hdef⟩
      · split at hx
        · next b1 hiter =>
          exact ih b1 (fun hd1 => hstep b b1 hdef (hb hdef) hiter hd1) x hx
        · simp at hx
    · simp at hx

/-- The recorded states follow one another by passes of the loop body. -/
theorem battle_passes_chain (rand : Nat → Nat) (fuel : Nat) : ∀ (b : Bat),
    List.Chain' (fun x y => io_battle_iter rand x = .ok y) (io_battle_passes rand fuel b) ∧
      ∀ x, (io_battle_passes rand fuel b).head? = some x → x = b := by
  induction fuel with
  | zero =>
    intro b
    simp [io_battle_passes]
  | succ n ih =>
    intro b
    simp only [io_battle_passes]
    split
    · next hdef =>
      refine ⟨?_, fun x hx => (by simpa using hx.symm)⟩
      cases hiter : io_battle_iter rand b with
      | error f => simp
      | ok b1 =>
        simp only
        obtain ⟨h1, h2⟩ := ih b1
        rw [List.chain'_cons']
        refine ⟨fun y hy => ?_, h1⟩
        rw [h2 y hy]
        exact hiter
    · simp

/-- The state in which the battle loop returns is the state it started in, when the
trainer is defeated from the start, or the result of the pass from a recorded state. -/
theorem battle_passes_loop (rand : Nat → Nat) (fuel : Nat) : ∀ (b b' : Bat),
    io_battle_loop rand fuel b = .ok b' →
    (b.npc.defeated ≠ 0 ∧ b' = b) ∨
      ∃ x ∈ io_battle_passes rand fuel b, io_battle_iter rand x = .ok b' := by
  induction fuel with
  | zero =>
    intro b b' h
    simp only [io_battle_loop] at h
    split at h
    · cases h
    · next hdef =>
      cases h
      exact Or.inl ⟨hdef, rfl⟩
  | succ n ih =>
    intro b b' h
    simp only [io_battle_loop, bind, Except.bind, pure, Except.pure] at h
    split at h
    · next hdef =>
      split at h
      · cases h
      · next x b1 hiter =>
        right
        simp only [io_battle_passes, hdef, if_true, hiter]
        rcases ih b1 b' h with ⟨-, h2⟩ | ⟨x, hx, hxi⟩
        · subst h2
          exact ⟨b, List.mem_cons_self _ _, hiter⟩
        · exact ⟨x, List.mem_cons_of_mem _ hx, hxi⟩
    · next hdef =>
      cases h
      exact Or.inl ⟨hdef, rfl⟩

/-- A Fight of the wild encounter with a knocked active Pokemon reads one key and ends
in `continue`: no random value is drawn and nothing else changes. -/
theorem encounter_fight_knocked (rand : Nat → Nat) (e : Enc) (t : Pokemon)
    (ht : vec_at e.sys.pc.poke e.pc_poke = .ok t) (hk : t.is_knocked = true) :
    encounter_fight rand e =
      (getch e.sys).map (fun ks => (Ctl.next, { e with sys := ks.2 })) := by
  simp only [encounter_fight, ht, hk, bind, Except.bind, pure, Except.pure, if_true]
  cases getch e.sys <;> rfl

/-- A Fight of the wild encounter with a non-knocked active Pokemon against a knocked
wild Pokemon deletes the wild Pokemon and leaves the loop. -/
theorem encounter_fight_wild_knocked (rand : Nat → Nat) (e : Enc) (t : Pokemon)
    (ht : vec_at e.sys.pc.poke e.pc_poke = .ok t) (hk : t.is_knocked = false)
    (hpk : e.p.is_knocked = true) :
    encounter_fight rand e = .ok (Ctl.exit, { e with p_deleted := true }) := by
  simp [encounter_fight, ht, hk, hpk, bind, Except.bind, pure, Except.pure]

/-- A pass of the battle loop that returns with the trainer not defeated keeps
`trainer_poke` at most `num_poke` and on a member that is not knocked. -/
theorem battle_iter_active (rand : Nat → Nat) (b b' : Bat)
    (h : io_battle_iter rand b = .ok b') (hdef : b'.npc.defeated = 0)
    (hinv : b.trainer_poke ≤ b.npc.num_poke ∧
      ∃ n, vec_at b.npc.poke b.trainer_poke = .ok n ∧ n.is_knocked = false) :
    b'.trainer_poke ≤ b'.npc.num_poke ∧
      ∃ n, vec_at b'.npc.poke b'.trainer_poke = .ok n ∧ n.is_knocked = false := by
  cases hrej : rejects_fight b with
  | true =>
    obtain ⟨r1, r2, -⟩ := battle_iter_rejected rand b b' h hrej
    rw [r1, r2]
    exact hinv
  | false =>
    obtain ⟨b1, e1, e2, e3, hscan⟩ := battle_iter_scan rand b b' h hrej
    obtain ⟨-, -, -, -, s5, s6, s7, s8, s9, s10, s11⟩ := battle_scan_least b1 b' hscan
    rw [e1] at s7 s8
    rw [e2] at s8 s9 s11
    rw [← s5] at s9
    have hne : b'.trainer_poke ≠ b.npc.num_poke := by
      rcases s11 with ⟨-, t2⟩ | ⟨t1, -⟩
      · rw [hdef] at t2
        cases t2
      · exact t1
    have hlt : b'.trainer_poke < b.npc.num_poke := by
      rcases s8 with s8 | s8 <;> omega
    exact ⟨by rw [s6, e2]; omega, s9 hlt⟩

/-- Claim C22: no attack is resolved by or against a knocked Pokemon.  In the wild
encounter a Fight with a knocked active Pokemon of the player reads a key and goes back
to the menu, and a Fight that passes this check against a knocked wild Pokemon deletes
it and leaves the loop; so a Fight that returns with a turn flag changed or a random
value drawn had both Pokemon not knocked.  In a trainer battle a Fight with a knocked
active Pokemon of the player reads a key and ends in `continue`, so a Fight that returns
with a turn flag changed had the player's active Pokemon not knocked; and in a battle
against a trainer with `0 ≤ num_poke` whose first Pokemon is not knocked, the trainer's
active Pokemon `npc->poke.at(trainer_poke)` is not knocked at the start of every pass of
the loop. -/
theorem C22_no_attack_on_knocked (rand : Nat → Nat) :
    (∀ (e : Enc) (t : Pokemon), vec_at e.sys.pc.poke e.pc_poke = .ok t →
      t.is_knocked = true →
      encounter_fight rand e =
        (getch e.sys).map (fun ks => (Ctl.next, { e with sys := ks.2 }))) ∧
    (∀ (e : Enc) (t : Pokemon), vec_at e.sys.pc.poke e.pc_poke = .ok t →
      t.is_knocked = false → e.p.is_knocked = true →
      encounter_fight rand e = .ok (Ctl.exit, { e with p_deleted := true })) ∧
    (∀ (e : Enc) (t : Pokemon) (c : Ctl) (e' : Enc),
      vec_at e.sys.pc.poke e.pc_poke = .ok t → encounter_fight rand e = .ok (c, e') →
      (e'.pc_turn ≠ e.pc_turn ∨ e'.p_turn ≠ e.p_turn ∨ e'.sys.rand_pos ≠ e.sys.rand_pos) →
      t.is_knocked = false ∧ e.p.is_knocked = false) ∧
    (∀ (move_hit : Int) (b : Bat) (t : Pokemon), vec_at b.sys.pc.poke b.pc_poke = .ok t →
      t.is_knocked = true →
      battle_fight rand move_hit b =
        (getch b.sys).map (fun ks => (Jump.cont, { b with sys := ks.2 }))) ∧
    (∀ (move_hit : Int) (b : Bat) (t : Pokemon) (j : Jump) (b' : Bat),
      vec_at b.sys.pc.poke b.pc_poke = .ok t → battle_fight rand move_hit b = .ok (j, b') →
      (b'.pc_turn ≠ b.pc_turn ∨ b'.npc_turn ≠ b.npc_turn) → t.is_knocked = false) ∧
    (∀ (s : Sys) (npc : Npc) (n0 : Pokemon) (fuel : Nat), 0 ≤ npc.num_poke →
      vec_at npc.poke 0 = .ok n0 → n0.is_knocked = false →
      ∀ b ∈ io_battle_passes rand fuel (battle_init s npc),
        ∃ n, vec_at b.npc.poke b.trainer_poke = .ok n ∧ n.is_knocked = false) := by
  refine ⟨fun e t ht hk => encounter_fight_knocked rand e t ht hk,
    fun e t ht hk hpk => encounter_fight_wild_knocked rand e t ht hk hpk, ?_,
    fun move_hit b t ht hk => battle_fight_knocked rand move_hit b t ht hk, ?_, ?_⟩
  · intro e t c e' ht h hch
    cases hk : t.is_knocked with
    | true =>
      exfalso
      rw [encounter_fight_knocked rand e t ht hk] at h
      cases hg : getch e.sys with
      | error f =>
        simp only [hg, Except.map] at h
        cases h
      | ok ks =>
        obtain ⟨-, -, hrp⟩ := getch_ok _ _ _ hg
        simp only [hg, Except.map, Except.ok.injEq, Prod.mk.injEq] at h
        obtain ⟨-, h2⟩ := h
        subst h2
        rcases hch with hch | hch | hch
        · exact hch rfl
        · exact hch rfl
        · exact hch hrp
    | false =>
      cases hpk : e.p.is_knocked with
      | true =>
        exfalso
        rw [encounter_fight_wild_knocked rand e t ht hk hpk] at h
        simp only [Except.ok.injEq, Prod.mk.injEq] at h
        obtain ⟨-, h2⟩ := h
        subst h2
        rcases hch with hch | hch | hch <;> exact hch rfl
      | false => exact ⟨rfl, rfl⟩
  · intro move_hit b t j b' ht h hch
    cases hk : t.is_knocked with
    | true =>
      exfalso
      rw [battle_fight_knocked rand move_hit b t ht hk] at h
      cases hg : getch b.sys with
      | error f =>
        simp only [hg, Except.map] at h
        cases h
      | ok ks =>
        simp only [hg, Except.map, Except.ok.injEq, Prod.mk.injEq] at h
        obtain ⟨-, h2⟩ := h
        subst h2
        rcases hch with hch | hch <;> exact hch rfl
    | false => rfl
  · intro s npc n0 fuel hnum hn0 hk0 b hb
    exact ((battle_passes_induction rand
      (fun b => b.trainer_poke ≤ b.npc.num_poke ∧
        ∃ n, vec_at b.npc.poke b.trainer_poke = .ok n ∧ n.is_knocked = false)
      (fun b b' _ hP hiter hd1 => battle_iter_active rand b b' hiter hd1 hP)
      fuel (battle_init s npc) (fun _ => ⟨hnum, n0, hn0, hk0⟩) b hb).1).2

/-- Witness of C22: a wild Fight selected with the wild Pokemon knocked ends the
encounter with no attack, and in the battle of the witness of C21 the second pass
begins with `trainer_poke = 1` on the trainer's second Pokemon, which is not knocked. -/
theorem C22_no_attack_on_knocked_witness :
    encounter_fight rand_zero
        (encounter_init (Sys.mk sample_pc_hurt [49] 0) (sample_mon 0 15 40)) =
      .ok (Ctl.exit,
        { encounter_init (Sys.mk sample_pc_hurt [49] 0) (sample_mon 0 15 40) with
          p_deleted := true }) ∧
    ∃ n, vec_at [sample_trainer_mon 0 20, sample_trainer_mon 20 20] 1 = .ok n ∧
      n.is_knocked = false :=
  have h := C22_no_attack_on_knocked rand_zero
  ⟨h.2.1 (encounter_init (Sys.mk sample_pc_hurt [49] 0) (sample_mon 0 15 40))
      (sample_mon 35 50 10) rfl rfl rfl,
    h.2.2.2.2.2 (Sys.mk sample_pc_hurt [49, 49, 32, 50] 0)
      { sample_trainer with poke := [sample_trainer_mon 4 20, sample_trainer_mon 20 20] }
      (sample_trainer_mon 4 20) 2 (by decide) rfl rfl
      { battle_init (Sys.mk sample_pc_hurt [50] 4)
          { sample_trainer with
            poke := [sample_trainer_mon 0 20, sample_trainer_mon 20 20] } with
        trainer_poke := 1, pc_turn := 0, npc_turn := 1 }
      (List.Mem.tail _ (List.Mem.head _))⟩


/-! ## The turn flags of a trainer battle (claim C24) -/

/-- A pass of the battle loop from a state with exactly one turn flag set: a pass that
reaches the attacks of the Fight action resolves the attack of the side whose flag is
set, leaves the other side's party as it was and hands the turn over; any other pass
leaves the flags as they were. -/
theorem battle_iter_turn (rand : Nat → Nat) (b b' : Bat) (t n : Pokemon)
    (h : io_battle_iter rand b = .ok b')
    (ht : vec_at b.sys.pc.poke b.pc_poke = .ok t)
    (hn : vec_at b.npc.poke b.trainer_poke = .ok n)
    (hone : (b.pc_turn = 1 ∧ b.npc_turn = 0) ∨ (b.pc_turn = 0 ∧ b.npc_turn = 1)) :
    (resolves_fight b = false → b'.pc_turn = b.pc_turn ∧ b'.npc_turn = b.npc_turn) ∧
    (resolves_fight b = true →
      (b.pc_turn = 1 →
        b'.pc_turn = 0 ∧ b'.npc_turn = 1 ∧ b'.sys.pc = b.sys.pc ∧
          ∃ n', (n' = n ∨ ∃ damage, n' = n.subtract_hp damage) ∧
            b'.npc.poke = b.npc.poke.set b.trainer_poke.toNat n') ∧
      (b.pc_turn = 0 →
        b'.pc_turn = 1 ∧ b'.npc_turn = 0 ∧ b'.npc.poke = b.npc.poke ∧
          ∃ t', (t' = t ∨ ∃ damage, t' = t.subtract_hp damage) ∧
            b'.sys.pc = set_poke b.sys.pc b.pc_poke t')) := by
  obtain ⟨k, rest, t0, n0, hkeys, ht0, hn0, hc⟩ := battle_iter_cases rand b b' h
  rw [ht] at ht0
  rw [hn] at hn0
  cases ht0
  cases hn0
  rcases hc with ⟨h49, j, b1, hf, hj⟩ | ⟨h49, b1, h1, h2, h3, h4, hscan⟩
  · cases hk : t.is_knocked with
    | true =>
      have hres : resolves_fight b = false := by
        simp [resolves_fight, hkeys, ht, hk]
      have hrej : rejects_fight b = true := by
        simp [rejects_fight, hkeys, ht, hk, h49]
      obtain ⟨-, -, r3, r4, -⟩ := battle_iter_rejected rand b b' h hrej
      exact ⟨fun _ => ⟨r3, r4⟩, fun hc => (by rw [hres] at hc; cases hc)⟩
    | false =>
      have hres : resolves_fight b = true := by
        simp [resolves_fight, hkeys, ht, hk, h49]
      have hfall := battle_fight_fall rand _
        (Bat.mk (Sys.mk b.sys.pc rest (b.sys.rand_pos + 1)) b.npc b.trainer_poke b.pc_poke
          b.pc_turn b.npc_turn) t j b1 ht hk hf
      have hscan : battle_scan b1 = .ok b' := by
        rcases hj with ⟨hj, -⟩ | ⟨-, hscan⟩
        · rw [hfall] at hj
          cases hj
        · exact hscan
      obtain ⟨s1, -, s3, s4, s5, -⟩ := battle_scan_least b1 b' hscan
      refine ⟨fun hc => (by rw [hres] at hc; cases hc), fun _ => ⟨?_, ?_⟩⟩
      · intro hpt
        obtain ⟨-, f1, f2, f3, -, -, n', f4, f5⟩ := battle_fight_pc_turn rand _
          (Bat.mk (Sys.mk b.sys.pc rest (b.sys.rand_pos + 1)) b.npc b.trainer_poke b.pc_poke
            b.pc_turn b.npc_turn) t n j b1 ht hk hn (by simp only; omega) hf
        exact ⟨by rw [s3, f1], by rw [s4, f2], by rw [s1, f3], n', f4, by rw [s5, f5]⟩
      · intro hpt
        have hnt : b.npc_turn ≠ 0 := by
          rcases hone with ⟨h1, -⟩ | ⟨-, h2⟩ <;> omega
        obtain ⟨-, f1, f2, f3, -, -, t', f4, f5⟩ := battle_fight_npc_turn rand _
          (Bat.mk (Sys.mk b.sys.pc rest (b.sys.rand_pos + 1)) b.npc b.trainer_poke b.pc_poke
            b.pc_turn b.npc_turn) t n j b1 ht hk hn hpt hnt hf
        exact ⟨by rw [s3, f1], by rw [s4, f2], by rw [s5, f3], t', f4, by rw [s1, f5]⟩
  · have hres : resolves_fight b = false := by
      simp [resolves_fight, hkeys, ht, h49]
    obtain ⟨-, -, s3, s4, -⟩ := battle_scan_least b1 b' hscan
    exact ⟨fun _ => ⟨by rw [s3, h3], by rw [s4, h4]⟩,
      fun hc => (by rw [hres] at hc; cases hc)⟩

/-- A pass of the battle loop keeps exactly one turn flag set. -/
theorem battle_iter_one_flag (rand : Nat → Nat) (b b' : Bat)
    (h : io_battle_iter rand b = .ok b')
    (hone : (b.pc_turn = 1 ∧ b.npc_turn = 0) ∨ (b.pc_turn = 0 ∧ b.npc_turn = 1)) :
    (b'.pc_turn = 1 ∧ b'.npc_turn = 0) ∨ (b'.pc_turn = 0 ∧ b'.npc_turn = 1) := by
  obtain ⟨k, rest, t, n, -, ht, hn, -⟩ := battle_iter_cases rand b b' h
  obtain ⟨h1, h2⟩ := battle_iter_turn rand b b' t n h ht hn hone
  cases hres : resolves_fight b with
  | false =>
    obtain ⟨e1, e2⟩ := h1 hres
    rw [e1, e2]
    exact hone
  | true =>
    obtain ⟨g1, g2⟩ := h2 hres
    rcases hone with ⟨p1, -⟩ | ⟨p1, -⟩
    · obtain ⟨f1, f2, -⟩ := g1 p1
      exact Or.inr ⟨f1, f2⟩
    · obtain ⟨f1, f2, -⟩ := g2 p1
      exact Or.inl ⟨f1, f2⟩

/-- Among the passes of a battle that begin with exactly one turn flag set, those that
reach the attacks of the Fight action begin alternately with the flags of the first
state and with the two flags exchanged. -/
theorem battle_passes_alternate (rand : Nat → Nat) (fuel : Nat) : ∀ (b : Bat),
    ((b.pc_turn = 1 ∧ b.npc_turn = 0) ∨ (b.pc_turn = 0 ∧ b.npc_turn = 1)) →
    ∀ (i : Nat) (x : Bat),
      ((io_battle_passes rand fuel b).filter resolves_fight)[i]? = some x →
      (i % 2 = 0 → x.pc_turn = b.pc_turn ∧ x.npc_turn = b.npc_turn) ∧
      (i % 2 = 1 → x.pc_turn = b.npc_turn ∧ x.npc_turn = b.pc_turn) := by
  induction fuel with
  | zero =>
    intro b _ i x hx
    simp [io_battle_passes] at hx
  | succ m ih =>
    intro b hone i x hx
    simp only [io_battle_passes] at hx
    split at hx
    · next hdef =>
      cases hiter : io_battle_iter rand b with
      | error f =>
        simp only [hiter, List.filter_cons, List.filter_nil] at hx
        split at hx
        · cases i with
          | zero =>
            simp only [List.getElem?_cons_zero, Option.some.injEq] at hx
            subst hx
            exact ⟨fun _ => ⟨rfl, rfl⟩, fun hc => (by omega)⟩
          | succ i => simp at hx
        · simp at hx
      | ok b1 =>
        obtain ⟨k, rest, t, n, -, ht, hn, -⟩ := battle_iter_cases rand b b1 hiter
        obtain ⟨h1, h2⟩ := battle_iter_turn rand b b1 t n hiter ht hn hone
        have hone1 := battle_iter_one_flag rand b b1 hiter hone
        simp only [hiter, List.filter_cons] at hx
        cases hres : resolves_fight b with
        | false =>
          simp only [hres, Bool.false_eq_true, if_false] at hx
          obtain ⟨e1, e2⟩ := h1 hres
          have := ih b1 hone1 i x hx
          rw [e1, e2] at this
          exact this
        | true =>
          simp only [hres, if_true] at hx
          obtain ⟨g1, g2⟩ := h2 hres
          have hswap : b1.pc_turn = b.npc_turn ∧ b1.npc_turn = b.pc_turn := by
            rcases hone with ⟨p1, p2⟩ | ⟨p1, p2⟩
            · obtain ⟨f1, f2, -⟩ := g1 p1
              exact ⟨by rw [f1, p2], by rw [f2, p1]⟩
            · obtain ⟨f1, f2, -⟩ := g2 p1
              exact ⟨by rw [f1, p2], by rw [f2, p1]⟩
          cases i with
          | zero =>
            simp only [List.getElem?_cons_zero, Option.some.injEq] at hx
            subst hx
            exact ⟨fun _ => ⟨rfl, rfl⟩, fun hc => (by omega)⟩
          | succ i =>
            simp only [List.getElem?_cons_succ] at hx
            obtain ⟨a1, a2⟩ := ih b1 hone1 i x hx
            rw [hswap.1, hswap.2] at a1 a2
            constructor
            · intro hi
              obtain ⟨c1, c2⟩ := a2 (by omega)
              exact ⟨c1, c2⟩
            · intro hi
              obtain ⟨c1, c2⟩ := a1 (by omega)
              exact ⟨c1, c2⟩
    · simp at hx

/-- Claim C24: a trainer battle begins with `pc_turn = 1` and `npc_turn = 0`, and at the
start of every pass of the loop exactly one of the two flags is set, so the branch of
the Fight action that compares the priorities, taken when both flags are clear, is not
reached.  A pass that reaches the attacks of the Fight action resolves the attack of one
side only, the side whose flag is set, whatever the moves and the speeds are: the
player's attack leaves the player as it was, the trainer's attack leaves the trainer's
party as it was, and the flags are handed over; any other pass leaves the flags as they
were.  Counting these passes from 0, the player attacks in the passes of even number and
the trainer in the passes of odd number: the player attacks first and the two sides
alternate.  The bound on the passes is arbitrary. -/
theorem C24_turn_flags (rand : Nat → Nat) (s : Sys) (npc : Npc) (fuel : Nat) :
    ((battle_init s npc).pc_turn = 1 ∧ (battle_init s npc).npc_turn = 0) ∧
    (∀ b ∈ io_battle_passes rand fuel (battle_init s npc),
      ((b.pc_turn = 1 ∧ b.npc_turn = 0) ∨ (b.pc_turn = 0 ∧ b.npc_turn = 1)) ∧
        ¬ (b.pc_turn = 0 ∧ b.npc_turn = 0)) ∧
    (∀ b ∈ io_battle_passes rand fuel (battle_init s npc),
      ∀ (b' : Bat) (t n : Pokemon), io_battle_iter rand b = .ok b' →
      vec_at b.sys.pc.poke b.pc_poke = .ok t → vec_at b.npc.poke b.trainer_poke = .ok n →
      (resolves_fight b = false → b'.pc_turn = b.pc_turn ∧ b'.npc_turn = b.npc_turn) ∧
      (resolves_fight b = true →
        (b.pc_turn = 1 →
          b'.pc_turn = 0 ∧ b'.npc_turn = 1 ∧ b'.sys.pc = b.sys.pc ∧
            ∃ n', (n' = n ∨ ∃ damage, n' = n.subtract_hp damage) ∧
              b'.npc.poke = b.npc.poke.set b.trainer_poke.toNat n') ∧
        (b.pc_turn = 0 →
          b'.pc_turn = 1 ∧ b'.npc_turn = 0 ∧ b'.npc.poke = b.npc.poke ∧
            ∃ t', (t' = t ∨ ∃ damage, t' = t.subtract_hp damage) ∧
              b'.sys.pc = set_poke b.sys.pc b.pc_poke t'))) ∧
    (∀ (i : Nat) (b : Bat),
      ((io_battle_passes rand fuel (battle_init s npc)).filter resolves_fight)[i]? = some b →
      (i % 2 = 0 → b.pc_turn = 1 ∧ b.npc_turn = 0) ∧
      (i % 2 = 1 → b.pc_turn = 0 ∧ b.npc_turn = 1)) := by
  have hinv : ∀ b ∈ io_battle_passes rand fuel (battle_init s npc),
      (b.pc_turn = 1 ∧ b.npc_turn = 0) ∨ (b.pc_turn = 0 ∧ b.npc_turn = 1) :=
    fun b hb => (battle_passes_induction rand
      (fun b => (b.pc_turn = 1 ∧ b.npc_turn = 0) ∨ (b.pc_turn = 0 ∧ b.npc_turn = 1))
      (fun b b' _ hP hiter _ => battle_iter_one_flag rand b b' hiter hP)
      fuel (battle_init s npc) (fun _ => Or.inl ⟨rfl, rfl⟩) b hb).1
  refine ⟨⟨rfl, rfl⟩, ?_, ?_, ?_⟩
  · intro b hb
    refine ⟨hinv b hb, ?_⟩
    rintro ⟨h1, h2⟩
    rcases hinv b hb with ⟨p1, -⟩ | ⟨-, p2⟩ <;> omega
  · intro b hb b' t n hiter ht hn
    exact battle_iter_turn rand b b' t n hiter ht hn (hinv b hb)
  · intro i b hb
    exact battle_passes_alternate rand fuel (battle_init s npc) (Or.inl ⟨rfl, rfl⟩) i b hb

/-- Witness of C24: two Fights in a row against the sample trainer, whose first move has
the higher priority.  The first is the player's attack (the trainer's Pokemon goes from
hp 20 to 16); the second pass begins with the flags `(0, 1)` and is the trainer's attack
(the player's Pokemon goes from hp 35 to 31), after which the flags are `(1, 0)`. -/
theorem C24_turn_flags_witness :
    ((io_battle_passes rand_zero 3
        (battle_init (Sys.mk sample_pc_hurt [49, 49, 32, 49, 32] 0) sample_trainer)).filter
          resolves_fight)[1]? =
      some { battle_init (Sys.mk sample_pc_hurt [49, 32] 4)
               { sample_trainer with
                 poke := [sample_trainer_mon 16 20, sample_trainer_mon 20 20] } with
             pc_turn := 0, npc_turn := 1 } ∧
    ((0 : Int) = 0 ∧ (1 : Int) = 1) ∧
    io_battle_iter rand_zero
        { battle_init (Sys.mk sample_pc_hurt [49, 32] 4)
            { sample_trainer with
              poke := [sample_trainer_mon 16 20, sample_trainer_mon 20 20] } with
          pc_turn := 0, npc_turn := 1 } =
      .ok (battle_init
        (Sys.mk { sample_pc_hurt with poke := [sample_mon 31 50 10] } [] 8)
        { sample_trainer with
          poke := [sample_trainer_mon 16 20, sample_trainer_mon 20 20] }) :=
  ⟨rfl,
    ((C24_turn_flags rand_zero (Sys.mk sample_pc_hurt [49, 49, 32, 49, 32] 0) sample_trainer
      3).2.2.2 1
      { battle_init (Sys.mk sample_pc_hurt [49, 32] 4)
          { sample_trainer with
            poke := [sample_trainer_mon 16 20, sample_trainer_mon 20 20] } with
        pc_turn := 0, npc_turn := 1 } rfl).2 rfl,
    rfl⟩


/-! ## The value of the damage (claim C23) -/

/-- The double `k / 100.0` is within half a unit in the last place of the exact
quotient: `100 * random_factor_binary64 k` differs from `k * 2 ^ 53` by at most 50. -/
theorem random_factor_error (k : Nat) :
    100 * random_factor_binary64 k ≤ k * 2 ^ 53 + 50 ∧
      k * 2 ^ 53 ≤ 100 * random_factor_binary64 k + 50 := by
  unfold random_factor_binary64
  simp only
  have h1 := Nat.div_add_mod (k * 2 ^ 53) 100
  have h2 := Nat.mod_lt (k * 2 ^ 53) (by norm_num : 100 > 0)
  split <;> omega

/-- Rounding a numerator below `2 ^ 84` to binary64 moves it by at most `2 ^ 30`. -/
theorem round_binary64_error (n : Nat) (hn : n < 2 ^ 84) :
    round_binary64 n ≤ n + 2 ^ 30 ∧ n ≤ round_binary64 n + 2 ^ 30 := by
  by_cases h : bit_length n n ≤ 53
  · rw [round_binary64_small n h]
    omega
  · have h' : 53 < bit_length n n := by omega
    rw [round_binary64_big n h']
    have hn0 : n ≠ 0 := by
      intro h0
      subst h0
      simp [bit_length] at h'
    obtain ⟨h3, -⟩ := (bit_length_spec n n (le_refl n)).2 hn0
    have hbits : bit_length n n ≤ 84 := by
      by_contra hc
      have : 2 ^ 84 ≤ 2 ^ (bit_length n n - 1) :=
        Nat.pow_le_pow_right (by norm_num) (by omega)
      omega
    have hhalf : 2 ^ (bit_length n n - 53 - 1) ≤ 2 ^ 30 :=
      Nat.pow_le_pow_right (by norm_num) (by omega)
    have hpow : 2 ^ (bit_length n n - 53) = 2 * 2 ^ (bit_length n n - 53 - 1) := by
      have : bit_length n n - 53 = (bit_length n n - 53 - 1) + 1 := by omega
      conv_lhs => rw [this, pow_succ]
      ring
    have hdm := Nat.div_add_mod n (2 ^ (bit_length n n - 53))
    have hlt := Nat.mod_lt n (Nat.pow_pos (n := bit_length n n - 53) (by norm_num : 0 < 2))
    have e1 : (n / 2 ^ (bit_length n n - 53) + 1) * 2 ^ (bit_length n n - 53) =
        2 ^ (bit_length n n - 53) * (n / 2 ^ (bit_length n n - 53)) +
          2 ^ (bit_length n n - 53) := by ring
    have e2 : n / 2 ^ (bit_length n n - 53) * 2 ^ (bit_length n n - 53) =
        2 ^ (bit_length n n - 53) * (n / 2 ^ (bit_length n n - 53)) := by ring
    split
    · next hup =>
      rw [e1]
      have hr : 2 ^ (bit_length n n - 53 - 1) ≤ n % 2 ^ (bit_length n n - 53) := by
        rcases hup with hup | ⟨hup, -⟩ <;> omega
      omega
    · next hup =>
      rw [e2]
      have hr : n % 2 ^ (bit_length n n - 53) ≤ 2 ^ (bit_length n n - 53 - 1) := by
        by_contra hc
        exact hup (Or.inl (by omega))
      omega

/-- The truncated double product `b * (k / 100.0)` against the exact quotient
`b * k / 100`, for `b` in the range of `int` and `k ≤ 100`: it is the floor of the exact
quotient when `b * k` is not a multiple of 100, and the quotient or one less when it
is. -/
theorem scaled_exact (b k : Nat) (hb : b < 2 ^ 31) (hk : k ≤ 100) :
    (b * k % 100 ≠ 0 →
      round_binary64 (b * random_factor_binary64 k) / 2 ^ 53 = b * k / 100) ∧
    b * k / 100 ≤ round_binary64 (b * random_factor_binary64 k) / 2 ^ 53 + 1 ∧
    round_binary64 (b * random_factor_binary64 k) / 2 ^ 53 ≤ b * k / 100 := by
  obtain ⟨r1, r2⟩ := random_factor_error k
  have hR : random_factor_binary64 k ≤ 2 ^ 53 := by omega
  have hN : b * random_factor_binary64 k < 2 ^ 84 := by
    calc b * random_factor_binary64 k ≤ b * 2 ^ 53 := Nat.mul_le_mul_left _ hR
      _ < 2 ^ 31 * 2 ^ 53 := Nat.mul_lt_mul_of_pos_right hb (by norm_num)
      _ = 2 ^ 84 := by norm_num
  obtain ⟨x1, x2⟩ := round_binary64_error (b * random_factor_binary64 k) hN
  have n1 : 100 * (b * random_factor_binary64 k) ≤ b * k * 2 ^ 53 + 50 * b := by
    calc 100 * (b * random_factor_binary64 k) = b * (100 * random_factor_binary64 k) := by ring
      _ ≤ b * (k * 2 ^ 53 + 50) := Nat.mul_le_mul_left _ r1
      _ = b * k * 2 ^ 53 + 50 * b := by ring
  have n2 : b * k * 2 ^ 53 ≤ 100 * (b * random_factor_binary64 k) + 50 * b := by
    calc b * k * 2 ^ 53 = b * (k * 2 ^ 53) := by ring
      _ ≤ b * (100 * random_factor_binary64 k + 50) := Nat.mul_le_mul_left _ r2
      _ = 100 * (b * random_factor_binary64 k) + 50 * b := by ring
  refine ⟨fun hr => ?_, ?_, ?_⟩ <;> omega

/-- For a non-negative integer part `b` and a non-negative `k` the exact damage is the
quotient of `b * k` by 100. -/
theorem exact_damage_eq (a d : Pokemon) (m : Move) (k b : Int)
    (hb : b = (((2 * a.level).tdiv 5 + 2) * m.power *
      (a.stat_atk.tdiv d.stat_def)).tdiv 50 + 2)
    (hb0 : 0 ≤ b) (hk : 0 ≤ k) : exact_damage a d m k = b * k / 100 := by
  unfold exact_damage
  simp only
  rw [← hb]
  have hx : (0 : ℚ) ≤ (b : ℚ) * ((k : ℚ) / 100) := by
    have h1 : (0 : ℚ) ≤ (b : ℚ) := by exact_mod_cast hb0
    have h2 : (0 : ℚ) ≤ (k : ℚ) := by exact_mod_cast hk
    positivity
  rw [if_pos hx]
  have hcast : (b : ℚ) * ((k : ℚ) / 100) = ((b * k : Int) : ℚ) / ((100 : Nat) : ℚ) := by
    push_cast
    ring
  rw [hcast, Rat.floor_intCast_div_natCast]
  rfl

/-- Claim C23 fails: a level 68 attacker with `atk` 190 hits a defender with `def` 10
with a move of power 195, and the random-factor draw is `k = 94`.  The integer part is
`B = (29 * 195 * 19) / 50 + 2 = 2150` and `B * k / 100 = 2021` exactly, but the double
`94 / 100.0` lies below 0.94, the double product is `2020.9999999999998`, and the damage
is 2020. -/
theorem C23_damage_below_exact :
    (((2 * sample_veteran.level).tdiv 5 + 2) * sample_heavy.power *
      (sample_veteran.stat_atk.tdiv (sample_mon 15 15 40).stat_def)).tdiv 50 + 2 = 2150 ∧
    ((9 : Nat) : Int).tmod 16 + 85 = 94 ∧
    compute_damage sample_veteran (sample_mon 15 15 40) 0 ((30 : Nat) : Int)
      ((9 : Nat) : Int) = .ok 2020 ∧
    exact_damage sample_veteran (sample_mon 15 15 40) sample_heavy 94 = 2021 := by
  refine ⟨by decide, by decide, rfl, ?_⟩
  rw [exact_damage_eq sample_veteran (sample_mon 15 15 40) sample_heavy 94 2150 (by decide)
    (by decide) (by decide)]
  decide

/-- Claim C23 as amended: `critical` and `stab` are `int` variables and hold 1, so the
damage of a hit depends on the level and the `atk` of the attacker, the power of the
move, the `def` of the defender and the random-factor draw alone: every attacker of the
same level and `atk` with a move of the same power gets the same result, whatever its
`base_speed`, its types, the type of the move and the critical draw are.  When
`atk / def` is defined and `2 * level` and the product
`((2 * level) / 5 + 2) * power * (atk / def)` stay in the range of `int`, the damage is
computed without fault; with
`B = ((2 * level / 5 + 2) * power * (atk / def)) / 50 + 2` (truncating division
throughout) non-negative and `k = rand() % 16 + 85` in 85..100, it is the double product
`B * (k / 100.0)` rounded to binary64 and truncated; it equals `trunc(B * k / 100)` in
exact arithmetic when `B * k` is not a multiple of 100, and is that value or one less
when it is.  For level at least 1, non-negative power and `atk` and positive `def`,
`2 ≤ B` and `1 ≤ damage ≤ B`. -/
theorem C23_damage_value (a d : Pokemon) (mv : Int) (m : Move) (crit_draw rand_draw : Nat)
    (hm : a.get_move mv = .ok m) :
    (∀ (a' : Pokemon) (m' : Move) (crit_draw' : Int), a'.get_move mv = .ok m' →
      a'.level = a.level → a'.stat_atk = a.stat_atk → m'.power = m.power →
      compute_damage a' d mv crit_draw' rand_draw =
        compute_damage a d mv crit_draw rand_draw) ∧
    (d.stat_def ≠ 0 → ¬ (a.stat_atk = -2 ^ 31 ∧ d.stat_def = -1) →
      (-2 ^ 31 ≤ 2 * a.level ∧ 2 * a.level < 2 ^ 31) →
      (-2 ^ 31 ≤ ((2 * a.level).tdiv 5 + 2) * m.power * (a.stat_atk.tdiv d.stat_def) ∧
        ((2 * a.level).tdiv 5 + 2) * m.power * (a.stat_atk.tdiv d.stat_def) < 2 ^ 31) →
      ∃ (b : Int) (k : Nat) (damage : Int),
        b = (((2 * a.level).tdiv 5 + 2) * m.power *
          (a.stat_atk.tdiv d.stat_def)).tdiv 50 + 2 ∧
        (k : Int) = (rand_draw : Int).tmod 16 + 85 ∧ 85 ≤ k ∧ k ≤ 100 ∧
        compute_damage a d mv crit_draw rand_draw = .ok damage ∧
        (0 ≤ b →
          damage = trunc_binary64 (round_binary64 (b.natAbs * random_factor_binary64 k)) ∧
          ((b * k) % 100 ≠ 0 → damage = exact_damage a d m k) ∧
          exact_damage a d m k - 1 ≤ damage ∧ damage ≤ exact_damage a d m k) ∧
        (1 ≤ a.level → 0 ≤ m.power → 0 ≤ a.stat_atk → 0 < d.stat_def →
          2 ≤ b ∧ 1 ≤ damage ∧ damage ≤ b)) := by
  refine ⟨fun a' m' crit_draw' hm' hl ha hp =>
    compute_damage_indep a a' d mv m m' crit_draw crit_draw' rand_draw hm hm' hl ha hp, ?_⟩
  intro hd hdiv hl hprod
  have hk0 := Int.tmod_nonneg 16 (Int.natCast_nonneg rand_draw)
  have hk1 := Int.tmod_lt_of_pos (rand_draw : Int) (by norm_num : (0 : Int) < 16)
  have hkeq : ((((rand_draw : Int).tmod 16 + 85).toNat : Nat) : Int) =
      (rand_draw : Int).tmod 16 + 85 := Int.toNat_of_nonneg (by omega)
  have hval : ∀ (b : Int) (k : Nat), 0 ≤ b → b < 2 ^ 31 → k ≤ 100 →
      ((b * k) % 100 ≠ 0 →
        trunc_binary64 (round_binary64 (b.natAbs * random_factor_binary64 k)) = b * k / 100) ∧
      b * k / 100 - 1 ≤
        trunc_binary64 (round_binary64 (b.natAbs * random_factor_binary64 k)) ∧
      trunc_binary64 (round_binary64 (b.natAbs * random_factor_binary64 k)) ≤ b * k / 100 := by
    intro b k hb0 hb1 hk
    obtain ⟨n, rfl⟩ := Int.eq_ofNat_of_zero_le hb0
    have hn : n < 2 ^ 31 := by exact_mod_cast hb1
    obtain ⟨v1, v2, v3⟩ := scaled_exact n k hn hk
    simp only [Int.natAbs_ofNat, trunc_binary64]
    refine ⟨fun hr => ?_, ?_, ?_⟩ <;> omega
  have hb1 : (((2 * a.level).tdiv 5 + 2) * m.power *
      (a.stat_atk.tdiv d.stat_def)).tdiv 50 + 2 < 2 ^ 31 := by
    have := (tdiv_range _ hprod.1 hprod.2).2
    omega
  refine ⟨_, ((rand_draw : Int).tmod 16 + 85).toNat, _, rfl, hkeq, by omega, by omega,
    compute_damage_eq a d mv m crit_draw rand_draw _ hm hd hdiv hl hprod rfl, ?_, ?_⟩
  · intro hb0
    rw [if_pos hb0, mul_binary64_one]
    obtain ⟨v1, v2, v3⟩ := hval _ _ hb0 hb1 (by omega : ((rand_draw : Int).tmod 16 + 85).toNat ≤ 100)
    have hex := exact_damage_eq a d m (((rand_draw : Int).tmod 16 + 85).toNat : Nat) _ rfl hb0
      (Int.natCast_nonneg _)
    rw [hex]
    exact ⟨rfl, v1, v2, v3⟩
  · intro hlv hp ha hdp
    have hr0 : 0 ≤ a.stat_atk.tdiv d.stat_def := Int.tdiv_nonneg ha (le_of_lt hdp)
    have hL : 0 ≤ (2 * a.level).tdiv 5 + 2 := by
      have := Int.tdiv_nonneg (a := 2 * a.level) (b := 5) (by omega) (by norm_num)
      omega
    have hX0 : 0 ≤ ((2 * a.level).tdiv 5 + 2) * m.power * (a.stat_atk.tdiv d.stat_def) :=
      mul_nonneg (mul_nonneg hL hp) hr0
    have hB2 : 2 ≤ (((2 * a.level).tdiv 5 + 2) * m.power *
        (a.stat_atk.tdiv d.stat_def)).tdiv 50 + 2 := by
      have := Int.tdiv_nonneg hX0 (by norm_num : (0 : Int) ≤ 50)
      omega
    have hb0 : 0 ≤ (((2 * a.level).tdiv 5 + 2) * m.power *
        (a.stat_atk.tdiv d.stat_def)).tdiv 50 + 2 := by omega
    rw [if_pos hb0, mul_binary64_one]
    obtain ⟨v1, v2, v3⟩ := hval _ _ hb0 hb1 (by omega : ((rand_draw : Int).tmod 16 + 85).toNat ≤ 100)
    have hk85 : (85 : Int) ≤ ((((rand_draw : Int).tmod 16 + 85).toNat : Nat) : Int) := by omega
    have hk100 : ((((rand_draw : Int).tmod 16 + 85).toNat : Nat) : Int) ≤ 100 := by omega
    have h170 : 170 ≤ ((((2 * a.level).tdiv 5 + 2) * m.power *
        (a.stat_atk.tdiv d.stat_def)).tdiv 50 + 2) *
        ((((rand_draw : Int).tmod 16 + 85).toNat : Nat) : Int) := by nlinarith
    have hle : ((((2 * a.level).tdiv 5 + 2) * m.power *
        (a.stat_atk.tdiv d.stat_def)).tdiv 50 + 2) *
        ((((rand_draw : Int).tmod 16 + 85).toNat : Nat) : Int) ≤
        100 * ((((2 * a.level).tdiv 5 + 2) * m.power *
        (a.stat_atk.tdiv d.stat_def)).tdiv 50 + 2) := by nlinarith
    refine ⟨hB2, ?_, ?_⟩ <;> omega

/-- Witness of C23 as amended: the hit of the counterexample, where `B = 2150` and
`k = 94`, so that `B * k` is a multiple of 100 and the damage 2020 is one less than the
exact value 2021. -/
theorem C23_damage_value_witness :
    ∃ (b : Int) (k : Nat) (damage : Int),
      b = (((2 * sample_veteran.level).tdiv 5 + 2) * sample_heavy.power *
        (sample_veteran.stat_atk.tdiv (sample_mon 15 15 40).stat_def)).tdiv 50 + 2 ∧
      (k : Int) = ((9 : Nat) : Int).tmod 16 + 85 ∧ 85 ≤ k ∧ k ≤ 100 ∧
      compute_damage sample_veteran (sample_mon 15 15 40) 0 ((30 : Nat) : Int)
        ((9 : Nat) : Int) = .ok damage ∧
      (0 ≤ b →
        damage = trunc_binary64 (round_binary64 (b.natAbs * random_factor_binary64 k)) ∧
        ((b * k) % 100 ≠ 0 →
          damage = exact_damage sample_veteran (sample_mon 15 15 40) sample_heavy k) ∧
        exact_damage sample_veteran (sample_mon 15 15 40) sample_heavy k - 1 ≤ damage ∧
        damage ≤ exact_damage sample_veteran (sample_mon 15 15 40) sample_heavy k) ∧
      (1 ≤ sample_veteran.level → 0 ≤ sample_heavy.power → 0 ≤ sample_veteran.stat_atk →
        0 < (sample_mon 15 15 40).stat_def →
        2 ≤ b ∧ 1 ≤ damage ∧ damage ≤ b) :=
  (C23_damage_value sample_veteran (sample_mon 15 15 40) 0 sample_heavy 30 9 rfl).2
    (by decide) (by decide) (by decide) (by decide)


/-! ## Accuracy in the two flows (claim C13) -/

end PokemonC
